import Mathlib

/-!
# Ogre::Image: surface layout and in-place image operations

A shallow embedding of `OgreMain/src/OgreImage.cpp`.

* `uint32`, `ushort`, `uint8` and `size_t` values are natural numbers; where the
  C++ arithmetic can wrap, the wrap is written out (`% SIZE_MOD`, `% UINT32_MOD`,
  `% USHORT_MOD`, `% UINT8_MOD`).  `size_t` is 64 bits wide.
* A pixel buffer is a list of bytes; a pointer into the buffer of an image is the
  byte offset from `mBuffer`.
* The pixel-format catalogue (`PixelUtil`) is not part of the translated file; its
  functions are fields of the structure `PixelUtil` and every definition takes the
  catalogue as its first argument.
* A loop whose C++ counter can wrap before the exit test fails takes a fuel
  argument and returns `none` when the fuel runs out.
-/

namespace Ogre

/-! ## Machine integers -/

/-- Number of values of `size_t`. -/
def SIZE_MOD : Nat := 2 ^ 64

/-- Number of values of `uint32`. -/
def UINT32_MOD : Nat := 2 ^ 32

/-- Number of values of `ushort`. -/
def USHORT_MOD : Nat := 2 ^ 16

/-- Number of values of `uint8` and `uchar`. -/
def UINT8_MOD : Nat := 2 ^ 8

/-! ## Pixel formats, exception codes, externals -/

/-- The pixel formats that `OgreImage.cpp` names, and `PF_OTHER` for the rest of the
enumeration (declared in `OgrePixelFormat.h`). -/
inductive PixelFormat
  | PF_UNKNOWN
  | PF_L8
  | PF_R8
  | PF_A8
  | PF_BYTE_LA
  | PF_R8G8B8
  | PF_B8G8R8
  | PF_R8G8B8A8
  | PF_B8G8R8A8
  | PF_A8B8G8R8
  | PF_A8R8G8B8
  | PF_X8B8G8R8
  | PF_X8R8G8B8
  | PF_FLOAT32_RGB
  | PF_FLOAT32_RGBA
  | PF_OTHER (id : Nat)
  deriving DecidableEq, Repr

/-- The exception codes raised in `OgreImage.cpp`. -/
inductive ExceptionCode
  | ERR_INVALIDPARAMS
  | ERR_NOT_IMPLEMENTED
  | ERR_INTERNAL_ERROR
  | ERR_RT_ASSERTION_FAILED
  deriving DecidableEq, Repr

/-- How the file is compiled.  `cAsserts`: the C `assert` macro is active (no `NDEBUG`).
`ogreAssertCode`: the code of the exception that a failed `OgreAssert` raises; the macro
is defined in `OgreException.h`, outside the sources. -/
structure Build where
  cAsserts : Bool
  ogreAssertCode : ExceptionCode

/-- The functions of `Ogre::PixelUtil` that the layout code calls.  They are defined
outside `OgreImage.cpp`, so they are parameters of the embedding. -/
structure PixelUtil where
  /-- Size of one element of the format, in bytes. -/
  getNumElemBytes : PixelFormat → Nat
  /-- Is the format block-compressed? -/
  isCompressed : PixelFormat → Bool
  /-- Number of colour components of the format. -/
  getComponentCount : PixelFormat → Nat
  /-- Bytes taken by a `width × height × depth` block in the format. -/
  getMemorySize : Nat → Nat → Nat → PixelFormat → Nat
  /-- Can single pixels of the format be read and written? -/
  isAccessible : PixelFormat → Bool

/-- Modelled from the spec: `PixelUtil::getMemorySize` is defined outside the sources.
The spec says: "`memorySize` for compressed formats is the block-aligned footprint; for
uncompressed formats it is `width*height*depth*elementByteSize`."  This predicate is
the second half, for one format. -/
def PixelUtil.Uncompressed (P : PixelUtil) (format : PixelFormat) : Prop :=
  P.isCompressed format = false ∧
    ∀ w h d : Nat, P.getMemorySize w h d format = w * h * d * P.getNumElemBytes format

/-- Modelled from the spec: a concrete catalogue used to evaluate the embedding on
examples.  The named formats have their usual element sizes and component counts and
follow `width*height*depth*elementByteSize`; every `PF_OTHER` format is treated as a
block-compressed format with 4×4 blocks of 8 bytes. -/
def sampleCatalogue : PixelUtil where
  getNumElemBytes
    | .PF_UNKNOWN => 0
    | .PF_L8 | .PF_R8 | .PF_A8 => 1
    | .PF_BYTE_LA => 2
    | .PF_R8G8B8 | .PF_B8G8R8 => 3
    | .PF_R8G8B8A8 | .PF_B8G8R8A8 | .PF_A8B8G8R8 | .PF_A8R8G8B8
    | .PF_X8B8G8R8 | .PF_X8R8G8B8 => 4
    | .PF_FLOAT32_RGB => 12
    | .PF_FLOAT32_RGBA => 16
    | .PF_OTHER _ => 0
  isCompressed
    | .PF_OTHER _ => true
    | _ => false
  getComponentCount
    | .PF_UNKNOWN => 0
    | .PF_L8 | .PF_R8 | .PF_A8 => 1
    | .PF_BYTE_LA => 2
    | .PF_R8G8B8 | .PF_B8G8R8 | .PF_FLOAT32_RGB => 3
    | .PF_R8G8B8A8 | .PF_B8G8R8A8 | .PF_A8B8G8R8 | .PF_A8R8G8B8
    | .PF_X8B8G8R8 | .PF_X8R8G8B8 | .PF_FLOAT32_RGBA => 4
    | .PF_OTHER _ => 3
  getMemorySize w h d
    | .PF_UNKNOWN => 0
    | .PF_L8 | .PF_R8 | .PF_A8 => w * h * d * 1
    | .PF_BYTE_LA => w * h * d * 2
    | .PF_R8G8B8 | .PF_B8G8R8 => w * h * d * 3
    | .PF_R8G8B8A8 | .PF_B8G8R8A8 | .PF_A8B8G8R8 | .PF_A8R8G8B8
    | .PF_X8B8G8R8 | .PF_X8R8G8B8 => w * h * d * 4
    | .PF_FLOAT32_RGB => w * h * d * 12
    | .PF_FLOAT32_RGBA => w * h * d * 16
    | .PF_OTHER _ => ((w + 3) / 4) * ((h + 3) / 4) * 8 * d
  isAccessible
    | .PF_UNKNOWN => false
    | .PF_OTHER _ => false
    | _ => true

/-! ## The image -/

/-- Modelled from the spec: `enum ImageFlags` is declared in `OgreImage.h`, outside the
sources; the spec describes "a bit-flag set (compressed / 3D / cubemap)".  The three
flags are distinct single bits. -/
def IF_COMPRESSED : Nat := 1

/-- Modelled from the spec: the cubemap bit of `enum ImageFlags` (see `IF_COMPRESSED`). -/
def IF_CUBEMAP : Nat := 2

/-- Modelled from the spec: the 3D bit of `enum ImageFlags` (see `IF_COMPRESSED`). -/
def IF_3D_TEXTURE : Nat := 4

/-- The data members of `Ogre::Image`.  `mBuffer = none` is the null pointer. -/
structure Image where
  mWidth : Nat
  mHeight : Nat
  mDepth : Nat
  mBufSize : Nat
  mNumMipmaps : Nat
  mFlags : Nat
  mFormat : PixelFormat
  mPixelSize : Nat
  mBuffer : Option (List Nat)
  mAutoDelete : Bool
  deriving DecidableEq, Repr

/-- The region descriptor `Ogre::PixelBox` as built by `Image::getPixelBox`: the extent
of a tightly packed region, its format, and `data` as a byte offset from `mBuffer`. -/
structure PixelBox where
  width : Nat
  height : Nat
  depth : Nat
  format : PixelFormat
  data : Nat
  deriving DecidableEq, Repr

/-- The accessor `Image::getNumMipmaps`. -/
def Image.getNumMipmaps (img : Image) : Nat := img.mNumMipmaps

/-- The accessor `Image::getWidth`. -/
def Image.getWidth (img : Image) : Nat := img.mWidth

/-- The accessor `Image::getHeight`. -/
def Image.getHeight (img : Image) : Nat := img.mHeight

/-- The accessor `Image::getDepth`. -/
def Image.getDepth (img : Image) : Nat := img.mDepth

/-- The accessor `Image::getFormat`. -/
def Image.getFormat (img : Image) : PixelFormat := img.mFormat

/-- The accessor `Image::getSize`. -/
def Image.getSize (img : Image) : Nat := img.mBufSize

/-- The test `Image::hasFlag`: `(mFlags & imgFlag) != 0`. -/
def Image.hasFlag (img : Image) (imgFlag : Nat) : Bool := (img.mFlags &&& imgFlag) != 0

/-- The accessor `Image::getNumFaces`: 6 for a cubemap, 1 otherwise. -/
def Image.getNumFaces (img : Image) : Nat :=
  if img.hasFlag IF_CUBEMAP then 6 else 1

/-! ## Surface layout -/

/-- One halving step of a dimension: `if (x != 1) x /= 2;`. -/
def halve (x : Nat) : Nat := if x ≠ 1 then x / 2 else x

/-- The loop of `Image::calculateSize`, with `n` iterations left. -/
def calculateSizeLoop (P : PixelUtil) (faces : Nat) (format : PixelFormat) :
    Nat → Nat → Nat → Nat → Nat → Nat
  | 0, size, _, _, _ => size
  | n + 1, size, width, height, depth =>
      calculateSizeLoop P faces format n
        ((size + P.getMemorySize width height depth format * faces) % SIZE_MOD)
        (halve width) (halve height) (halve depth)

/-- The function `Image::calculateSize(mipmaps, faces, width, height, depth, format)`.  The loop
`for (size_t mip = 0; mip <= mipmaps; ++mip)` runs `mipmaps + 1` times; this is the C++
behaviour for `mipmaps < SIZE_MOD - 1` (every caller in the file passes a `uint32`). -/
def calculateSize (P : PixelUtil) (mipmaps faces width height depth : Nat)
    (format : PixelFormat) : Nat :=
  calculateSizeLoop P faces format (mipmaps + 1) 0 width height depth

/-- The local variables of the loop of `Image::getPixelBox`. -/
structure MipScan where
  width : Nat
  height : Nat
  depth : Nat
  fullFaceSize : Nat
  finalFaceSize : Nat
  finalWidth : Nat
  finalHeight : Nat
  finalDepth : Nat
  deriving DecidableEq, Repr

/-- The body of the loop of `Image::getPixelBox` at index `mip`. -/
def mipScanStep (P : PixelUtil) (format : PixelFormat) (mipmap mip : Nat) (s : MipScan) :
    MipScan :=
  let s1 : MipScan :=
    if mip = mipmap then
      { s with finalFaceSize := s.fullFaceSize, finalWidth := s.width,
               finalHeight := s.height, finalDepth := s.depth }
    else s
  { s1 with
    fullFaceSize := (s1.fullFaceSize + P.getMemorySize s1.width s1.height s1.depth format)
      % SIZE_MOD,
    width := halve s1.width, height := halve s1.height, depth := halve s1.depth }

/-- The loop `for (size_t mip = 0; mip <= numMips; ++mip)` of `Image::getPixelBox`, with
`n` iterations left and the counter at `mip`. -/
def mipScanLoop (P : PixelUtil) (format : PixelFormat) (mipmap : Nat) :
    Nat → Nat → MipScan → MipScan
  | 0, _, s => s
  | n + 1, mip, s => mipScanLoop P format mipmap n (mip + 1) (mipScanStep P format mipmap mip s)

/-- The function `Image::getPixelBox(face, mipmap)`.  `numMips` is a `uint32`, so the loop runs
`numMips + 1` times.  `face * fullFaceSize` is a `size_t` product. -/
def getPixelBox (P : PixelUtil) (img : Image) (face mipmap : Nat) :
    Except ExceptionCode PixelBox :=
  if mipmap > img.getNumMipmaps then .error .ERR_NOT_IMPLEMENTED
  else if face ≥ img.getNumFaces then .error .ERR_INVALIDPARAMS
  else
    let s := mipScanLoop P img.getFormat mipmap (img.getNumMipmaps + 1) 0
      { width := img.getWidth, height := img.getHeight, depth := img.getDepth,
        fullFaceSize := 0, finalFaceSize := 0,
        finalWidth := 0, finalHeight := 0, finalDepth := 0 }
    .ok { width := s.finalWidth, height := s.finalHeight, depth := s.finalDepth,
          format := img.getFormat,
          data := (face * s.fullFaceSize) % SIZE_MOD + s.finalFaceSize }

/-- A call of the `const` member function `Image::getPixelBox` on an object: the result
and the object after the call.  The body assigns to locals only. -/
def Image.callGetPixelBox (P : PixelUtil) (img : Image) (face mipmap : Nat) :
    Except ExceptionCode PixelBox × Image :=
  (getPixelBox P img face mipmap, img)

/-! ## Member functions that change the image -/

/-- How a call of a member function of `Image` ends: it returns, with the object in the
given state; or an exception with the given code propagates out of it, the object being
in the given state at the `throw`; or a failed C `assert` stops the program; or the
call reads or writes outside the buffers it was given (undefined behaviour). -/
inductive Outcome
  | returned (img : Image)
  | raised (code : ExceptionCode) (img : Image)
  | aborted
  | outOfBounds
  deriving DecidableEq, Repr

/-- The function `Image::freeMemory`: an owned buffer is released and the pointer nulled. -/
def freeMemory (img : Image) : Image :=
  if img.mBuffer.isSome && img.mAutoDelete then { img with mBuffer := none } else img

/-- The function `Image::loadDynamicImage(pData, uWidth, uHeight, depth, eFormat, autoDelete, numFaces,
numMipMaps)`.  `mPixelSize` is a `uchar`. -/
def loadDynamicImage (P : PixelUtil) (img : Image) (pData : Option (List Nat))
    (uWidth uHeight depth : Nat) (eFormat : PixelFormat) (autoDelete : Bool)
    (numFaces numMipMaps : Nat) : Outcome :=
  let i0 := freeMemory img
  let i1 : Image :=
    { i0 with mWidth := uWidth, mHeight := uHeight, mDepth := depth, mFormat := eFormat,
              mPixelSize := P.getNumElemBytes eFormat % UINT8_MOD,
              mNumMipmaps := numMipMaps, mFlags := 0 }
  let i2 : Image :=
    if P.isCompressed eFormat then { i1 with mFlags := i1.mFlags ||| IF_COMPRESSED } else i1
  let i3 : Image :=
    if i2.mDepth ≠ 1 then { i2 with mFlags := i2.mFlags ||| IF_3D_TEXTURE } else i2
  let i4 : Image :=
    if numFaces = 6 then { i3 with mFlags := i3.mFlags ||| IF_CUBEMAP } else i3
  if numFaces ≠ 6 ∧ numFaces ≠ 1 then .raised .ERR_INVALIDPARAMS i4
  else
    .returned { i4 with
      mBufSize := calculateSize P numMipMaps numFaces uWidth uHeight depth eFormat,
      mBuffer := pData, mAutoDelete := autoDelete }

/-- The constructor `Image::Image(format, width, height, depth, buffer, autoDelete)`.  The constructor
does not initialise `mPixelSize`: `uninit` is the value the member happens to hold.
`fresh n` is the content of a newly allocated block of `n` bytes.  The call of
`loadDynamicImage` uses the default arguments `numFaces = 1`, `numMipMaps = 0`. -/
def Image.construct (P : PixelUtil) (fresh : Nat → List Nat) (uninit : Nat)
    (format : PixelFormat) (width height depth : Nat) (buffer : Option (List Nat))
    (autoDelete : Bool) : Outcome :=
  let i0 : Image :=
    { mWidth := 0, mHeight := 0, mDepth := 0, mBufSize := 0, mNumMipmaps := 0, mFlags := 0,
      mFormat := format, mPixelSize := uninit, mBuffer := none, mAutoDelete := true }
  if format = .PF_UNKNOWN then .returned i0
  else
    let size := calculateSize P 0 1 width height depth i0.mFormat
    if size = 0 then .returned i0
    else
      let buffer1 := match buffer with
        | none => some (fresh size)
        | some b => some b
      loadDynamicImage P i0 buffer1 width height depth format autoDelete 1 0

/-- The call `std::reverse(p + first, p + last)` where `p` points at the start of `buf` and the
pointee type is `elem` bytes wide: the elements `first .. last-1` appear in reverse order,
the bytes inside each element keep their order.  With `last ≤ first` no element lies in
the range and the buffer is returned as it is (for `last < first` the call is outside the
contract of `std::reverse`). -/
def reverseElements (elem first last : Nat) (buf : List Nat) : List Nat :=
  (List.range buf.length).map fun i =>
    if first * elem ≤ i ∧ i < last * elem then
      buf.getD (first * elem + (last - first - 1 - (i - first * elem) / elem) * elem
        + (i - first * elem) % elem) 0
    else buf.getD i 0

/-- The row loop of `Image::flipAroundY`, `for (y = 0; y < mHeight; y++)` with
`ushort y`, for elements of `elem` bytes.  `mWidth * y` and `mWidth * (y + 1)` are
`uint32` products.  One unit of fuel is used for each evaluation of the loop test. -/
def flipRowsLoop (elem width height : Nat) : Nat → Nat → List Nat → Option (List Nat)
  | 0, _, _ => none
  | fuel + 1, y, buf =>
      if y < height then
        flipRowsLoop elem width height fuel ((y + 1) % USHORT_MOD)
          (reverseElements elem ((width * y) % UINT32_MOD) ((width * (y + 1)) % UINT32_MOD) buf)
      else some buf

/-- The function `Image::flipAroundY`.  `none`: the row loop is still running when the fuel is used
up. -/
def flipAroundY (fuel : Nat) (img : Image) : Option Outcome :=
  match img.mBuffer with
  | none => some (.raised .ERR_INTERNAL_ERROR img)
  | some buf =>
    let img1 : Image := { img with mNumMipmaps := 0 }
    match img1.mPixelSize with
    | 1 => (flipRowsLoop 1 img1.mWidth img1.mHeight fuel 0 buf).map
        fun b => .returned { img1 with mBuffer := some b }
    | 2 => (flipRowsLoop 2 img1.mWidth img1.mHeight fuel 0 buf).map
        fun b => .returned { img1 with mBuffer := some b }
    | 3 => (flipRowsLoop 3 img1.mWidth img1.mHeight fuel 0 buf).map
        fun b => .returned { img1 with mBuffer := some b }
    | 4 => (flipRowsLoop 4 img1.mWidth img1.mHeight fuel 0 buf).map
        fun b => .returned { img1 with mBuffer := some b }
    | _ => some (.raised .ERR_INTERNAL_ERROR img1)

/-- Modelled from the spec: `PixelUtil::bulkPixelVerticalFlip` is defined outside the
sources.  The spec calls it "a bulk vertical-flip routine over the full pixel region"
that makes the X-flip a "row-order reversal": in every depth slice of the region the rows
(of `width` elements) appear in reverse order. -/
def bulkPixelVerticalFlip (P : PixelUtil) (box : PixelBox) (buf : List Nat) : List Nat :=
  let rowBytes := box.width * P.getNumElemBytes box.format
  let sliceBytes := rowBytes * box.height
  (List.range buf.length).map fun i =>
    if box.data ≤ i ∧ i < box.data + sliceBytes * box.depth then
      buf.getD (box.data + ((i - box.data) / sliceBytes) * sliceBytes
        + (box.height - 1 - ((i - box.data) % sliceBytes) / rowBytes) * rowBytes
        + (i - box.data) % rowBytes) 0
    else buf.getD i 0

/-- The function `Image::flipAroundX`.  `getPixelBox()` is `getPixelBox(0, 0)`. -/
def flipAroundX (P : PixelUtil) (img : Image) : Outcome :=
  match img.mBuffer with
  | none => .raised .ERR_INTERNAL_ERROR img
  | some buf =>
    let img1 : Image := { img with mNumMipmaps := 0 }
    match getPixelBox P img1 0 0 with
    | .error code => .raised code img1
    | .ok box => .returned { img1 with mBuffer := some (bulkPixelVerticalFlip P box buf) }

/-! ## Scaling -/

/-- The values of `Image::Filter` that `Image::scale` names, and `FILTER_OTHER` for the
rest of the enumeration. -/
inductive Filter
  | FILTER_NEAREST
  | FILTER_LINEAR
  | FILTER_BILINEAR
  | FILTER_OTHER (id : Nat)
  deriving DecidableEq, Repr

/-- The resamplers of `OgreImageResampler.h` and `PixelUtil::bulkPixelConversion`, all
defined outside `OgreImage.cpp`.  Each takes the source box and the memory it points
into, the destination box and the memory it points into, and gives the destination
memory after the call.  The first argument of `nearest` and `linearByte` is the template
argument (the element size). -/
structure Resamplers where
  nearest : Nat → PixelBox → List Nat → PixelBox → List Nat → List Nat
  linearByte : Nat → PixelBox → List Nat → PixelBox → List Nat → List Nat
  linearFloat32 : PixelBox → List Nat → PixelBox → List Nat → List Nat
  linear : PixelBox → List Nat → PixelBox → List Nat → List Nat
  bulkPixelConversion : PixelBox → List Nat → PixelBox → List Nat → List Nat

/-- Which resampler a call of `Image::scale` invoked. -/
inductive ResamplerKind
  | nearest (elemBytes : Nat)
  | linearByte (elemBytes : Nat)
  | linearFloat32
  | linear
  deriving DecidableEq, Repr

/-- What a completed call of `Image::scale` did: the resampler it invoked (`none` when the
`default:` label of the inner `switch` was reached with `assert` compiled out), whether
the resampler wrote into a temporary that `bulkPixelConversion` then copied into the
destination, and the destination memory after the call. -/
structure ScaleRun where
  resampler : Option ResamplerKind
  viaTemp : Bool
  scaledMem : List Nat
  deriving DecidableEq, Repr

/-- How a call of `Image::scale` ends. -/
inductive ScaleOutcome
  | completed (run : ScaleRun)
  | aborted
  deriving DecidableEq, Repr

/-- The box `temp` of `Image::scale`, the memory it points into, and whether it is a
newly allocated temporary: `scaled` itself when the two formats agree, else a box of the
extent of `scaled` in the format of `src` over `temp.getConsecutiveSize()` new bytes. -/
def scaleTemp (P : PixelUtil) (fresh : Nat → List Nat) (src scaled : PixelBox)
    (scaledMem : List Nat) : PixelBox × List Nat × Bool :=
  if src.format = scaled.format then (scaled, scaledMem, false)
  else
    let temp : PixelBox :=
      { width := scaled.width, height := scaled.height, depth := scaled.depth,
        format := src.format, data := 0 }
    (temp, fresh (P.getMemorySize temp.width temp.height temp.depth temp.format), true)

/-- The end of the nearest and byte branches of `Image::scale`:
`if (temp.data != scaled.data) PixelUtil::bulkPixelConversion(temp, scaled);`. -/
def scaleBlit (R : Resamplers) (kind : Option ResamplerKind) (t : PixelBox × List Nat × Bool)
    (tempMem : List Nat) (scaled : PixelBox) (scaledMem : List Nat) : ScaleOutcome :=
  .completed
    { resampler := kind, viaTemp := t.2.2,
      scaledMem := if t.2.2 then R.bulkPixelConversion t.1 tempMem scaled scaledMem
                   else tempMem }

/-- The `FILTER_NEAREST` branch of `Image::scale` (also the `default:` branch). -/
def scaleNearest (P : PixelUtil) (R : Resamplers) (B : Build) (fresh : Nat → List Nat)
    (src : PixelBox) (srcMem : List Nat) (scaled : PixelBox) (scaledMem : List Nat) :
    ScaleOutcome :=
  let t := scaleTemp P fresh src scaled scaledMem
  let run (n : Nat) : ScaleOutcome :=
    scaleBlit R (some (.nearest n)) t (R.nearest n src srcMem t.1 t.2.1) scaled scaledMem
  match P.getNumElemBytes src.format with
  | 1 => run 1
  | 2 => run 2
  | 3 => run 3
  | 4 => run 4
  | 6 => run 6
  | 8 => run 8
  | 12 => run 12
  | 16 => run 16
  | _ => if B.cAsserts then .aborted else scaleBlit R none t t.2.1 scaled scaledMem

/-- The byte branch of the linear filters of `Image::scale`. -/
def scaleLinearByte (P : PixelUtil) (R : Resamplers) (B : Build) (fresh : Nat → List Nat)
    (src : PixelBox) (srcMem : List Nat) (scaled : PixelBox) (scaledMem : List Nat) :
    ScaleOutcome :=
  let t := scaleTemp P fresh src scaled scaledMem
  let run (n : Nat) : ScaleOutcome :=
    scaleBlit R (some (.linearByte n)) t (R.linearByte n src srcMem t.1 t.2.1) scaled scaledMem
  match P.getNumElemBytes src.format with
  | 1 => run 1
  | 2 => run 2
  | 3 => run 3
  | 4 => run 4
  | _ => if B.cAsserts then .aborted else scaleBlit R none t t.2.1 scaled scaledMem

/-- The function `Image::scale(src, scaled, filter)`.  The two `assert`s at the entry are C
assertions. -/
def scale (P : PixelUtil) (R : Resamplers) (B : Build) (fresh : Nat → List Nat)
    (src : PixelBox) (srcMem : List Nat) (scaled : PixelBox) (scaledMem : List Nat)
    (filter : Filter) : ScaleOutcome :=
  if B.cAsserts && !P.isAccessible src.format then .aborted
  else if B.cAsserts && !P.isAccessible scaled.format then .aborted
  else
    match filter with
    | .FILTER_LINEAR | .FILTER_BILINEAR =>
      match src.format with
      | .PF_L8 | .PF_R8 | .PF_A8 | .PF_BYTE_LA
      | .PF_R8G8B8 | .PF_B8G8R8
      | .PF_R8G8B8A8 | .PF_B8G8R8A8
      | .PF_A8B8G8R8 | .PF_A8R8G8B8
      | .PF_X8B8G8R8 | .PF_X8R8G8B8 =>
        scaleLinearByte P R B fresh src srcMem scaled scaledMem
      | .PF_FLOAT32_RGB | .PF_FLOAT32_RGBA =>
        if scaled.format = .PF_FLOAT32_RGB ∨ scaled.format = .PF_FLOAT32_RGBA then
          .completed { resampler := some .linearFloat32, viaTemp := false,
                       scaledMem := R.linearFloat32 src srcMem scaled scaledMem }
        else
          .completed { resampler := some .linear, viaTemp := false,
                       scaledMem := R.linear src srcMem scaled scaledMem }
      | _ =>
        .completed { resampler := some .linear, viaTemp := false,
                     scaledMem := R.linear src srcMem scaled scaledMem }
    | _ => scaleNearest P R B fresh src srcMem scaled scaledMem

/-- The function `Image::resize(width, height, filter)`; `width` and `height` are `ushort` values.
`temp` takes over the old buffer; the result of `getMemorySize` is a `size_t`. -/
def resize (P : PixelUtil) (R : Resamplers) (B : Build) (fresh : Nat → List Nat)
    (uninit : Nat) (img : Image) (width height : Nat) (filter : Filter) : Outcome :=
  if !img.mAutoDelete then .raised B.ogreAssertCode img
  else if img.mDepth ≠ 1 then .raised B.ogreAssertCode img
  else
    match Image.construct P fresh uninit img.mFormat img.mWidth img.mHeight 1 img.mBuffer true with
    | .returned temp =>
      let bufSize := P.getMemorySize width height 1 img.mFormat % SIZE_MOD
      let img1 : Image :=
        { img with mWidth := width, mHeight := height, mBufSize := bufSize,
                   mBuffer := some (fresh bufSize), mNumMipmaps := 0 }
      match getPixelBox P temp 0 0, getPixelBox P img1 0 0 with
      | .ok srcBox, .ok dstBox =>
        match scale P R B fresh srcBox (temp.mBuffer.getD []) dstBox (fresh bufSize) filter with
        | .completed run => .returned { img1 with mBuffer := some run.scaledMem }
        | .aborted => .aborted
      | .error code, _ => .raised code img1
      | _, .error code => .raised code img1
    | .raised code _ => .raised code img
    | .aborted => .aborted
    | .outOfBounds => .outOfBounds

/-! ## Combining two images -/

/-- The type `Ogre::ColourValue` over a type `F` of channel values (`float` in the source). -/
structure ColourValue (F : Type) where
  r : F
  g : F
  b : F
  a : F

/-- The functions `PixelUtil::unpackColour` and `PixelUtil::packColour`, defined outside
`OgreImage.cpp`, and the `float` operations of `(colA.r + colA.g + colA.b) / 3.0f`.
`unpackColour format bytes` is the colour read from the element `bytes`;
`packColour col format` is the element written. -/
structure ColourOps (F : Type) where
  unpackColour : PixelFormat → List Nat → ColourValue F
  packColour : ColourValue F → PixelFormat → List Nat
  add : F → F → F
  div : F → F → F
  three : F

/-- The `n` bytes at offset `off` of `buf`; `none` when they are not all inside `buf`. -/
def readBytes (buf : List Nat) (off n : Nat) : Option (List Nat) :=
  if off + n ≤ buf.length then some ((buf.drop off).take n) else none

/-- The buffer `buf` with `bytes` stored at offset `off`; `none` when they do not all fall
inside `buf`. -/
def writeBytes (buf : List Nat) (off : Nat) (bytes : List Nat) : Option (List Nat) :=
  if off + bytes.length ≤ buf.length then
    some (buf.take off ++ bytes ++ buf.drop (off + bytes.length))
  else none

/-- A counted loop `for (size_t i = 0; i < n; ++i)` whose body can fail. -/
def repeatOpt {α : Type} (body : α → Option α) : Nat → α → Option α
  | 0, a => some a
  | n + 1, a => (body a).bind (repeatOpt body n)

/-- The cursor of the alpha pass of `combineTwoImagesAsRGBA`: the pointers `psrcAlpha`
(offset into the buffer of `alpha`) and `pdst` (offset into the new buffer), and the new
buffer. -/
structure AlphaCursor where
  psrcAlpha : Nat
  pdst : Nat
  mem : List Nat
  deriving DecidableEq, Repr

/-- The body of the innermost loop of `combineTwoImagesAsRGBA`. -/
def combinePixel {F : Type} (P : PixelUtil) (C : ColourOps F) (mFormat alphaFormat : PixelFormat)
    (alphaMem : List Nat) (c : AlphaCursor) : Option AlphaCursor :=
  (readBytes c.mem c.pdst (P.getNumElemBytes mFormat)).bind fun dstElem =>
  (readBytes alphaMem c.psrcAlpha (P.getNumElemBytes alphaFormat)).bind fun alphaElem =>
    let colRGBA := C.unpackColour mFormat dstElem
    let colA := C.unpackColour alphaFormat alphaElem
    let colRGBA1 : ColourValue F :=
      { colRGBA with a := C.div (C.add (C.add colA.r colA.g) colA.b) C.three }
    (writeBytes c.mem c.pdst (C.packColour colRGBA1 mFormat)).map fun mem1 =>
      { psrcAlpha := c.psrcAlpha + P.getNumElemBytes alphaFormat,
        pdst := c.pdst + P.getNumElemBytes mFormat,
        mem := mem1 }

/-- The result of the work of `combineTwoImagesAsRGBA` on the new buffer. -/
inductive CombineStep
  | done (mem : List Nat)
  | raised (code : ExceptionCode)
  | outOfBounds
  deriving DecidableEq, Repr

/-- The body of the mip loop of `combineTwoImagesAsRGBA` for one `(face, mip)`: the bulk
conversion of the rgb level, then the three nested loops over `mDepth`, `mHeight` and
`mWidth`. -/
def combineLevel {F : Type} (P : PixelUtil) (R : Resamplers) (C : ColourOps F)
    (self rgb alpha : Image) (face mip : Nat) (mem : List Nat) : CombineStep :=
  match getPixelBox P rgb face mip with
  | .error code => .raised code
  | .ok srcRGB =>
    match getPixelBox P self face mip with
    | .error code => .raised code
    | .ok dst =>
      let mem1 := R.bulkPixelConversion srcRGB (rgb.mBuffer.getD []) dst mem
      match getPixelBox P alpha face mip with
      | .error code => .raised code
      | .ok srcAlpha =>
        let pixel := combinePixel P C self.mFormat alpha.getFormat (alpha.mBuffer.getD [])
        let row := repeatOpt pixel self.mWidth
        let slice := repeatOpt row self.mHeight
        match repeatOpt slice self.mDepth
            { psrcAlpha := srcAlpha.data, pdst := dst.data, mem := mem1 } with
        | none => .outOfBounds
        | some c => .done c.mem

/-- The loop `for (uint8 mip = 0; mip <= mNumMipmaps; ++mip)` of
`combineTwoImagesAsRGBA`.  One unit of fuel is used for each evaluation of the loop
test. -/
def combineMipLoop {F : Type} (P : PixelUtil) (R : Resamplers) (C : ColourOps F)
    (self rgb alpha : Image) (face : Nat) : Nat → Nat → List Nat → Option CombineStep
  | 0, _, _ => none
  | fuel + 1, mip, mem =>
      if mip ≤ self.mNumMipmaps then
        match combineLevel P R C self rgb alpha face mip mem with
        | .done mem1 =>
          combineMipLoop P R C self rgb alpha face fuel ((mip + 1) % UINT8_MOD) mem1
        | other => some other
      else some (.done mem)

/-- The loop `for (size_t face = 0; face < numFaces; ++face)` of
`combineTwoImagesAsRGBA`, with `n` iterations left; every run of the mip loop gets
`fuel`. -/
def combineFaceLoop {F : Type} (P : PixelUtil) (R : Resamplers) (C : ColourOps F)
    (self rgb alpha : Image) (fuel : Nat) : Nat → Nat → List Nat → Option CombineStep
  | 0, _, mem => some (.done mem)
  | n + 1, face, mem =>
      match combineMipLoop P R C self rgb alpha face fuel 0 mem with
      | some (.done mem1) => combineFaceLoop P R C self rgb alpha fuel n (face + 1) mem1
      | other => other

/-- The function `Image::combineTwoImagesAsRGBA(rgb, alpha, fmt)`.  `none`: a mip loop is still running
when the fuel is used up. -/
def combineTwoImagesAsRGBA {F : Type} (P : PixelUtil) (R : Resamplers) (C : ColourOps F)
    (fresh : Nat → List Nat) (fuel : Nat) (self rgb alpha : Image) (fmt : PixelFormat) :
    Option Outcome :=
  if rgb.getWidth ≠ alpha.getWidth ∨ rgb.getHeight ≠ alpha.getHeight ∨
      rgb.getDepth ≠ alpha.getDepth then
    some (.raised .ERR_INVALIDPARAMS self)
  else if rgb.getNumMipmaps ≠ alpha.getNumMipmaps ∨ rgb.getNumFaces ≠ alpha.getNumFaces then
    some (.raised .ERR_INVALIDPARAMS self)
  else if P.getComponentCount fmt ≠ 4 then
    some (.raised .ERR_INVALIDPARAMS self)
  else if P.isCompressed fmt || P.isCompressed rgb.getFormat || P.isCompressed alpha.getFormat then
    some (.raised .ERR_INVALIDPARAMS self)
  else
    let i0 := freeMemory self
    let i1 : Image :=
      { i0 with mWidth := rgb.getWidth, mHeight := rgb.getHeight, mDepth := rgb.getDepth,
                mFormat := fmt, mNumMipmaps := rgb.getNumMipmaps }
    let numFaces := rgb.getNumFaces
    let i2 : Image := { i1 with mFlags := 0 }
    let i3 : Image :=
      if i2.mDepth ≠ 1 then { i2 with mFlags := i2.mFlags ||| IF_3D_TEXTURE } else i2
    let i4 : Image :=
      if numFaces = 6 then { i3 with mFlags := i3.mFlags ||| IF_CUBEMAP } else i3
    let i5 : Image :=
      { i4 with mBufSize :=
          calculateSize P i4.mNumMipmaps numFaces i4.mWidth i4.mHeight i4.mDepth i4.mFormat }
    let i6 : Image := { i5 with mPixelSize := P.getNumElemBytes i5.mFormat % UINT8_MOD }
    let i7 : Image := { i6 with mBuffer := some (fresh i6.mBufSize), mAutoDelete := true }
    match combineFaceLoop P R C i7 rgb alpha fuel numFaces 0 (fresh i6.mBufSize) with
    | none => none
    | some (.done mem) => some (.returned { i7 with mBuffer := some mem })
    | some (.raised code) => some (.raised code i7)
    | some .outOfBounds => some .outOfBounds

/-! ## Filling the image -/

/-- The loop `for (size_t p = 0; p < mBufSize; p += mPixelSize)` of `Image::setTo`, whose
body is `memcpy(mBuffer + p, rawCol, mPixelSize)`.  One unit of fuel is used for each
evaluation of the loop test; `none`: the loop is still running when the fuel is used up;
`some none`: a `memcpy` reads outside `rawCol` or writes outside the buffer. -/
def setToLoop (mPixelSize mBufSize : Nat) (rawCol : List Nat) :
    Nat → Nat → List Nat → Option (Option (List Nat))
  | 0, _, _ => none
  | fuel + 1, p, buf =>
      if p < mBufSize then
        match readBytes rawCol 0 mPixelSize with
        | none => some none
        | some bytes =>
          match writeBytes buf p bytes with
          | none => some none
          | some buf1 => setToLoop mPixelSize mBufSize rawCol fuel ((p + mPixelSize) % SIZE_MOD) buf1
      else some (some buf)

/-- Modelled from the spec: `PixelUtil::packColour(col, format, dest)` is defined outside
the sources.  The spec's glossary calls a format accessible when its "pixels can be
independently unpacked/packed to/from a generic color representation (i.e., not
block-compressed)", and a block-compressed format one "where pixels are not independently
addressable": for a format that is not accessible there is no packed element, and the
call raises instead of returning.  `C.packColour` is the packed element of an accessible
format; `packFail` is the code of the exception raised otherwise. -/
def packColourChecked {F : Type} (P : PixelUtil) (C : ColourOps F) (packFail : ExceptionCode)
    (col : ColourValue F) (format : PixelFormat) : Except ExceptionCode (List Nat) :=
  if P.isAccessible format then .ok (C.packColour col format) else .error packFail

/-- The function `Image::setTo(col)`.  `isZero col` is `col == ColourValue::ZERO` (the
comparison is defined outside `OgreImage.cpp`); `rawInit` is the content of the 16-byte
local array `rawCol` before `packColour` writes the packed colour at its start; an
exception of `packColour` propagates.  `none`: the loop is still running when the fuel is
used up. -/
def setTo {F : Type} (P : PixelUtil) (C : ColourOps F) (isZero : ColourValue F → Bool)
    (B : Build) (packFail : ExceptionCode) (rawInit : List Nat) (fuel : Nat) (img : Image)
    (col : ColourValue F) : Option Outcome :=
  match img.mBuffer with
  | none => some (.raised B.ogreAssertCode img)
  | some buf =>
    if isZero col then
      match writeBytes buf 0 (List.replicate img.getSize 0) with
      | none => some .outOfBounds
      | some buf1 => some (.returned { img with mBuffer := some buf1 })
    else
      match packColourChecked P C packFail col img.mFormat with
      | .error code => some (.raised code img)
      | .ok packed =>
        let rawCol := (packed ++ rawInit.drop packed.length).take 16
        match setToLoop img.mPixelSize img.mBufSize rawCol fuel 0 buf with
        | none => none
        | some none => some .outOfBounds
        | some (some buf1) => some (.returned { img with mBuffer := some buf1 })

/-! ## Streams, raw data and codecs -/

/-- Modelled from the spec: `DataStream` is defined outside the sources.  The spec lists
the "Stream abstraction (consumed): `read(buf,len)`, `seek(pos)`, `size()`".  A stream is
its content and its read position. -/
structure DataStream where
  data : List Nat
  pos : Nat
  deriving DecidableEq, Repr

/-- Modelled from the spec: `size()` of the stream abstraction, the length of the
content. -/
def DataStream.size (s : DataStream) : Nat := s.data.length

/-- Modelled from the spec: `read(buf,len)` of the stream abstraction: the bytes read (at
most `len`, from the read position on) and the stream after the call. -/
def DataStream.read (s : DataStream) (len : Nat) : List Nat × DataStream :=
  ((s.data.drop s.pos).take len, { s with pos := s.pos + ((s.data.drop s.pos).take len).length })

/-- Modelled from the spec: `seek(pos)` of the stream abstraction. -/
def DataStream.seek (s : DataStream) (pos : Nat) : DataStream := { s with pos := pos }

/-- What a call of `Image::loadRawData` did: how it ended, the stream after the call, and
the size of the block it allocated (`none`: nothing was allocated). -/
structure RawLoadRun where
  outcome : Outcome
  stream : DataStream
  allocated : Option Nat
  deriving DecidableEq, Repr

/-- The function `Image::loadRawData(stream, uWidth, uHeight, uDepth, eFormat, numFaces,
numMipMaps)`.  `fresh n` is the content of a newly allocated block of `n` bytes; the
bytes read from the stream replace its start. -/
def loadRawData (P : PixelUtil) (fresh : Nat → List Nat) (img : Image) (stream : DataStream)
    (uWidth uHeight uDepth : Nat) (eFormat : PixelFormat) (numFaces numMipMaps : Nat) :
    RawLoadRun :=
  let size := calculateSize P numMipMaps numFaces uWidth uHeight uDepth eFormat
  if size ≠ stream.size then
    { outcome := .raised .ERR_INVALIDPARAMS img, stream := stream, allocated := none }
  else
    let block := fresh size
    let r := stream.read size
    let buffer := r.1 ++ block.drop r.1.length
    { outcome := loadDynamicImage P img (some buffer) uWidth uHeight uDepth eFormat true
        numFaces numMipMaps,
      stream := r.2, allocated := some size }

/-- The members of `ImageCodec::ImageData` that `ImageCodec::decode` copies. -/
structure ImageData where
  width : Nat
  height : Nat
  depth : Nat
  size : Nat
  num_mipmaps : Nat
  flags : Nat
  format : PixelFormat
  deriving DecidableEq, Repr

/-- A codec: the virtual `decode(input)` of a registered codec, defined outside
`OgreImage.cpp`.  It raises, or gives the decoded memory and the image data. -/
structure Codec where
  decode : DataStream → Except ExceptionCode (List Nat × ImageData)

/-- Modelled from the spec: the codec registry is defined outside the sources.  The spec
gives it as "`getCodec(extension) -> Codec?`, `getCodec(magicBytes, len) -> Codec?`".
`getCodecByName` and `getCodecByMagic` are the codec registered under a name and the
codec that matches a magic number (`none`: there is none); `unrecognized` is the code of
the exception by which the lookup by name reports that there is none. -/
structure CodecRegistry where
  getCodecByName : String → Option Codec
  getCodecByMagic : List Nat → Nat → Option Codec
  unrecognized : ExceptionCode

/-- Modelled from the spec: `Codec::getCodec(extension)`, the lookup by name, is defined
outside the sources.  The spec makes "no codec matches a magic signature or named type
during load" an explicit failure, "raised at the point of detection", with the registry
"failing closed (no decoder ⇒ explicit error, never a best-effort guess)".
`Image::load` tests the result of the lookup by magic number itself and calls `decode` on
the result of the lookup by name untested, so the lookup by name is where a missing codec
is detected: it raises. -/
def CodecRegistry.getCodec (Reg : CodecRegistry) (extension : String) :
    Except ExceptionCode Codec :=
  match Reg.getCodecByName extension with
  | some codec => .ok codec
  | none => .error Reg.unrecognized

/-- The function `ImageCodec::decode(input, output)`: the result of the virtual
`decode(input)` is copied into the image `dest`. -/
def imageCodecDecode (codec : Codec) (input : DataStream) (dest : Image) :
    Except ExceptionCode Image :=
  match codec.decode input with
  | .error code => .error code
  | .ok (mem, pData) =>
    .ok { dest with
      mWidth := pData.width, mHeight := pData.height, mDepth := pData.depth,
      mBufSize := pData.size, mNumMipmaps := pData.num_mipmaps, mFlags := pData.flags,
      mFormat := pData.format, mBuffer := some mem }

/-- How a call of `Image::load(stream, type)` ends: it returns; or an exception
propagates, the object being in the given state at the `throw`. -/
inductive LoadOutcome
  | returned (img : Image)
  | raised (code : ExceptionCode) (img : Image)
  deriving DecidableEq, Repr

/-- What a call of `Image::load(stream, type)` did: how it ended, the stream after the
call, and whether the `decode` of a codec was entered. -/
structure LoadRun where
  outcome : LoadOutcome
  stream : DataStream
  decodeEntered : Bool
  deriving DecidableEq, Repr

/-- The end of `Image::load(stream, type)` once a codec is at hand: the decode, then
`mPixelSize` and `mAutoDelete`. -/
def loadDecode (P : PixelUtil) (codec : Codec) (img : Image) (stream : DataStream) : LoadRun :=
  match imageCodecDecode codec stream img with
  | .error code => { outcome := .raised code img, stream := stream, decodeEntered := true }
  | .ok img1 =>
    { outcome := .returned
        { img1 with mPixelSize := P.getNumElemBytes img1.mFormat % UINT8_MOD,
                    mAutoDelete := true },
      stream := stream, decodeEntered := true }

/-- The function `Image::load(stream, type)`.  `magicInit` is the content of the 32-byte
local array `magicBuf` before the read. -/
def load (P : PixelUtil) (Reg : CodecRegistry) (magicInit : List Nat) (img : Image)
    (stream : DataStream) (type : String) : LoadRun :=
  let i0 := freeMemory img
  if !type.isEmpty then
    match Reg.getCodec type with
    | .error code => { outcome := .raised code i0, stream := stream, decodeEntered := false }
    | .ok codec => loadDecode P codec i0 stream
  else
    let magicLen := min stream.size 32
    let r := stream.read magicLen
    let magicBuf := (r.1 ++ magicInit.drop r.1.length).take 32
    let s1 := r.2.seek 0
    match Reg.getCodecByMagic magicBuf magicLen with
    | none => { outcome := .raised .ERR_INVALIDPARAMS i0, stream := s1, decodeEntered := false }
    | some codec => loadDecode P codec i0 s1

/-! ## Gamma -/

/-- How a call of the static function `Image::applyGamma` ends: it returns, with the
buffer in the given state; or a failed `OgreAssert` raises an exception, the buffer being
as it was; or it reads or writes outside the buffer. -/
inductive GammaOutcome
  | returned (buffer : List Nat)
  | raised (code : ExceptionCode)
  | outOfBounds
  deriving DecidableEq, Repr

/-- The assignment `buffer[k] = gammaramp[buffer[k]]` on the byte at offset `p`; `none`
when the offset lies outside the buffer. -/
def gammaByte (gammaramp : Nat → Nat) (p : Nat) (buf : List Nat) : Option (List Nat) :=
  buf[p]?.map fun b => buf.set p (gammaramp b)

/-- The body of the second loop of `Image::applyGamma`, with the pointer `buffer` at
offset `p`: the three assignments to `buffer[0]`, `buffer[1]` and `buffer[2]`. -/
def gammaPixel (gammaramp : Nat → Nat) (p : Nat) (buf : List Nat) : Option (List Nat) :=
  (gammaByte gammaramp p buf).bind fun buf1 =>
  (gammaByte gammaramp (p + 1) buf1).bind fun buf2 =>
    gammaByte gammaramp (p + 2) buf2

/-- The loop `for (size_t i = 0, j = size / stride; i < j; i++, buffer += stride)` of
`Image::applyGamma`, with `n` iterations left and the pointer `buffer` at offset `p`. -/
def applyGammaLoop (gammaramp : Nat → Nat) (stride : Nat) :
    Nat → Nat → List Nat → Option (List Nat)
  | 0, _, buf => some buf
  | n + 1, p, buf =>
      (gammaPixel gammaramp p buf).bind (applyGammaLoop gammaramp stride n (p + stride))

/-- The function `Image::applyGamma(buffer, gamma, size, bpp)`.  `G` is the type `Real` of `gamma`;
`isOne gamma` is the test `gamma == 1.0f`; `gammaramp gamma i` is entry `i` of the local
table that the first loop fills with
`static_cast<uchar>(Math::Pow(i/255.0f, 1.0f / gamma)*255+0.5f)`, a computation in `float`
with a function defined outside `OgreImage.cpp`.  `bpp` is a `uchar`. -/
def applyGamma {G : Type} (B : Build) (isOne : G → Bool) (gammaramp : G → Nat → Nat)
    (buffer : List Nat) (gamma : G) (size bpp : Nat) : GammaOutcome :=
  if isOne gamma then .returned buffer
  else if ¬ (bpp = 24 ∨ bpp = 32) then .raised B.ogreAssertCode
  else
    let stride := bpp >>> 3
    match applyGammaLoop (gammaramp gamma) stride (size / stride) 0 buffer with
    | none => .outOfBounds
    | some buf => .returned buf

/-! ## Externals modelled from the spec -/

/-- Modelled from the spec: `NearestResampler<elem>::scale(src, dst)` is defined in
`OgreImageResampler.h`, outside the sources.  The spec says: "for every destination
pixel, compute the corresponding source pixel via
`srcIndex = floor(dstIndex * srcSize / dstSize)` per axis (2D or 3D), and copy the raw
element bytes verbatim."  Both boxes are tightly packed; the result is the destination
memory after the call. -/
def nearestResample (elem : Nat) (src : PixelBox) (srcMem : List Nat) (dst : PixelBox)
    (dstMem : List Nat) : List Nat :=
  (List.range dstMem.length).map fun i =>
    if dst.data ≤ i ∧ i < dst.data + dst.width * dst.height * dst.depth * elem then
      let pixel := (i - dst.data) / elem
      let x := pixel % dst.width
      let y := (pixel / dst.width) % dst.height
      let z := pixel / (dst.width * dst.height)
      let sx := x * src.width / dst.width
      let sy := y * src.height / dst.height
      let sz := z * src.depth / dst.depth
      srcMem.getD (src.data + ((sz * src.height + sy) * src.width + sx) * elem
        + (i - dst.data) % elem) 0
    else dstMem.getD i 0

/-- The `n` bytes at offset `off` of `mem` (fewer when `mem` ends before). -/
def elemAt (mem : List Nat) (off n : Nat) : List Nat := (mem.drop off).take n

/-- Modelled from the spec: `PixelUtil::bulkPixelConversion(src, dst)` is defined outside
the sources.  The spec lists it as "`bulkConvert(srcRegion, dstRegion)`" and describes its
use as "converting `rgb`'s pixels into the target format per (face,mip)": pixel `k` of the
destination region becomes the conversion `conv srcFormat dstFormat` of pixel `k` of the
source region; bytes outside the destination region keep their values.  Both boxes are
tightly packed. -/
def convertRegion (P : PixelUtil) (conv : PixelFormat → PixelFormat → List Nat → List Nat)
    (src : PixelBox) (srcMem : List Nat) (dst : PixelBox) (dstMem : List Nat) : List Nat :=
  (List.range dstMem.length).map fun i =>
    if dst.data ≤ i ∧
        i < dst.data + dst.width * dst.height * dst.depth * P.getNumElemBytes dst.format then
      (conv src.format dst.format
        (elemAt srcMem
          (src.data + (i - dst.data) / P.getNumElemBytes dst.format
            * P.getNumElemBytes src.format)
          (P.getNumElemBytes src.format))).getD
        ((i - dst.data) % P.getNumElemBytes dst.format) 0
    else dstMem.getD i 0

/-! ## Closed forms used in the statements -/

/-- Bytes of mip level `m` of one face: `getMemorySize` at the dimensions reached after
`m` halving steps. -/
def levelBytes (P : PixelUtil) (format : PixelFormat) (w h d m : Nat) : Nat :=
  P.getMemorySize (halve^[m] w) (halve^[m] h) (halve^[m] d) format

/-- Bytes of the mip levels `0 .. k-1` of one face. -/
def prefixBytes (P : PixelUtil) (format : PixelFormat) (w h d k : Nat) : Nat :=
  ∑ i ∈ Finset.range k, levelBytes P format w h d i

/-- Byte size of the region that a call of `getPixelBox` returned:
`width * height * depth * elementByteSize`; 0 when the call raised. -/
def boxBytes (P : PixelUtil) (r : Except ExceptionCode PixelBox) : Nat :=
  match r with
  | .ok box => box.width * box.height * box.depth * P.getNumElemBytes box.format
  | .error _ => 0

/-- Byte offset of the region that a call of `getPixelBox` returned; 0 when the call
raised. -/
def boxOffset (r : Except ExceptionCode PixelBox) : Nat :=
  match r with
  | .ok box => box.data
  | .error _ => 0

/-- The image is laid out in memory: `mBufSize` is what `calculateSize` gives for its
mip count, face count, dimensions and format (the value that `loadDynamicImage` and
`combineTwoImagesAsRGBA` store), and the levels of all faces together take fewer than
`2^64` bytes, so that a buffer holding them exists. -/
def Image.LaidOut (P : PixelUtil) (img : Image) : Prop :=
  img.mBufSize = calculateSize P img.mNumMipmaps img.getNumFaces img.mWidth img.mHeight
      img.mDepth img.mFormat ∧
    img.getNumFaces * prefixBytes P img.mFormat img.mWidth img.mHeight img.mDepth
      (img.mNumMipmaps + 1) < SIZE_MOD

/-- The buffer-size equation of the data model: `mBufSize` is the sum over
`mip = 0..numMipmaps` of `faceCount * memorySize` at the dimensions halved `mip` times
with minimum 1, the face count read from the cubemap flag and the mip count from
`mNumMipmaps`. -/
def BufSizeInvariant (P : PixelUtil) (img : Image) : Prop :=
  img.mBufSize = ∑ mip ∈ Finset.range (img.mNumMipmaps + 1),
    img.getNumFaces * P.getMemorySize (max 1 (img.mWidth >>> mip))
      (max 1 (img.mHeight >>> mip)) (max 1 (img.mDepth >>> mip)) img.mFormat

/-- The byte that `flipAroundY` moves to index `i` of a base level whose rows have `w`
elements of `e` bytes: same row, mirrored column, same byte of the element. -/
def mirrorIndex (e w i : Nat) : Nat :=
  (i / (w * e)) * (w * e) + (w - 1 - (i % (w * e)) / e) * e + (i % (w * e)) % e

/-- The byte that `bulkPixelVerticalFlip` moves to index `i` of a region that starts at
offset `D` and has `H` rows of `W` bytes per slice: same slice, mirrored row, same byte of
the row. -/
def flipSource (D W H i : Nat) : Nat :=
  D + ((i - D) / (W * H)) * (W * H) + (H - 1 - ((i - D) % (W * H)) / W) * W + (i - D) % W

/-- The element that the alpha pass of `combineTwoImagesAsRGBA` stores for a destination
element `dstElem` and an alpha-source element `alphaElem`: the colour unpacked from
`dstElem` with its alpha replaced by `(r + g + b) / 3` of the colour unpacked from
`alphaElem`, packed in the target format. -/
def alphaMerged {F : Type} (C : ColourOps F) (mFormat alphaFormat : PixelFormat)
    (dstElem alphaElem : List Nat) : List Nat :=
  C.packColour
    { C.unpackColour mFormat dstElem with
      a := C.div (C.add (C.add (C.unpackColour alphaFormat alphaElem).r
              (C.unpackColour alphaFormat alphaElem).g)
            (C.unpackColour alphaFormat alphaElem).b) C.three }
    mFormat

/-- The image that the default constructor builds (`Image(PF_UNKNOWN, 0, 0, 1, NULL, true)`),
with 0 for the member `mPixelSize` that the constructor leaves alone. -/
def emptyImage : Image :=
  { mWidth := 0, mHeight := 0, mDepth := 0, mBufSize := 0, mNumMipmaps := 0, mFlags := 0,
    mFormat := .PF_UNKNOWN, mPixelSize := 0, mBuffer := none, mAutoDelete := true }

/-- A 4×2 image of two-byte elements with two mip levels beyond the base (4×2, 2×1, 1×1),
one face, over a buffer of `(8 + 2 + 1) * 2` bytes numbered from 0. -/
def sampleImage : Image :=
  { mWidth := 4, mHeight := 2, mDepth := 1, mBufSize := 22, mNumMipmaps := 2, mFlags := 0,
    mFormat := .PF_BYTE_LA, mPixelSize := 2, mBuffer := some (List.range 22),
    mAutoDelete := true }

/-- An image of one column and 65536 rows of one-byte elements, over a buffer of 65536
bytes. -/
def tallImage : Image :=
  { mWidth := 1, mHeight := 65536, mDepth := 1, mBufSize := 65536, mNumMipmaps := 0,
    mFlags := 0, mFormat := .PF_L8, mPixelSize := 1, mBuffer := some (List.replicate 65536 0),
    mAutoDelete := true }

/-- A stand-in for the allocator, used to evaluate the embedding on examples: new memory
is zero-filled. -/
def sampleFresh (n : Nat) : List Nat := List.replicate n 0

/-- A stand-in for the build, used to evaluate the embedding on examples: C assertions
compiled out, `OgreAssert` raising `ERR_RT_ASSERTION_FAILED`. -/
def sampleBuild : Build := { cAsserts := false, ogreAssertCode := .ERR_RT_ASSERTION_FAILED }

/-- Copy of the `n` bytes at offset `src` of `srcMem` to offset `dst` of `dstMem`. -/
def copyBytes (srcMem : List Nat) (src : Nat) (dstMem : List Nat) (dst n : Nat) : List Nat :=
  dstMem.take dst ++ ((srcMem.drop src).take n ++ dstMem.drop (dst + n))

/-- A stand-in for the resamplers, used to evaluate the embedding on examples: every
resampler and the bulk conversion copy the bytes of the source region to the destination
region unchanged. -/
def sampleResamplers : Resamplers :=
  let copy (src : PixelBox) (srcMem : List Nat) (dst : PixelBox) (dstMem : List Nat) :
      List Nat :=
    copyBytes srcMem src.data dstMem dst.data
      (sampleCatalogue.getMemorySize dst.width dst.height dst.depth dst.format)
  { nearest := fun _ => copy, linearByte := fun _ => copy, linearFloat32 := copy,
    linear := copy, bulkPixelConversion := copy }

/-- A stand-in for the colour codec, used to evaluate the embedding on examples: channel
values are natural numbers and an element holds one byte per channel, in the order
r, g, b, a. -/
def sampleColourOps : ColourOps Nat :=
  { unpackColour := fun _ bytes =>
      { r := bytes.getD 0 0, g := bytes.getD 1 0, b := bytes.getD 2 0, a := bytes.getD 3 0 },
    packColour := fun col _ => [col.r, col.g, col.b, col.a],
    add := fun x y => x + y,
    div := fun x y => x / y,
    three := 3 }

/-- A 64×64 image of three-byte elements, one face, no mip levels, all bytes 255. -/
def rgb64 : Image :=
  { mWidth := 64, mHeight := 64, mDepth := 1, mBufSize := 12288, mNumMipmaps := 0,
    mFlags := 0, mFormat := .PF_R8G8B8, mPixelSize := 3,
    mBuffer := some (List.replicate 12288 255), mAutoDelete := true }

/-- A 32×32 image of three-byte elements, one face, no mip levels, all bytes 128. -/
def alpha32 : Image :=
  { mWidth := 32, mHeight := 32, mDepth := 1, mBufSize := 3072, mNumMipmaps := 0,
    mFlags := 0, mFormat := .PF_R8G8B8, mPixelSize := 3,
    mBuffer := some (List.replicate 3072 128), mAutoDelete := true }

/-- A 2×2 image of two-byte elements, one face, no mip levels, over 8 bytes numbered
from 0. -/
def flatImage : Image :=
  { mWidth := 2, mHeight := 2, mDepth := 1, mBufSize := 8, mNumMipmaps := 0, mFlags := 0,
    mFormat := .PF_BYTE_LA, mPixelSize := 2, mBuffer := some (List.range 8),
    mAutoDelete := true }

/-- A cubemap of six 1×1 faces of one-byte elements, no mip levels. -/
def cubeImage : Image :=
  { mWidth := 1, mHeight := 1, mDepth := 1, mBufSize := 6, mNumMipmaps := 0,
    mFlags := IF_CUBEMAP, mFormat := .PF_L8, mPixelSize := 1,
    mBuffer := some [1, 2, 3, 4, 5, 6], mAutoDelete := true }

/-- A 1×1 image of one four-byte element `(255, 0, 0, 7)`. -/
def pixelRGB : Image :=
  { mWidth := 1, mHeight := 1, mDepth := 1, mBufSize := 4, mNumMipmaps := 0, mFlags := 0,
    mFormat := .PF_R8G8B8A8, mPixelSize := 4, mBuffer := some [255, 0, 0, 7],
    mAutoDelete := true }

/-- A 1×1 image of one four-byte element `(128, 128, 128, 9)`. -/
def pixelAlpha : Image :=
  { mWidth := 1, mHeight := 1, mDepth := 1, mBufSize := 4, mNumMipmaps := 0, mFlags := 0,
    mFormat := .PF_R8G8B8A8, mPixelSize := 4, mBuffer := some [128, 128, 128, 9],
    mAutoDelete := true }

/-- The sample image after `flipAroundY`: mip count 0, buffer size still 22. -/
def sampleImageFlipped : Image :=
  { sampleImage with
    mNumMipmaps := 0,
    mBuffer := some [6, 7, 4, 5, 2, 3, 0, 1, 14, 15, 12, 13, 10, 11, 8, 9,
                     16, 17, 18, 19, 20, 21] }

/-- The cubemap after `resize(2, 2, FILTER_NEAREST)` with the stand-in resamplers: the
cubemap flag is still set, the buffer size is that of one 2×2 face. -/
def cubeImageResized : Image :=
  { cubeImage with mWidth := 2, mHeight := 2, mBufSize := 4, mBuffer := some [1, 2, 3, 4] }

/-- The object after `loadDynamicImage(NULL, 0, 0, 0, PF_L8, false, 1, 0)`: buffer
size 0. -/
def zeroLoaded : Image :=
  { mWidth := 0, mHeight := 0, mDepth := 0, mBufSize := 0, mNumMipmaps := 0,
    mFlags := IF_3D_TEXTURE, mFormat := .PF_L8, mPixelSize := 1, mBuffer := none,
    mAutoDelete := false }

/-- A 1×1 image of one 16-byte element (`PF_FLOAT32_RGBA`). -/
def wideImage : Image :=
  { mWidth := 1, mHeight := 1, mDepth := 1, mBufSize := 16, mNumMipmaps := 0, mFlags := 0,
    mFormat := .PF_FLOAT32_RGBA, mPixelSize := 16, mBuffer := some (List.range 16),
    mAutoDelete := true }

/-- A stream of five bytes, at its start. -/
def fiveByteStream : DataStream := { data := [1, 2, 3, 4, 5], pos := 0 }

/-- A stream of three bytes, at its start. -/
def threeByteStream : DataStream := { data := [1, 2, 3], pos := 0 }

/-- A registry without any codec: no lookup finds one, and the lookup by name reports it
with `ERR_INVALIDPARAMS`, a stand-in for the code of the registry. -/
def emptyRegistry : CodecRegistry :=
  { getCodecByName := fun _ => none, getCodecByMagic := fun _ _ => none,
    unrecognized := .ERR_INVALIDPARAMS }

/-- A codec name under which `emptyRegistry` has nothing. -/
def unknownType : String := "xyz"

/-- A block-compressed image: one 4×4 block of 8 bytes in a `PF_OTHER` format, whose
element size is 0. -/
def blockImage : Image :=
  { mWidth := 4, mHeight := 4, mDepth := 1, mBufSize := 8, mNumMipmaps := 0,
    mFlags := IF_COMPRESSED, mFormat := .PF_OTHER 0, mPixelSize := 0,
    mBuffer := some [1, 2, 3, 4, 5, 6, 7, 8], mAutoDelete := true }

/-- The comparison `col == ColourValue::ZERO` for the stand-in colours with natural-number
channels. -/
def sampleIsZero (col : ColourValue Nat) : Bool :=
  col.r == 0 && col.g == 0 && col.b == 0 && col.a == 0

/-- The colour red with full alpha, in the channels of the stand-in codec. -/
def sampleRed : ColourValue Nat := { r := 255, g := 0, b := 0, a := 255 }

/-- A stand-in for a debug build, used to evaluate the embedding on examples: C
assertions active, `OgreAssert` raising `ERR_RT_ASSERTION_FAILED`. -/
def debugBuild : Build := { cAsserts := true, ogreAssertCode := .ERR_RT_ASSERTION_FAILED }

/-- A region of one 4×4 block in the block-compressed format `PF_OTHER 0`, at offset 0. -/
def blockBox : PixelBox :=
  { width := 4, height := 4, depth := 1, format := .PF_OTHER 0, data := 0 }

/-- The stand-in resamplers with the nearest resampler of the spec. -/
def specResamplers : Resamplers := { sampleResamplers with nearest := nearestResample }

/-- A 2×2 region of two-byte elements at offset 0. -/
def flatBox : PixelBox :=
  { width := 2, height := 2, depth := 1, format := .PF_BYTE_LA, data := 0 }

/-- A 2×2 image of three-byte elements, every pixel pure red (255,0,0). -/
def redImage : Image :=
  { mWidth := 2, mHeight := 2, mDepth := 1, mBufSize := 12, mNumMipmaps := 0, mFlags := 0,
    mFormat := .PF_R8G8B8, mPixelSize := 3,
    mBuffer := some [255, 0, 0, 255, 0, 0, 255, 0, 0, 255, 0, 0], mAutoDelete := true }

/-- A 2×2 image of three-byte elements, every pixel grey (128,128,128). -/
def greyImage : Image :=
  { mWidth := 2, mHeight := 2, mDepth := 1, mBufSize := 12, mNumMipmaps := 0, mFlags := 0,
    mFormat := .PF_R8G8B8, mPixelSize := 3,
    mBuffer := some [128, 128, 128, 128, 128, 128, 128, 128, 128, 128, 128, 128],
    mAutoDelete := true }

/-- A stand-in for the conversion of one element between formats, used to evaluate the
embedding on examples: the colour of the element under `sampleColourOps`, packed again and
cut to the element size of the destination format. -/
def sampleConv (src dst : PixelFormat) (bytes : List Nat) : List Nat :=
  (sampleColourOps.packColour (sampleColourOps.unpackColour src bytes) dst).take
    (sampleCatalogue.getNumElemBytes dst)

/-- The stand-in resamplers with the pixel-wise bulk conversion `convertRegion`. -/
def convResamplers : Resamplers :=
  { sampleResamplers with bulkPixelConversion := convertRegion sampleCatalogue sampleConv }

/-- The 2×2 image of four-byte elements in which every pixel is (255,0,0,128). -/
def redGreyCombined : Image :=
  { mWidth := 2, mHeight := 2, mDepth := 1, mBufSize := 16, mNumMipmaps := 0, mFlags := 0,
    mFormat := .PF_R8G8B8A8, mPixelSize := 4,
    mBuffer := some [255, 0, 0, 128, 255, 0, 0, 128, 255, 0, 0, 128, 255, 0, 0, 128],
    mAutoDelete := true }

/-- The twelve formats that the spec lists as the whitelist of the byte path of linear
scaling: one to four components of 8 bits each. -/
def byteWhitelist : List PixelFormat :=
  [.PF_L8, .PF_R8, .PF_A8, .PF_BYTE_LA, .PF_R8G8B8, .PF_B8G8R8, .PF_R8G8B8A8, .PF_B8G8R8A8,
   .PF_A8B8G8R8, .PF_A8R8G8B8, .PF_X8B8G8R8, .PF_X8R8G8B8]

/-- The 32-bit-float RGB and RGBA formats. -/
def float32Formats : List PixelFormat := [.PF_FLOAT32_RGB, .PF_FLOAT32_RGBA]

/-- A stand-in for the test `gamma == 1.0f`, with gamma values written as natural
numbers, used to evaluate the embedding on examples. -/
def sampleGammaIsOne (gamma : Nat) : Bool := gamma == 1

/-- A stand-in for the table of `applyGamma`, used to evaluate the embedding on examples:
entry `b` of the table of `gamma` is `(b + gamma) % 256`. -/
def sampleGammaramp (gamma b : Nat) : Nat := (b + gamma) % 256

/-- A 2×2 region of four-byte elements at offset 0. -/
def rgbaBox : PixelBox :=
  { width := 2, height := 2, depth := 1, format := .PF_R8G8B8A8, data := 0 }

/-- A 2×2 image of sixteen-byte elements with one mip level beyond the base, over a buffer
of `(4 + 1) * 16` bytes numbered from 0. -/
def floatMipImage : Image :=
  { mWidth := 2, mHeight := 2, mDepth := 1, mBufSize := 80, mNumMipmaps := 1, mFlags := 0,
    mFormat := .PF_FLOAT32_RGBA, mPixelSize := 16, mBuffer := some (List.range 80),
    mAutoDelete := true }

/-- An image of 2 columns and 70000 rows of two-byte elements over a zeroed buffer. -/
def tallPairImage : Image :=
  { mWidth := 2, mHeight := 70000, mDepth := 1, mBufSize := 280000, mNumMipmaps := 0,
    mFlags := 0, mFormat := .PF_BYTE_LA, mPixelSize := 2,
    mBuffer := some (List.replicate 280000 0), mAutoDelete := true }

/-- A 2×2 image of three-byte elements with one mip level beyond the base (2×2, 1×1),
every pixel pure red. -/
def mipRedImage : Image :=
  { mWidth := 2, mHeight := 2, mDepth := 1, mBufSize := 15, mNumMipmaps := 1, mFlags := 0,
    mFormat := .PF_R8G8B8, mPixelSize := 3,
    mBuffer := some [255, 0, 0, 255, 0, 0, 255, 0, 0, 255, 0, 0, 255, 0, 0],
    mAutoDelete := true }

/-- A 2×2 image of three-byte elements with one mip level beyond the base (2×2, 1×1),
every pixel grey. -/
def mipGreyImage : Image :=
  { mWidth := 2, mHeight := 2, mDepth := 1, mBufSize := 15, mNumMipmaps := 1, mFlags := 0,
    mFormat := .PF_R8G8B8, mPixelSize := 3,
    mBuffer := some [128, 128, 128, 128, 128, 128, 128, 128, 128, 128, 128, 128, 128, 128,
      128],
    mAutoDelete := true }

/-- A buffer of `2^32` bytes: zeros, and 1 in the last byte. -/
def wrapBuffer : List Nat := List.replicate 4294967295 0 ++ [1]

/-- An image of `2^31` columns and 2 rows of one-byte elements over `wrapBuffer`. -/
def wrapImage : Image :=
  { mWidth := 2147483648, mHeight := 2, mDepth := 1, mBufSize := 4294967296,
    mNumMipmaps := 0, mFlags := 0, mFormat := .PF_L8, mPixelSize := 1,
    mBuffer := some wrapBuffer, mAutoDelete := true }

/-! ## Theorems -/

theorem halve_iterate_zero (m : Nat) : halve^[m] 0 = 0 := by
  induction m with
  | zero => rfl
  | succ k ih => rw [Function.iterate_succ_apply]; simpa [halve] using ih

theorem halve_iterate (m x : Nat) (hx : 1 ≤ x) : halve^[m] x = max 1 (x >>> m) := by
  induction m generalizing x with
  | zero => simp; omega
  | succ k ih =>
    rw [Function.iterate_succ_apply, Nat.shiftRight_succ_inside]
    by_cases h1 : x = 1
    · subst h1
      have h2 : halve 1 = 1 := by simp [halve]
      have h3 : 1 >>> k ≤ 1 := by rw [Nat.shiftRight_eq_div_pow]; exact Nat.div_le_self _ _
      rw [h2, ih 1 le_rfl]
      simp
      omega
    · have h2 : halve x = x / 2 := by simp [halve, h1]
      rw [h2, ih (x / 2) (by omega)]

theorem levelBytes_halve (P : PixelUtil) (format : PixelFormat) (w h d i : Nat) :
    levelBytes P format (halve w) (halve h) (halve d) i = levelBytes P format w h d (i + 1) := by
  simp [levelBytes, Function.iterate_succ_apply]

theorem prefixBytes_succ (P : PixelUtil) (format : PixelFormat) (w h d k : Nat) :
    prefixBytes P format w h d (k + 1)
      = P.getMemorySize w h d format + prefixBytes P format (halve w) (halve h) (halve d) k := by
  unfold prefixBytes
  rw [Finset.sum_range_succ', add_comm]
  simp [levelBytes, Function.iterate_succ_apply]

theorem mipScanLoop_spec (P : PixelUtil) (format : PixelFormat) (mipmap : Nat) :
    ∀ (n mip : Nat) (s : MipScan), s.fullFaceSize < SIZE_MOD →
      (mipScanLoop P format mipmap n mip s).width = halve^[n] s.width ∧
      (mipScanLoop P format mipmap n mip s).height = halve^[n] s.height ∧
      (mipScanLoop P format mipmap n mip s).depth = halve^[n] s.depth ∧
      (mipScanLoop P format mipmap n mip s).fullFaceSize
        = (s.fullFaceSize + prefixBytes P format s.width s.height s.depth n) % SIZE_MOD ∧
      (mip ≤ mipmap → mipmap < mip + n →
        (mipScanLoop P format mipmap n mip s).finalFaceSize
          = (s.fullFaceSize + prefixBytes P format s.width s.height s.depth (mipmap - mip))
              % SIZE_MOD ∧
        (mipScanLoop P format mipmap n mip s).finalWidth = halve^[mipmap - mip] s.width ∧
        (mipScanLoop P format mipmap n mip s).finalHeight = halve^[mipmap - mip] s.height ∧
        (mipScanLoop P format mipmap n mip s).finalDepth = halve^[mipmap - mip] s.depth) ∧
      (mipmap < mip →
        (mipScanLoop P format mipmap n mip s).finalFaceSize = s.finalFaceSize ∧
        (mipScanLoop P format mipmap n mip s).finalWidth = s.finalWidth ∧
        (mipScanLoop P format mipmap n mip s).finalHeight = s.finalHeight ∧
        (mipScanLoop P format mipmap n mip s).finalDepth = s.finalDepth) := by
  intro n
  induction n with
  | zero =>
    intro mip s hs
    refine ⟨rfl, rfl, rfl, ?_, ?_, ?_⟩
    · simp [mipScanLoop, prefixBytes, Nat.mod_eq_of_lt hs]
    · intro h1 h2; omega
    · intro _; exact ⟨rfl, rfl, rfl, rfl⟩
  | succ n ih =>
    intro mip s hs
    have hlt : (mipScanStep P format mipmap mip s).fullFaceSize < SIZE_MOD := by
      unfold mipScanStep
      exact Nat.mod_lt _ (by decide)
    obtain ⟨hw, hh, hd, hf, hin, hout⟩ := ih (mip + 1) (mipScanStep P format mipmap mip s) hlt
    have sw : (mipScanStep P format mipmap mip s).width = halve s.width := by
      unfold mipScanStep; split <;> rfl
    have sh : (mipScanStep P format mipmap mip s).height = halve s.height := by
      unfold mipScanStep; split <;> rfl
    have sd : (mipScanStep P format mipmap mip s).depth = halve s.depth := by
      unfold mipScanStep; split <;> rfl
    have sf : (mipScanStep P format mipmap mip s).fullFaceSize
        = (s.fullFaceSize + P.getMemorySize s.width s.height s.depth format) % SIZE_MOD := by
      unfold mipScanStep; split <;> rfl
    have hsum : ∀ k, ((s.fullFaceSize + P.getMemorySize s.width s.height s.depth format)
          % SIZE_MOD + prefixBytes P format (halve s.width) (halve s.height) (halve s.depth) k)
          % SIZE_MOD
        = (s.fullFaceSize + prefixBytes P format s.width s.height s.depth (k + 1)) % SIZE_MOD := by
      intro k
      rw [prefixBytes_succ, Nat.mod_add_mod, add_assoc]
    simp only [mipScanLoop]
    simp only [sw, sh, sd, sf] at hw hh hd hf hin hout
    refine ⟨by rw [hw, Function.iterate_succ_apply], by rw [hh, Function.iterate_succ_apply],
      by rw [hd, Function.iterate_succ_apply], by rw [hf, hsum], ?_, ?_⟩
    · intro h1 h2
      by_cases heq : mip = mipmap
      · obtain ⟨a, b, c, e⟩ := hout (by omega)
        subst heq
        rw [a, b, c, e]
        simp [mipScanStep, prefixBytes, Nat.mod_eq_of_lt hs]
      · obtain ⟨a, b, c, e⟩ := hin (by omega) (by omega)
        have hk : mipmap - mip = (mipmap - (mip + 1)) + 1 := by omega
        rw [a, b, c, e, hk, hsum]
        simp [Function.iterate_succ_apply]
    · intro h1
      obtain ⟨a, b, c, e⟩ := hout (by omega)
      have hne : mip ≠ mipmap := by omega
      rw [a, b, c, e]
      simp [mipScanStep, hne]

theorem calculateSizeLoop_eq (P : PixelUtil) (faces : Nat) (format : PixelFormat) :
    ∀ (n size w h d : Nat), size < SIZE_MOD →
      calculateSizeLoop P faces format n size w h d
        = (size + ∑ i ∈ Finset.range n, levelBytes P format w h d i * faces) % SIZE_MOD := by
  intro n
  induction n with
  | zero => intro size w h d hs; simp [calculateSizeLoop, Nat.mod_eq_of_lt hs]
  | succ n ih =>
    intro size w h d _
    rw [calculateSizeLoop, ih _ _ _ _ (Nat.mod_lt _ (by decide)), Finset.sum_range_succ',
      Nat.mod_add_mod]
    simp only [levelBytes_halve]
    congr 1
    simp only [levelBytes, Function.iterate_zero, id_eq]
    ring

theorem calculateSize_eq (P : PixelUtil) (mipmaps faces w h d : Nat) (format : PixelFormat) :
    calculateSize P mipmaps faces w h d format
      = (∑ i ∈ Finset.range (mipmaps + 1), levelBytes P format w h d i * faces) % SIZE_MOD := by
  unfold calculateSize
  rw [calculateSizeLoop_eq P faces format _ _ _ _ _ (by decide)]
  simp

theorem getPixelBox_eq (P : PixelUtil) (img : Image) (face mipmap : Nat)
    (hm : mipmap ≤ img.mNumMipmaps) (hf : face < img.getNumFaces) :
    getPixelBox P img face mipmap = .ok
      { width := halve^[mipmap] img.mWidth, height := halve^[mipmap] img.mHeight,
        depth := halve^[mipmap] img.mDepth, format := img.mFormat,
        data := (face * (prefixBytes P img.mFormat img.mWidth img.mHeight img.mDepth
                    (img.mNumMipmaps + 1) % SIZE_MOD)) % SIZE_MOD
                + prefixBytes P img.mFormat img.mWidth img.mHeight img.mDepth mipmap
                    % SIZE_MOD } := by
  have h0 : (0 : Nat) < SIZE_MOD := by decide
  obtain ⟨_, _, _, hfull, hin, _⟩ := mipScanLoop_spec P img.mFormat mipmap (img.mNumMipmaps + 1) 0
    { width := img.mWidth, height := img.mHeight, depth := img.mDepth,
      fullFaceSize := 0, finalFaceSize := 0, finalWidth := 0, finalHeight := 0,
      finalDepth := 0 } h0
  obtain ⟨a, b, c, e⟩ := hin (Nat.zero_le _) (by omega)
  simp only [Nat.zero_add, Nat.sub_zero] at hfull a b c e
  unfold getPixelBox
  simp only [Image.getNumMipmaps, Image.getFormat, Image.getWidth, Image.getHeight,
    Image.getDepth]
  rw [if_neg (by omega), if_neg (by omega), hfull, a, b, c, e]

theorem getNumFaces_pos (img : Image) : 1 ≤ img.getNumFaces := by
  unfold Image.getNumFaces; split <;> decide

theorem getNumFaces_cases (img : Image) : img.getNumFaces = 1 ∨ img.getNumFaces = 6 := by
  unfold Image.getNumFaces; split <;> simp

theorem prefixBytes_step (P : PixelUtil) (format : PixelFormat) (w h d k : Nat) :
    prefixBytes P format w h d (k + 1)
      = prefixBytes P format w h d k + levelBytes P format w h d k := by
  simp [prefixBytes, Finset.sum_range_succ]

theorem prefixBytes_mono (P : PixelUtil) (format : PixelFormat) (w h d : Nat) {j k : Nat}
    (hjk : j ≤ k) : prefixBytes P format w h d j ≤ prefixBytes P format w h d k := by
  induction k with
  | zero => have : j = 0 := by omega
            subst this; exact le_rfl
  | succ n ih =>
    by_cases h : j = n + 1
    · subst h; exact le_rfl
    · have := ih (by omega)
      rw [prefixBytes_step]
      omega

/-- On a laid-out image of an uncompressed format every region in range is returned, at
offset `face * faceBytes + prefixBytes mip`, with as many bytes as the level takes. -/
theorem getPixelBox_laidOut (P : PixelUtil) (img : Image) (hfmt : P.Uncompressed img.mFormat)
    (hlay : img.LaidOut P) (face mip : Nat) (hf : face < img.getNumFaces)
    (hm : mip ≤ img.mNumMipmaps) :
    (∃ box, getPixelBox P img face mip = .ok box) ∧
      boxOffset (getPixelBox P img face mip)
        = face * prefixBytes P img.mFormat img.mWidth img.mHeight img.mDepth
              (img.mNumMipmaps + 1)
          + prefixBytes P img.mFormat img.mWidth img.mHeight img.mDepth mip ∧
      boxBytes P (getPixelBox P img face mip)
        = levelBytes P img.mFormat img.mWidth img.mHeight img.mDepth mip := by
  have hT : face * prefixBytes P img.mFormat img.mWidth img.mHeight img.mDepth
        (img.mNumMipmaps + 1)
      ≤ img.getNumFaces * prefixBytes P img.mFormat img.mWidth img.mHeight img.mDepth
        (img.mNumMipmaps + 1) := Nat.mul_le_mul_right _ (le_of_lt hf)
  have hT1 : prefixBytes P img.mFormat img.mWidth img.mHeight img.mDepth (img.mNumMipmaps + 1)
      ≤ img.getNumFaces * prefixBytes P img.mFormat img.mWidth img.mHeight img.mDepth
        (img.mNumMipmaps + 1) := Nat.le_mul_of_pos_left _ (getNumFaces_pos img)
  have hpm := prefixBytes_mono P img.mFormat img.mWidth img.mHeight img.mDepth
    (show mip ≤ img.mNumMipmaps + 1 by omega)
  have hfit := hlay.2
  rw [getPixelBox_eq P img face mip hm hf]
  refine ⟨⟨_, rfl⟩, ?_, ?_⟩
  · simp only [boxOffset]
    rw [Nat.mod_eq_of_lt (lt_of_le_of_lt hT1 hfit), Nat.mod_eq_of_lt (lt_of_le_of_lt hT hfit),
      Nat.mod_eq_of_lt (lt_of_le_of_lt (le_trans hpm hT1) hfit)]
  · simp only [boxBytes, levelBytes]
    rw [hfmt.2]

theorem calculateSize_laidOut (P : PixelUtil) (img : Image) (hlay : img.LaidOut P) :
    calculateSize P img.mNumMipmaps img.getNumFaces img.mWidth img.mHeight img.mDepth
        img.mFormat
      = img.getNumFaces * prefixBytes P img.mFormat img.mWidth img.mHeight img.mDepth
          (img.mNumMipmaps + 1) := by
  rw [calculateSize_eq, ← Finset.sum_mul, Nat.mul_comm]
  exact Nat.mod_eq_of_lt hlay.2

theorem sampleCatalogue_uncompressed_BYTE_LA : sampleCatalogue.Uncompressed .PF_BYTE_LA :=
  ⟨rfl, fun _ _ _ => rfl⟩

theorem sampleImage_laidOut : sampleImage.LaidOut sampleCatalogue := by
  constructor
  · rfl
  · simp [prefixBytes, levelBytes, Finset.sum_range_succ, sampleImage, sampleCatalogue,
      Image.getNumFaces, Image.hasFlag, IF_CUBEMAP, halve, SIZE_MOD]

/-! ### C1: layout round-trip -/

/-- C1: for every mip count in [0,8], face count in {1,6}, width/height/depth that are
powers of two and every uncompressed format, on an image laid out with those parameters
every `getPixelBox(f, m)` with `f < faceCount`, `m <= mipCount` returns a region, and the
sum over all those faces and mips of the byte size of the region
(`levelWidth * levelHeight * levelDepth * elementByteSize`) equals
`calculateSize(mipCount, faceCount, width, height, depth, format)`. -/
theorem layout_round_trip (P : PixelUtil) (img : Image)
    (_hmip : img.mNumMipmaps ≤ 8)
    (_hfaces : img.getNumFaces = 1 ∨ img.getNumFaces = 6)
    (_hw : ∃ a, img.mWidth = 2 ^ a) (_hh : ∃ b, img.mHeight = 2 ^ b)
    (_hd : ∃ c, img.mDepth = 2 ^ c)
    (hfmt : P.Uncompressed img.mFormat) (hlay : img.LaidOut P) :
    (∀ f m, f < img.getNumFaces → m ≤ img.mNumMipmaps →
        ∃ box, getPixelBox P img f m = .ok box) ∧
      (∑ f ∈ Finset.range img.getNumFaces, ∑ m ∈ Finset.range (img.mNumMipmaps + 1),
          boxBytes P (getPixelBox P img f m))
        = calculateSize P img.mNumMipmaps img.getNumFaces img.mWidth img.mHeight img.mDepth
            img.mFormat := by
  constructor
  · intro f m hf hm
    exact (getPixelBox_laidOut P img hfmt hlay f m hf hm).1
  · rw [calculateSize_laidOut P img hlay]
    have hinner : ∀ f ∈ Finset.range img.getNumFaces,
        (∑ m ∈ Finset.range (img.mNumMipmaps + 1), boxBytes P (getPixelBox P img f m))
          = prefixBytes P img.mFormat img.mWidth img.mHeight img.mDepth
              (img.mNumMipmaps + 1) := by
      intro f hf
      unfold prefixBytes
      apply Finset.sum_congr rfl
      intro m hm
      exact (getPixelBox_laidOut P img hfmt hlay f m (Finset.mem_range.mp hf)
        (by have := Finset.mem_range.mp hm; omega)).2.2
    rw [Finset.sum_congr rfl hinner]
    simp

/-- Witness of `layout_round_trip`: the 4×2 sample image with two mip levels. -/
theorem layout_round_trip_witness :
    (∀ f m, f < sampleImage.getNumFaces → m ≤ sampleImage.mNumMipmaps →
        ∃ box, getPixelBox sampleCatalogue sampleImage f m = .ok box) ∧
      (∑ f ∈ Finset.range sampleImage.getNumFaces,
          ∑ m ∈ Finset.range (sampleImage.mNumMipmaps + 1),
            boxBytes sampleCatalogue (getPixelBox sampleCatalogue sampleImage f m))
        = calculateSize sampleCatalogue sampleImage.mNumMipmaps sampleImage.getNumFaces
            sampleImage.mWidth sampleImage.mHeight sampleImage.mDepth sampleImage.mFormat :=
  layout_round_trip sampleCatalogue sampleImage (by decide) (by decide) ⟨2, rfl⟩ ⟨1, rfl⟩
    ⟨0, rfl⟩ sampleCatalogue_uncompressed_BYTE_LA sampleImage_laidOut

/-! ### C2: face-major, mip-minor contiguity -/

/-- C2: for every image laid out with faceCount in {1,6}, dimensions >= 1 and an
uncompressed format of element size >= 1, with the pairs (face, mip) enumerated face-major
and mip-minor: every `getPixelBox(face, mip)` in range returns a region;
`getPixelBox(0,0)` has offset 0; the offset of the next pair (the next mip of the same
face, or mip 0 of the next face after the last mip) is the offset of the pair plus the
byte size of its region; every region has a positive size; a pair that comes earlier in the
enumeration ends at or before the start of, and starts strictly before, every later pair;
and the last region ends exactly at the buffer size. -/
theorem face_major_contiguity (P : PixelUtil) (img : Image)
    (_hfaces : img.getNumFaces = 1 ∨ img.getNumFaces = 6)
    (hw : 1 ≤ img.mWidth) (hh : 1 ≤ img.mHeight) (hd : 1 ≤ img.mDepth)
    (hfmt : P.Uncompressed img.mFormat) (helem : 1 ≤ P.getNumElemBytes img.mFormat)
    (hlay : img.LaidOut P) :
    (∀ f m, f < img.getNumFaces → m ≤ img.mNumMipmaps →
        ∃ box, getPixelBox P img f m = .ok box) ∧
      boxOffset (getPixelBox P img 0 0) = 0 ∧
      (∀ f m, f < img.getNumFaces → m < img.mNumMipmaps →
        boxOffset (getPixelBox P img f (m + 1))
          = boxOffset (getPixelBox P img f m) + boxBytes P (getPixelBox P img f m)) ∧
      (∀ f, f + 1 < img.getNumFaces →
        boxOffset (getPixelBox P img (f + 1) 0)
          = boxOffset (getPixelBox P img f img.mNumMipmaps)
            + boxBytes P (getPixelBox P img f img.mNumMipmaps)) ∧
      (∀ f m, f < img.getNumFaces → m ≤ img.mNumMipmaps →
        0 < boxBytes P (getPixelBox P img f m)) ∧
      (∀ f m g k, g < img.getNumFaces → m ≤ img.mNumMipmaps → k ≤ img.mNumMipmaps →
        (f < g ∨ (f = g ∧ m < k)) →
        boxOffset (getPixelBox P img f m) + boxBytes P (getPixelBox P img f m)
            ≤ boxOffset (getPixelBox P img g k) ∧
          boxOffset (getPixelBox P img f m) < boxOffset (getPixelBox P img g k)) ∧
      boxOffset (getPixelBox P img (img.getNumFaces - 1) img.mNumMipmaps)
          + boxBytes P (getPixelBox P img (img.getNumFaces - 1) img.mNumMipmaps)
        = img.mBufSize := by
  have hpos := getNumFaces_pos img
  have key := getPixelBox_laidOut P img hfmt hlay
  have hstep := prefixBytes_step P img.mFormat img.mWidth img.mHeight img.mDepth
  have hlevel : ∀ m, 0 < levelBytes P img.mFormat img.mWidth img.mHeight img.mDepth m := by
    intro m
    unfold levelBytes
    rw [hfmt.2, halve_iterate m _ hw, halve_iterate m _ hh, halve_iterate m _ hd]
    have h1 : 0 < max 1 (img.mWidth >>> m) := by omega
    have h2 : 0 < max 1 (img.mHeight >>> m) := by omega
    have h3 : 0 < max 1 (img.mDepth >>> m) := by omega
    positivity
  refine ⟨fun f m hf hm => (key f m hf hm).1, ?_, ?_, ?_, ?_, ?_, ?_⟩
  · rw [(key 0 0 (by omega) (by omega)).2.1]
    simp [prefixBytes]
  · intro f m hf hm
    rw [(key f (m + 1) hf (by omega)).2.1, (key f m hf (by omega)).2.1,
      (key f m hf (by omega)).2.2, hstep m]
    omega
  · intro f hf
    rw [(key (f + 1) 0 hf (by omega)).2.1, (key f _ (by omega) le_rfl).2.1,
      (key f _ (by omega) le_rfl).2.2, add_assoc, ← hstep]
    simp [prefixBytes, Nat.add_mul]
  · intro f m hf hm
    rw [(key f m hf hm).2.2]
    exact hlevel m
  · intro f m g k hg hm hk hlt
    have hf : f < img.getNumFaces := by omega
    rw [(key f m hf hm).2.1, (key f m hf hm).2.2, (key g k hg hk).2.1, add_assoc, ← hstep]
    have hl := hlevel m
    have hs := hstep m
    rcases hlt with h | ⟨h, h2⟩
    · have h3 := prefixBytes_mono P img.mFormat img.mWidth img.mHeight img.mDepth
        (show m + 1 ≤ img.mNumMipmaps + 1 by omega)
      have h4 : (f + 1) * prefixBytes P img.mFormat img.mWidth img.mHeight img.mDepth
            (img.mNumMipmaps + 1)
          ≤ g * prefixBytes P img.mFormat img.mWidth img.mHeight img.mDepth
            (img.mNumMipmaps + 1) := Nat.mul_le_mul_right _ h
      rw [Nat.add_mul] at h4
      omega
    · subst h
      have h3 := prefixBytes_mono P img.mFormat img.mWidth img.mHeight img.mDepth
        (show m + 1 ≤ k by omega)
      omega
  · rw [(key _ _ (by omega) le_rfl).2.1, (key _ _ (by omega) le_rfl).2.2, add_assoc, ← hstep,
      hlay.1, calculateSize_laidOut P img hlay]
    have h5 : img.getNumFaces = (img.getNumFaces - 1) + 1 := by omega
    conv_rhs => rw [h5, Nat.add_mul]
    simp

/-- Witness of `face_major_contiguity`: the 4×2 sample image with two mip levels. -/
theorem face_major_contiguity_witness :
    boxOffset (getPixelBox sampleCatalogue sampleImage 0 0) = 0 ∧
      boxOffset (getPixelBox sampleCatalogue sampleImage 0 1) = 16 ∧
      boxOffset (getPixelBox sampleCatalogue sampleImage 0 2) = 20 ∧
      boxOffset (getPixelBox sampleCatalogue sampleImage (sampleImage.getNumFaces - 1)
            sampleImage.mNumMipmaps)
          + boxBytes sampleCatalogue (getPixelBox sampleCatalogue sampleImage
              (sampleImage.getNumFaces - 1) sampleImage.mNumMipmaps)
        = sampleImage.mBufSize :=
  ⟨by decide, by decide, by decide,
    (face_major_contiguity sampleCatalogue sampleImage (by decide) (by decide) (by decide)
      (by decide) sampleCatalogue_uncompressed_BYTE_LA (by decide) sampleImage_laidOut).2.2.2.2.2.2⟩

/-! ### C3: dimensions of a mip level -/

/-- C3 (amended): for every image and every mip index `m <= numMipmaps` (and face below
the face count) `getPixelBox(face, m)` returns a region whose width, height and depth
are, each axis independently of the others, `max(1, base >> m)` when the base dimension
is at least 1, and 0 when the base dimension is 0. -/
theorem getPixelBox_level_dimensions (P : PixelUtil) (img : Image) (face m : Nat)
    (hm : m ≤ img.mNumMipmaps) (hf : face < img.getNumFaces) :
    ∃ box, getPixelBox P img face m = .ok box ∧
      box.width = (if img.mWidth = 0 then 0 else max 1 (img.mWidth >>> m)) ∧
      box.height = (if img.mHeight = 0 then 0 else max 1 (img.mHeight >>> m)) ∧
      box.depth = (if img.mDepth = 0 then 0 else max 1 (img.mDepth >>> m)) := by
  have key : ∀ x : Nat, halve^[m] x = if x = 0 then 0 else max 1 (x >>> m) := by
    intro x
    by_cases hx : x = 0
    · subst hx; simp [halve_iterate_zero]
    · rw [if_neg hx]; exact halve_iterate m x (by omega)
  exact ⟨_, getPixelBox_eq P img face m hm hf, key _, key _, key _⟩

/-- Witness of `getPixelBox_level_dimensions`: level 1 of the 4×2 sample image. -/
theorem getPixelBox_level_dimensions_witness :
    ∃ box, getPixelBox sampleCatalogue sampleImage 0 1 = .ok box ∧
      box.width = (if sampleImage.mWidth = 0 then 0 else max 1 (sampleImage.mWidth >>> 1)) ∧
      box.height = (if sampleImage.mHeight = 0 then 0 else max 1 (sampleImage.mHeight >>> 1)) ∧
      box.depth = (if sampleImage.mDepth = 0 then 0 else max 1 (sampleImage.mDepth >>> 1)) :=
  getPixelBox_level_dimensions sampleCatalogue sampleImage 0 1 (by decide) (by decide)

/-- C3 (counterexample): on the empty image (all dimensions 0) `getPixelBox(0, 0)`
succeeds and returns width 0, while `max(1, 0 >> 0)` is 1. -/
theorem getPixelBox_zero_dimension_counterexample :
    getPixelBox sampleCatalogue emptyImage 0 0
        = .ok { width := 0, height := 0, depth := 0, format := .PF_UNKNOWN, data := 0 } ∧
      (0 : Nat) ≠ max 1 (emptyImage.mWidth >>> 0) := by
  constructor
  · rfl
  · decide

/-! ### C4: closed form of `calculateSize` -/

/-- C4 (amended): for every mipCount below the largest `size_t`, every faceCount, every
width, height, depth >= 1 and every format, `calculateSize` equals the sum over
`m = 0..mipCount` of `faceCount * memorySize(max(1, width >> m), max(1, height >> m),
max(1, depth >> m), format)` reduced modulo `2^64` (the arithmetic of `size_t`), hence the
sum itself whenever the sum is below `2^64`; with an uncompressed format the sum is
`faceCount * elementByteSize *` the sum of the products of the three halved dimensions. -/
theorem calculateSize_closed_form (P : PixelUtil) (mipCount faceCount width height depth : Nat)
    (format : PixelFormat) (_hmip : mipCount < SIZE_MOD - 1)
    (hw : 1 ≤ width) (hh : 1 ≤ height) (hd : 1 ≤ depth) :
    calculateSize P mipCount faceCount width height depth format
        = (∑ m ∈ Finset.range (mipCount + 1),
            faceCount * P.getMemorySize (max 1 (width >>> m)) (max 1 (height >>> m))
              (max 1 (depth >>> m)) format) % SIZE_MOD ∧
      ((∑ m ∈ Finset.range (mipCount + 1),
            faceCount * P.getMemorySize (max 1 (width >>> m)) (max 1 (height >>> m))
              (max 1 (depth >>> m)) format) < SIZE_MOD →
        calculateSize P mipCount faceCount width height depth format
          = ∑ m ∈ Finset.range (mipCount + 1),
              faceCount * P.getMemorySize (max 1 (width >>> m)) (max 1 (height >>> m))
                (max 1 (depth >>> m)) format) ∧
      (P.Uncompressed format →
        (∑ m ∈ Finset.range (mipCount + 1),
            faceCount * P.getMemorySize (max 1 (width >>> m)) (max 1 (height >>> m))
              (max 1 (depth >>> m)) format)
          = faceCount * P.getNumElemBytes format *
              ∑ m ∈ Finset.range (mipCount + 1),
                max 1 (width >>> m) * max 1 (height >>> m) * max 1 (depth >>> m)) := by
  have hmod : calculateSize P mipCount faceCount width height depth format
        = (∑ m ∈ Finset.range (mipCount + 1),
            faceCount * P.getMemorySize (max 1 (width >>> m)) (max 1 (height >>> m))
              (max 1 (depth >>> m)) format) % SIZE_MOD := by
    rw [calculateSize_eq]
    congr 1
    apply Finset.sum_congr rfl
    intro m _
    rw [levelBytes, halve_iterate m width hw, halve_iterate m height hh,
      halve_iterate m depth hd, Nat.mul_comm]
  refine ⟨hmod, ?_, ?_⟩
  · intro hlt
    rw [hmod, Nat.mod_eq_of_lt hlt]
  · intro hu
    rw [Finset.mul_sum]
    apply Finset.sum_congr rfl
    intro m _
    rw [hu.2]
    ring

/-- Witness of `calculateSize_closed_form`: the 4×2 layout with two mip levels. -/
theorem calculateSize_closed_form_witness :
    calculateSize sampleCatalogue 2 1 4 2 1 .PF_BYTE_LA
        = (∑ m ∈ Finset.range (2 + 1),
            1 * sampleCatalogue.getMemorySize (max 1 (4 >>> m)) (max 1 (2 >>> m))
              (max 1 (1 >>> m)) .PF_BYTE_LA) % SIZE_MOD ∧
      ((∑ m ∈ Finset.range (2 + 1),
            1 * sampleCatalogue.getMemorySize (max 1 (4 >>> m)) (max 1 (2 >>> m))
              (max 1 (1 >>> m)) .PF_BYTE_LA) < SIZE_MOD →
        calculateSize sampleCatalogue 2 1 4 2 1 .PF_BYTE_LA
          = ∑ m ∈ Finset.range (2 + 1),
              1 * sampleCatalogue.getMemorySize (max 1 (4 >>> m)) (max 1 (2 >>> m))
                (max 1 (1 >>> m)) .PF_BYTE_LA) ∧
      (sampleCatalogue.Uncompressed .PF_BYTE_LA →
        (∑ m ∈ Finset.range (2 + 1),
            1 * sampleCatalogue.getMemorySize (max 1 (4 >>> m)) (max 1 (2 >>> m))
              (max 1 (1 >>> m)) .PF_BYTE_LA)
          = 1 * sampleCatalogue.getNumElemBytes .PF_BYTE_LA *
              ∑ m ∈ Finset.range (2 + 1),
                max 1 (4 >>> m) * max 1 (2 >>> m) * max 1 (1 >>> m)) :=
  calculateSize_closed_form sampleCatalogue 2 1 4 2 1 .PF_BYTE_LA (by decide)
    (by decide) (by decide) (by decide)

/-- C4 (counterexample): with `2^63` faces of one 1×1×1 level of a two-byte format
`calculateSize` returns 0, the `size_t` product having wrapped, while the sum of
`faceCount * memorySize` is `2^64`. -/
theorem calculateSize_wraps_counterexample :
    calculateSize sampleCatalogue 0 (2 ^ 63) 1 1 1 .PF_BYTE_LA = 0 ∧
      (∑ m ∈ Finset.range (0 + 1),
          2 ^ 63 * sampleCatalogue.getMemorySize (max 1 (1 >>> m)) (max 1 (1 >>> m))
            (max 1 (1 >>> m)) .PF_BYTE_LA) = 2 ^ 64 ∧
      calculateSize sampleCatalogue 0 (2 ^ 63) 1 1 1 .PF_BYTE_LA
        ≠ ∑ m ∈ Finset.range (0 + 1),
            2 ^ 63 * sampleCatalogue.getMemorySize (max 1 (1 >>> m)) (max 1 (1 >>> m))
              (max 1 (1 >>> m)) .PF_BYTE_LA := by
  have h1 : calculateSize sampleCatalogue 0 (2 ^ 63) 1 1 1 .PF_BYTE_LA = 0 := by
    simp [calculateSize, calculateSizeLoop, sampleCatalogue, SIZE_MOD]
  have h2 : (∑ m ∈ Finset.range (0 + 1),
          2 ^ 63 * sampleCatalogue.getMemorySize (max 1 (1 >>> m)) (max 1 (1 >>> m))
            (max 1 (1 >>> m)) .PF_BYTE_LA) = 2 ^ 64 := by
    simp [sampleCatalogue]
  refine ⟨h1, h2, ?_⟩
  rw [h1, h2]
  decide

/-! ### C6: when `getPixelBox` fails -/

/-- C6: `getPixelBox(face, mip)` fails if and only if `mip > numMipmaps` or
`face >= numFaces`, `numFaces` being 6 when the cubemap flag is set and 1 otherwise; for
every other `(face, mip)` it succeeds and returns a region; and the object after the call
is the object before the call, whether the call fails or not. -/
theorem getPixelBox_fails_iff (P : PixelUtil) (img : Image) (face mip : Nat) :
    ((∃ code, getPixelBox P img face mip = .error code)
        ↔ (mip > img.getNumMipmaps ∨ face ≥ img.getNumFaces)) ∧
      ((∃ box, getPixelBox P img face mip = .ok box)
        ↔ ¬ (mip > img.getNumMipmaps ∨ face ≥ img.getNumFaces)) ∧
      img.getNumFaces = (if img.hasFlag IF_CUBEMAP then 6 else 1) ∧
      (img.callGetPixelBox P face mip).1 = getPixelBox P img face mip ∧
      (img.callGetPixelBox P face mip).2 = img := by
  refine ⟨?_, ?_, rfl, rfl, rfl⟩
  · unfold getPixelBox
    by_cases h1 : mip > img.getNumMipmaps
    · simp [h1]
    · by_cases h2 : face ≥ img.getNumFaces
      · simp [h1, h2]
      · simp [h1, h2]
  · unfold getPixelBox
    by_cases h1 : mip > img.getNumMipmaps
    · simp [h1]
    · by_cases h2 : face ≥ img.getNumFaces
      · simp [h1, h2]
      · simp [h1, h2]

/-! ### C7: the error raised by `getPixelBox` -/

/-- C7 (amended): whenever `getPixelBox` rejects its arguments because the mip index is
greater than the stored mip count, the error raised is `ERR_NOT_IMPLEMENTED`; whenever
the mip index is in range and the face index is greater than or equal to the face count,
the error raised is `ERR_INVALIDPARAMS`. -/
theorem getPixelBox_error_code (P : PixelUtil) (img : Image) (face mip : Nat) :
    (mip > img.getNumMipmaps → getPixelBox P img face mip = .error .ERR_NOT_IMPLEMENTED) ∧
      (mip ≤ img.getNumMipmaps → face ≥ img.getNumFaces →
        getPixelBox P img face mip = .error .ERR_INVALIDPARAMS) := by
  constructor
  · intro h1
    simp [getPixelBox, h1]
  · intro h1 h2
    have h3 : ¬ mip > img.getNumMipmaps := by omega
    simp [getPixelBox, h3, h2]

/-- Witness of `getPixelBox_error_code`: mip 3 and face 1 of the sample image, which has
two mip levels beyond the base and one face. -/
theorem getPixelBox_error_code_witness :
    getPixelBox sampleCatalogue sampleImage 0 3 = .error .ERR_NOT_IMPLEMENTED ∧
      getPixelBox sampleCatalogue sampleImage 1 2 = .error .ERR_INVALIDPARAMS :=
  ⟨(getPixelBox_error_code sampleCatalogue sampleImage 0 3).1 (by decide),
   (getPixelBox_error_code sampleCatalogue sampleImage 1 2).2 (by decide) (by decide)⟩

/-- C7 (counterexample): face 1 of the one-face sample image is rejected with
`ERR_INVALIDPARAMS`, which is not the code `ERR_NOT_IMPLEMENTED` of the out-of-range
kind. -/
theorem getPixelBox_face_error_counterexample :
    getPixelBox sampleCatalogue sampleImage 1 0 = .error .ERR_INVALIDPARAMS ∧
      getPixelBox sampleCatalogue sampleImage 1 0 ≠ .error .ERR_NOT_IMPLEMENTED := by
  have h : getPixelBox sampleCatalogue sampleImage 1 0 = .error .ERR_INVALIDPARAMS := rfl
  refine ⟨h, ?_⟩
  rw [h]
  intro h2
  cases h2

/-! ### Mutating operations: shared lemmas -/

theorem calculateSize_eq_max (P : PixelUtil) (mipmaps faces w h d : Nat) (format : PixelFormat)
    (hw : 1 ≤ w) (hh : 1 ≤ h) (hd : 1 ≤ d) :
    calculateSize P mipmaps faces w h d format
      = (∑ m ∈ Finset.range (mipmaps + 1),
          faces * P.getMemorySize (max 1 (w >>> m)) (max 1 (h >>> m)) (max 1 (d >>> m)) format)
        % SIZE_MOD := by
  rw [calculateSize_eq]
  congr 1
  apply Finset.sum_congr rfl
  intro m _
  rw [levelBytes, halve_iterate m w hw, halve_iterate m h hh, halve_iterate m d hd,
    Nat.mul_comm]

/-- What `loadDynamicImage` stores when it returns. -/
theorem loadDynamicImage_returned (P : PixelUtil) (img img1 : Image)
    (pData : Option (List Nat)) (w h d : Nat) (fmt : PixelFormat) (autoDelete : Bool)
    (numFaces numMips : Nat)
    (hret : loadDynamicImage P img pData w h d fmt autoDelete numFaces numMips
      = .returned img1) :
    img1.mWidth = w ∧ img1.mHeight = h ∧ img1.mDepth = d ∧ img1.mFormat = fmt ∧
      img1.mNumMipmaps = numMips ∧ img1.getNumFaces = numFaces ∧
      img1.mBufSize = calculateSize P numMips numFaces w h d fmt := by
  unfold loadDynamicImage at hret
  dsimp only at hret
  split at hret
  · cases hret
  · rename_i hfaces
    injection hret with hret
    subst hret
    have hf : numFaces = 6 ∨ numFaces = 1 := by omega
    refine ⟨?_, ?_, ?_, ?_, ?_, ?_, ?_⟩
    all_goals
      by_cases hc : P.isCompressed fmt = true <;> by_cases h3 : d = 1 <;>
        rcases hf with h6 | h6 <;>
        simp [hc, h3, h6, Image.getNumFaces, Image.hasFlag, IF_COMPRESSED, IF_3D_TEXTURE,
          IF_CUBEMAP] <;> decide

/-- What `combineTwoImagesAsRGBA` stores when it returns. -/
theorem combine_returned {F : Type} (P : PixelUtil) (R : Resamplers) (C : ColourOps F)
    (fresh : Nat → List Nat) (fuel : Nat) (self rgb alpha img1 : Image) (fmt : PixelFormat)
    (hret : combineTwoImagesAsRGBA P R C fresh fuel self rgb alpha fmt = some (.returned img1)) :
    img1.mWidth = rgb.mWidth ∧ img1.mHeight = rgb.mHeight ∧ img1.mDepth = rgb.mDepth ∧
      img1.mFormat = fmt ∧ img1.mNumMipmaps = rgb.mNumMipmaps ∧
      img1.getNumFaces = rgb.getNumFaces ∧
      img1.mBufSize = calculateSize P rgb.mNumMipmaps rgb.getNumFaces rgb.mWidth rgb.mHeight
        rgb.mDepth fmt := by
  unfold combineTwoImagesAsRGBA at hret
  split at hret
  · cases hret
  split at hret
  · cases hret
  split at hret
  · cases hret
  split at hret
  · cases hret
  dsimp only at hret
  split at hret
  · cases hret
  · injection hret with hret
    injection hret with hret
    subst hret
    simp only [Image.getWidth, Image.getHeight, Image.getDepth, Image.getNumMipmaps]
    refine ⟨?_, ?_, ?_, ?_, ?_, ?_, ?_⟩
    all_goals
      by_cases h3 : rgb.mDepth = 1 <;>
        rcases Bool.eq_false_or_eq_true (rgb.hasFlag IF_CUBEMAP) with h6 | h6 <;>
        simp only [Image.getNumFaces, h6] <;>
        simp [h3, Image.hasFlag, IF_3D_TEXTURE, IF_CUBEMAP] <;> try decide
  · cases hret
  · cases hret

/-- What `resize` stores when it returns. -/
theorem resize_returned (P : PixelUtil) (R : Resamplers) (B : Build) (fresh : Nat → List Nat)
    (uninit : Nat) (img img1 : Image) (width height : Nat) (filter : Filter)
    (hret : resize P R B fresh uninit img width height filter = .returned img1) :
    img.mAutoDelete = true ∧ img.mDepth = 1 ∧
      img1.mWidth = width ∧ img1.mHeight = height ∧ img1.mDepth = img.mDepth ∧
      img1.mFormat = img.mFormat ∧ img1.mFlags = img.mFlags ∧ img1.mNumMipmaps = 0 ∧
      img1.mPixelSize = img.mPixelSize ∧ img1.mAutoDelete = img.mAutoDelete ∧
      img1.mBufSize = P.getMemorySize width height 1 img.mFormat % SIZE_MOD := by
  unfold resize at hret
  split at hret
  · cases hret
  rename_i hauto
  split at hret
  · cases hret
  rename_i hdepth
  have ha : img.mAutoDelete = true := by simpa using hauto
  have hd : img.mDepth = 1 := by simpa using hdepth
  split at hret
  · dsimp only at hret
    split at hret
    · split at hret
      · injection hret with hret
        subst hret
        exact ⟨ha, hd, rfl, rfl, rfl, rfl, rfl, rfl, rfl, rfl, rfl⟩
      · cases hret
    · cases hret
    · cases hret
  · cases hret
  · cases hret
  · cases hret

/-! ### Flips: shared lemmas -/

/-- A call of `flipAroundY` that returns changes `mNumMipmaps` (to 0) and the buffer
content only. -/
theorem flipAroundY_returned (fuel : Nat) (img img1 : Image)
    (h : flipAroundY fuel img = some (.returned img1)) :
    ∃ buf, img1 = { img with mNumMipmaps := 0, mBuffer := some buf } := by
  unfold flipAroundY at h
  split at h
  · simp at h
  · dsimp only at h
    split at h
    all_goals first
      | (simp only [Option.map_eq_some'] at h
         obtain ⟨b, _, hb⟩ := h
         injection hb with hb
         exact ⟨b, hb.symm⟩)
      | simp at h

/-- A call of `flipAroundX` that returns changes `mNumMipmaps` (to 0) and the buffer
content only. -/
theorem flipAroundX_returned (P : PixelUtil) (img img1 : Image)
    (h : flipAroundX P img = .returned img1) :
    ∃ buf, img1 = { img with mNumMipmaps := 0, mBuffer := some buf } := by
  unfold flipAroundX at h
  split at h
  · simp at h
  · dsimp only at h
    split at h
    · simp at h
    · injection h with h
      exact ⟨_, h.symm⟩

/-- With 65536 or more rows the test `y < mHeight` of the row loop never fails: the loop
uses up every amount of fuel. -/
theorem flipRowsLoop_never_exits (elem width height : Nat) (hh : USHORT_MOD ≤ height) :
    ∀ (fuel y : Nat) (buf : List Nat), y < USHORT_MOD →
      flipRowsLoop elem width height fuel y buf = none := by
  intro fuel
  induction fuel with
  | zero => intro y buf _; rfl
  | succ n ih =>
    intro y buf hy
    rw [flipRowsLoop, if_pos (by omega)]
    exact ih _ _ (Nat.mod_lt _ (by decide))

/-! ### Flips: two flips restore the buffer wherever the loops return -/

theorem reverseElements_length (e f l : Nat) (buf : List Nat) :
    (reverseElements e f l buf).length = buf.length := by
  simp [reverseElements]

theorem reverseElements_getD (e f l : Nat) (buf : List Nat) (i : Nat) (hi : i < buf.length) :
    (reverseElements e f l buf).getD i 0
      = if f * e ≤ i ∧ i < l * e then
          buf.getD (f * e + (l - f - 1 - (i - f * e) / e) * e + (i - f * e) % e) 0
        else buf.getD i 0 := by
  simp [reverseElements, List.getD_eq_getElem?_getD, List.getElem?_map, List.getElem?_range hi]

theorem mirrorIndex_row (e w i : Nat) (he : 1 ≤ e) (hw : 1 ≤ w) :
    mirrorIndex e w i / (w * e) = i / (w * e) ∧
      mirrorIndex e w i % (w * e) = (w - 1 - (i % (w * e)) / e) * e + (i % (w * e)) % e := by
  have hW : 0 < w * e := Nat.mul_pos hw he
  have hq : (i % (w * e)) / e < w := by
    rw [Nat.div_lt_iff_lt_mul he]; exact Nat.mod_lt _ hW
  have ht : (i % (w * e)) % e < e := Nat.mod_lt _ he
  have hj : (w - 1 - (i % (w * e)) / e) * e + (i % (w * e)) % e < w * e := by
    have h1 : (w - 1 - (i % (w * e)) / e) * e ≤ (w - 1) * e :=
      Nat.mul_le_mul_right _ (Nat.sub_le _ _)
    have h2 : (w - 1) * e + e = w * e := by
      have : w = (w - 1) + 1 := by omega
      conv_rhs => rw [this, Nat.add_mul, Nat.one_mul]
    omega
  unfold mirrorIndex
  constructor
  · rw [Nat.add_assoc, Nat.add_comm, Nat.add_mul_div_right _ _ hW, Nat.div_eq_of_lt hj]
    omega
  · rw [Nat.add_assoc, Nat.add_comm, Nat.add_mul_mod_self_right, Nat.mod_eq_of_lt hj]

theorem mirrorIndex_mirrorIndex (e w i : Nat) (he : 1 ≤ e) (hw : 1 ≤ w) :
    mirrorIndex e w (mirrorIndex e w i) = i := by
  have hW : 0 < w * e := Nat.mul_pos hw he
  obtain ⟨h1, h2⟩ := mirrorIndex_row e w i he hw
  have hq : (i % (w * e)) / e < w := by
    rw [Nat.div_lt_iff_lt_mul he]; exact Nat.mod_lt _ hW
  have ht : (i % (w * e)) % e < e := Nat.mod_lt _ he
  have h3 : ((w - 1 - (i % (w * e)) / e) * e + (i % (w * e)) % e) / e
      = w - 1 - (i % (w * e)) / e := by
    rw [Nat.add_comm, Nat.add_mul_div_right _ _ he, Nat.div_eq_of_lt ht]; omega
  have h4 : ((w - 1 - (i % (w * e)) / e) * e + (i % (w * e)) % e) % e = (i % (w * e)) % e := by
    rw [Nat.add_comm, Nat.add_mul_mod_self_right, Nat.mod_eq_of_lt ht]
  have hdef : ∀ j, mirrorIndex e w j
      = (j / (w * e)) * (w * e) + (w - 1 - (j % (w * e)) / e) * e + (j % (w * e)) % e :=
    fun _ => rfl
  rw [hdef (mirrorIndex e w i), h1, h2, h3, h4]
  have h5 : w - 1 - (w - 1 - (i % (w * e)) / e) = (i % (w * e)) / e := by
    generalize (i % (w * e)) / e = q at hq
    omega
  rw [h5]
  have h6 := Nat.div_add_mod (i % (w * e)) e
  have h7 := Nat.div_add_mod i (w * e)
  have h8 : (i % (w * e)) / e * e = e * ((i % (w * e)) / e) := Nat.mul_comm _ _
  have h9 : i / (w * e) * (w * e) = w * e * (i / (w * e)) := Nat.mul_comm _ _
  omega
/-- The row loop of `flipAroundY` returns when the height is a `ushort` value and
`width * height` is a `uint32` value; byte `i` of a row then comes from `mirrorIndex`. -/
theorem flipRowsLoop_getD (e w h : Nat) (he : 1 ≤ e) (hh : h < USHORT_MOD)
    (hwh : w * h < UINT32_MOD) :
    ∀ (n y fuel : Nat) (buf : List Nat), y + n = h → n < fuel → h * (w * e) ≤ buf.length →
      ∃ out, flipRowsLoop e w h fuel y buf = some out ∧ out.length = buf.length ∧
        ∀ i, i < buf.length →
          out.getD i 0 = if y * (w * e) ≤ i ∧ i < h * (w * e)
            then buf.getD (mirrorIndex e w i) 0 else buf.getD i 0 := by
  intro n
  induction n with
  | zero =>
    intro y fuel buf hy hfuel _
    obtain ⟨f, rfl⟩ : ∃ f, fuel = f + 1 := ⟨fuel - 1, by omega⟩
    refine ⟨buf, ?_, rfl, ?_⟩
    · rw [flipRowsLoop, if_neg (by omega)]
    · intro i _
      have : y = h := by omega
      subst this
      rw [if_neg (by omega)]
  | succ n ih =>
    intro y fuel buf hy hfuel hlen
    obtain ⟨f, rfl⟩ : ∃ f, fuel = f + 1 := ⟨fuel - 1, by omega⟩
    have hylt : y < h := by omega
    have hy1 : (y + 1) % USHORT_MOD = y + 1 := Nat.mod_eq_of_lt (by omega)
    have hle : w * (y + 1) ≤ w * h := Nat.mul_le_mul_left _ (by omega)
    have hle0 : w * y ≤ w * (y + 1) := Nat.mul_le_mul_left _ (by omega)
    have hm1 : (w * y) % UINT32_MOD = w * y := Nat.mod_eq_of_lt (by omega)
    have hm2 : (w * (y + 1)) % UINT32_MOD = w * (y + 1) := Nat.mod_eq_of_lt (by omega)
    obtain ⟨out, hout, hlen2, hget⟩ := ih (y + 1) f
      (reverseElements e (w * y) (w * (y + 1)) buf) (by omega) (by omega)
      (by rw [reverseElements_length]; exact hlen)
    rw [reverseElements_length] at hlen2
    refine ⟨out, ?_, hlen2, ?_⟩
    · rw [flipRowsLoop, if_pos hylt, hy1, hm1, hm2]
      exact hout
    · intro i hi
      rw [hget i (by rw [reverseElements_length]; exact hi)]
      have hw : 1 ≤ w ∨ w = 0 := by omega
      rcases hw with hw | hw
      · have hW : 0 < w * e := Nat.mul_pos hw he
        have e1 : w * y * e = y * (w * e) := by ring
        have e2 : w * (y + 1) * e = y * (w * e) + w * e := by ring
        have e3 : (y + 1) * (w * e) = y * (w * e) + w * e := by ring
        by_cases hin : (y + 1) * (w * e) ≤ i ∧ i < h * (w * e)
        · -- a later row: the reversal of row `y` did not touch the source
          rw [if_pos hin, if_pos ⟨by omega, hin.2⟩]
          obtain ⟨r1, r2⟩ := mirrorIndex_row e w i he hw
          have hrow : y + 1 ≤ i / (w * e) := by
            rw [Nat.le_div_iff_mul_le hW]; exact hin.1
          have hrow2 : i / (w * e) < h := by
            rw [Nat.div_lt_iff_lt_mul hW]; exact hin.2
          have hm := Nat.div_add_mod (mirrorIndex e w i) (w * e)
          have hml := Nat.mod_lt (mirrorIndex e w i) hW
          rw [r1] at hm
          have hge : (y + 1) * (w * e) ≤ mirrorIndex e w i := by
            have := Nat.mul_le_mul_right (w * e) hrow
            have h9 : w * e * (i / (w * e)) = i / (w * e) * (w * e) := Nat.mul_comm _ _
            omega
          have hlt : mirrorIndex e w i < h * (w * e) := by
            have := Nat.mul_le_mul_right (w * e) (show i / (w * e) + 1 ≤ h by omega)
            have h9 : w * e * (i / (w * e)) = i / (w * e) * (w * e) := Nat.mul_comm _ _
            rw [Nat.add_mul, Nat.one_mul] at this
            omega
          rw [reverseElements_getD _ _ _ _ _ (by omega), if_neg (by rw [e2]; omega)]
        · rw [if_neg hin, reverseElements_getD _ _ _ _ _ hi]
          by_cases hrow : y * (w * e) ≤ i ∧ i < (y + 1) * (w * e)
          · -- row `y`: the source index of `std::reverse` is the mirror index
            have hq : i / (w * e) = y := by
              apply Nat.div_eq_of_lt_le
              · exact hrow.1
              · exact hrow.2
            have hr : i % (w * e) = i - y * (w * e) := by
              have := Nat.div_add_mod i (w * e)
              rw [hq] at this
              have h9 : w * e * y = y * (w * e) := Nat.mul_comm _ _
              omega
            have hlast : h * (w * e) ≥ (y + 1) * (w * e) :=
              Nat.mul_le_mul_right _ (by omega)
            rw [if_pos (by rw [e1, e2]; omega), if_pos ⟨hrow.1, by omega⟩]
            congr 1
            unfold mirrorIndex
            rw [hq, hr, e1]
            have : w * (y + 1) - w * y - 1 = w - 1 := by
              rw [Nat.mul_add, Nat.mul_one]; omega
            rw [this]
          · rw [if_neg (by rw [e1, e2]; omega), if_neg (by omega)]
      · subst hw
        have z : ∀ k, k * (0 * e) = 0 := by intro k; simp
        rw [z, z, if_neg (by omega), if_neg (by omega), reverseElements_getD _ _ _ _ _ hi,
          if_neg (by simp)]
theorem list_eq_of_getD (a b : List Nat) (hlen : a.length = b.length)
    (h : ∀ i, i < b.length → a.getD i 0 = b.getD i 0) : a = b := by
  apply List.ext_getElem hlen
  intro i h1 h2
  have := h i h2
  simpa [List.getD_eq_getElem?_getD, List.getElem?_eq_getElem h1,
    List.getElem?_eq_getElem h2] using this

/-- Two runs of the row loop of `flipAroundY` restore the buffer. -/
theorem flipRowsLoop_twice (e w h : Nat) (he : 1 ≤ e) (hh : h < USHORT_MOD)
    (hwh : w * h < UINT32_MOD) (buf : List Nat) (hlen : h * (w * e) ≤ buf.length) :
    ∃ out, flipRowsLoop e w h (h + 1) 0 buf = some out ∧
      flipRowsLoop e w h (h + 1) 0 out = some buf := by
  obtain ⟨out, h1, l1, g1⟩ :=
    flipRowsLoop_getD e w h he hh hwh h 0 (h + 1) buf (by omega) (by omega) hlen
  obtain ⟨out2, h2, l2, g2⟩ :=
    flipRowsLoop_getD e w h he hh hwh h 0 (h + 1) out (by omega) (by omega) (by omega)
  refine ⟨out, h1, ?_⟩
  rw [h2]
  congr 1
  apply list_eq_of_getD _ _ (by omega)
  intro i hi
  rw [g2 i (by omega)]
  by_cases hin : 0 * (w * e) ≤ i ∧ i < h * (w * e)
  · have hw : 1 ≤ w := by
      rcases Nat.eq_zero_or_pos w with hw | hw
      · subst hw; simp at hin
      · exact hw
    have hW : 0 < w * e := Nat.mul_pos hw he
    obtain ⟨r1, _⟩ := mirrorIndex_row e w i he hw
    have hrow2 : i / (w * e) < h := by
      rw [Nat.div_lt_iff_lt_mul hW]; exact hin.2
    have hm := Nat.div_add_mod (mirrorIndex e w i) (w * e)
    have hml := Nat.mod_lt (mirrorIndex e w i) hW
    rw [r1] at hm
    have hlt : mirrorIndex e w i < h * (w * e) := by
      have := Nat.mul_le_mul_right (w * e) (show i / (w * e) + 1 ≤ h by omega)
      have h9 : w * e * (i / (w * e)) = i / (w * e) * (w * e) := Nat.mul_comm _ _
      rw [Nat.add_mul, Nat.one_mul] at this
      omega
    rw [if_pos hin, g1 _ (by omega), if_pos ⟨by omega, hlt⟩, mirrorIndex_mirrorIndex e w i he hw]
  · rw [if_neg hin, g1 i hi, if_neg hin]

theorem flipSource_spec (D W H depth i : Nat) (hW : 0 < W) (hH : 0 < H)
    (h1 : D ≤ i) (h2 : i < D + (W * H) * depth) :
    D ≤ flipSource D W H i ∧ flipSource D W H i < D + (W * H) * depth ∧
      flipSource D W H (flipSource D W H i) = i := by
  have hS : 0 < W * H := Nat.mul_pos hW hH
  obtain ⟨rel, rfl⟩ : ∃ rel, i = D + rel := ⟨i - D, by omega⟩
  have hrel : rel < (W * H) * depth := by omega
  have hsub : ∀ k, D + k - D = k := by intro k; omega
  have hz : rel / (W * H) < depth := by
    rw [Nat.div_lt_iff_lt_mul hS, Nat.mul_comm depth]; exact hrel
  have hr : rel % (W * H) < W * H := Nat.mod_lt _ hS
  have hy : rel % (W * H) / W < H := by
    rw [Nat.div_lt_iff_lt_mul hW, Nat.mul_comm H W]; exact hr
  have hx : rel % W < W := Nat.mod_lt _ hW
  have hxr : rel % (W * H) % W = rel % W := Nat.mod_mul_right_mod _ _ _
  have hrel_eq := Nat.div_add_mod rel (W * H)
  have hr_eq := Nat.div_add_mod (rel % (W * H)) W
  rw [hxr] at hr_eq
  -- the offset of the source inside the region
  have hbound : (H - 1 - rel % (W * H) / W) * W + rel % W < W * H := by
    have a1 : (H - 1 - rel % (W * H) / W) * W ≤ (H - 1) * W :=
      Nat.mul_le_mul_right _ (Nat.sub_le _ _)
    have a2 : (H - 1) * W + W = W * H := by
      have : H = (H - 1) + 1 := by omega
      conv_rhs => rw [this, Nat.mul_add, Nat.mul_one, Nat.mul_comm]
    omega
  have hsrc : flipSource D W H (D + rel)
      = D + (rel / (W * H) * (W * H) + ((H - 1 - rel % (W * H) / W) * W + rel % W)) := by
    unfold flipSource
    rw [hsub]
    omega
  have hdiv : (rel / (W * H) * (W * H) + ((H - 1 - rel % (W * H) / W) * W + rel % W)) / (W * H)
      = rel / (W * H) := by
    rw [Nat.add_comm, Nat.add_mul_div_right _ _ hS, Nat.div_eq_of_lt hbound, Nat.zero_add]
  have hmod : (rel / (W * H) * (W * H) + ((H - 1 - rel % (W * H) / W) * W + rel % W)) % (W * H)
      = (H - 1 - rel % (W * H) / W) * W + rel % W := by
    rw [Nat.add_comm, Nat.add_mul_mod_self_right, Nat.mod_eq_of_lt hbound]
  have hdivW : ((H - 1 - rel % (W * H) / W) * W + rel % W) / W = H - 1 - rel % (W * H) / W := by
    rw [Nat.add_comm, Nat.add_mul_div_right _ _ hW, Nat.div_eq_of_lt hx, Nat.zero_add]
  have hmodW : (rel / (W * H) * (W * H) + ((H - 1 - rel % (W * H) / W) * W + rel % W)) % W
      = rel % W := by
    have : rel / (W * H) * (W * H) + ((H - 1 - rel % (W * H) / W) * W + rel % W)
        = rel % W + (rel / (W * H) * H + (H - 1 - rel % (W * H) / W)) * W := by ring
    rw [this, Nat.add_mul_mod_self_right, Nat.mod_eq_of_lt hx]
  have hlt : rel / (W * H) * (W * H) + ((H - 1 - rel % (W * H) / W) * W + rel % W)
      < (W * H) * depth := by
    have := Nat.mul_le_mul_left (W * H) (show rel / (W * H) + 1 ≤ depth by omega)
    rw [Nat.mul_add, Nat.mul_one, Nat.mul_comm (W * H) (rel / (W * H))] at this
    omega
  refine ⟨by rw [hsrc]; omega, by rw [hsrc]; omega, ?_⟩
  rw [hsrc]
  unfold flipSource
  rw [hsub, hdiv, hmod, hdivW, hmodW]
  have h5 : H - 1 - (H - 1 - rel % (W * H) / W) = rel % (W * H) / W := by
    generalize rel % (W * H) / W = q at hy
    omega
  rw [h5]
  have c1 : W * H * (rel / (W * H)) = rel / (W * H) * (W * H) := Nat.mul_comm _ _
  have c2 : W * (rel % (W * H) / W) = rel % (W * H) / W * W := Nat.mul_comm _ _
  omega

theorem bulkPixelVerticalFlip_length (P : PixelUtil) (box : PixelBox) (buf : List Nat) :
    (bulkPixelVerticalFlip P box buf).length = buf.length := by
  simp [bulkPixelVerticalFlip]

theorem bulkPixelVerticalFlip_getD (P : PixelUtil) (box : PixelBox) (buf : List Nat) (i : Nat)
    (hi : i < buf.length) :
    (bulkPixelVerticalFlip P box buf).getD i 0
      = if box.data ≤ i ∧
            i < box.data + (box.width * P.getNumElemBytes box.format * box.height) * box.depth
        then buf.getD (flipSource box.data (box.width * P.getNumElemBytes box.format)
          box.height i) 0
        else buf.getD i 0 := by
  simp [bulkPixelVerticalFlip, flipSource, List.getD_eq_getElem?_getD, List.getElem?_map,
    List.getElem?_range hi]

/-- Two calls of the vertical flip on a region that lies inside the buffer restore the
buffer. -/
theorem bulkPixelVerticalFlip_twice (P : PixelUtil) (box : PixelBox) (buf : List Nat)
    (hlen : box.data + (box.width * P.getNumElemBytes box.format * box.height) * box.depth
      ≤ buf.length) :
    bulkPixelVerticalFlip P box (bulkPixelVerticalFlip P box buf) = buf := by
  apply list_eq_of_getD _ _ (by simp [bulkPixelVerticalFlip_length])
  intro i hi
  rw [bulkPixelVerticalFlip_getD P box _ i (by rw [bulkPixelVerticalFlip_length]; exact hi)]
  by_cases hin : box.data ≤ i ∧
      i < box.data + (box.width * P.getNumElemBytes box.format * box.height) * box.depth
  · have hW : 0 < box.width * P.getNumElemBytes box.format := by
      rcases Nat.eq_zero_or_pos (box.width * P.getNumElemBytes box.format) with h0 | h0
      · rw [h0] at hin; simp at hin; omega
      · exact h0
    have hH : 0 < box.height := by
      rcases Nat.eq_zero_or_pos box.height with h0 | h0
      · rw [h0] at hin; simp at hin; omega
      · exact h0
    obtain ⟨s1, s2, s3⟩ := flipSource_spec box.data
      (box.width * P.getNumElemBytes box.format) box.height box.depth i hW hH hin.1 hin.2
    rw [if_pos hin, bulkPixelVerticalFlip_getD P box buf _ (by omega), if_pos ⟨s1, s2⟩, s3]
  · rw [if_neg hin, bulkPixelVerticalFlip_getD P box buf i hi, if_neg hin]

/-- Flip involution of `flipAroundY` wherever the row loop returns: with a height that is
a `ushort` value, `width * height` a `uint32` value, element size 1, 2, 3 or 4 and the
base level inside the buffer, `flipAroundY` returns, and applied to its result it returns
the original buffer (and mip count 0). -/
theorem flipAroundY_twice (img : Image) (buf : List Nat) (hbuf : img.mBuffer = some buf)
    (hsz : img.mPixelSize = 1 ∨ img.mPixelSize = 2 ∨ img.mPixelSize = 3 ∨ img.mPixelSize = 4)
    (hh : img.mHeight < USHORT_MOD) (hwh : img.mWidth * img.mHeight < UINT32_MOD)
    (hlen : img.mHeight * (img.mWidth * img.mPixelSize) ≤ buf.length) :
    ∃ img1, flipAroundY (img.mHeight + 1) img = some (.returned img1) ∧
      flipAroundY (img.mHeight + 1) img1 = some (.returned { img with mNumMipmaps := 0 }) := by
  obtain ⟨w, h, d, bs, nm, fl, fmt, ps, b, ad⟩ := img
  simp only at hbuf hsz hh hwh hlen
  subst hbuf
  rcases hsz with rfl | rfl | rfl | rfl
  · obtain ⟨out, h1, h2⟩ := flipRowsLoop_twice 1 w h (by decide) hh hwh buf hlen
    refine ⟨{ mWidth := w, mHeight := h, mDepth := d, mBufSize := bs, mNumMipmaps := 0,
              mFlags := fl, mFormat := fmt, mPixelSize := 1, mBuffer := some out,
              mAutoDelete := ad }, ?_, ?_⟩
    · simp only [flipAroundY, h1, Option.map_some']
    · simp only [flipAroundY, h2, Option.map_some']
  · obtain ⟨out, h1, h2⟩ := flipRowsLoop_twice 2 w h (by decide) hh hwh buf hlen
    refine ⟨{ mWidth := w, mHeight := h, mDepth := d, mBufSize := bs, mNumMipmaps := 0,
              mFlags := fl, mFormat := fmt, mPixelSize := 2, mBuffer := some out,
              mAutoDelete := ad }, ?_, ?_⟩
    · simp only [flipAroundY, h1, Option.map_some']
    · simp only [flipAroundY, h2, Option.map_some']
  · obtain ⟨out, h1, h2⟩ := flipRowsLoop_twice 3 w h (by decide) hh hwh buf hlen
    refine ⟨{ mWidth := w, mHeight := h, mDepth := d, mBufSize := bs, mNumMipmaps := 0,
              mFlags := fl, mFormat := fmt, mPixelSize := 3, mBuffer := some out,
              mAutoDelete := ad }, ?_, ?_⟩
    · simp only [flipAroundY, h1, Option.map_some']
    · simp only [flipAroundY, h2, Option.map_some']
  · obtain ⟨out, h1, h2⟩ := flipRowsLoop_twice 4 w h (by decide) hh hwh buf hlen
    refine ⟨{ mWidth := w, mHeight := h, mDepth := d, mBufSize := bs, mNumMipmaps := 0,
              mFlags := fl, mFormat := fmt, mPixelSize := 4, mBuffer := some out,
              mAutoDelete := ad }, ?_, ?_⟩
    · simp only [flipAroundY, h1, Option.map_some']
    · simp only [flipAroundY, h2, Option.map_some']

/-- Flip involution of `flipAroundX`: with the base level of face 0 inside the buffer,
`flipAroundX` returns, and applied to its result it returns the original buffer (and mip
count 0). -/
theorem flipAroundX_twice (P : PixelUtil) (img : Image) (buf : List Nat)
    (hbuf : img.mBuffer = some buf)
    (hlen : (img.mWidth * P.getNumElemBytes img.mFormat * img.mHeight) * img.mDepth
      ≤ buf.length) :
    ∃ img1, flipAroundX P img = .returned img1 ∧
      flipAroundX P img1 = .returned { img with mNumMipmaps := 0 } := by
  obtain ⟨w, h, d, bs, nm, fl, fmt, ps, b, ad⟩ := img
  simp only at hbuf hlen
  subst hbuf
  have hbox : ∀ (b : Option (List Nat)),
      getPixelBox P
          (Image.mk w h d bs 0 fl fmt ps b ad) 0 0
        = .ok (PixelBox.mk w h d fmt 0) := by
    intro b
    rw [getPixelBox_eq P _ 0 0 (Nat.zero_le _) (getNumFaces_pos _)]
    simp [prefixBytes]
  refine ⟨{ mWidth := w, mHeight := h, mDepth := d, mBufSize := bs, mNumMipmaps := 0,
            mFlags := fl, mFormat := fmt, mPixelSize := ps,
            mBuffer := some (bulkPixelVerticalFlip P
              { width := w, height := h, depth := d, format := fmt, data := 0 } buf),
            mAutoDelete := ad }, ?_, ?_⟩
  · simp only [flipAroundX, hbox]
  · simp only [flipAroundX, hbox]
    rw [bulkPixelVerticalFlip_twice P _ buf (by simpa using hlen)]

/-! ### C8: flip involution -/

/-- C8 (the code at the failing input): on the image of one column and 65536 rows of
one-byte elements over a 65536-byte buffer, `flipAroundY` does not return, however much
fuel the row loop is given; so there is no buffer "after applying `flipAroundY` twice".
Where the row loop returns, two flips do restore the buffer (`flipAroundY_twice`,
`flipAroundX_twice`). -/
theorem flipAroundY_tall_image_never_returns (fuel : Nat) :
    flipAroundY fuel tallImage = none := by
  have h := flipRowsLoop_never_exits 1 1 65536 (by decide) fuel 0 (List.replicate 65536 0)
    (by decide)
  simp only [flipAroundY, tallImage, h, Option.map_none']

/-! ### C9: what a flip changes -/

/-- C9: after every successful `flipAroundY` or `flipAroundX` the stored mip count is 0,
whatever it was before, and width, height, depth, format, flags, buffer size, element
size and the ownership flag are equal to their values before the call. -/
theorem flip_changes_only_mip_count (P : PixelUtil) (fuel : Nat) (img img1 : Image)
    (h : flipAroundY fuel img = some (.returned img1) ∨ flipAroundX P img = .returned img1) :
    img1.mNumMipmaps = 0 ∧ img1.mWidth = img.mWidth ∧ img1.mHeight = img.mHeight ∧
      img1.mDepth = img.mDepth ∧ img1.mFormat = img.mFormat ∧ img1.mFlags = img.mFlags ∧
      img1.mBufSize = img.mBufSize ∧ img1.mPixelSize = img.mPixelSize ∧
      img1.mAutoDelete = img.mAutoDelete := by
  have key : ∃ buf, img1 = { img with mNumMipmaps := 0, mBuffer := some buf } := by
    rcases h with h | h
    · exact flipAroundY_returned fuel img img1 h
    · exact flipAroundX_returned P img img1 h
  obtain ⟨buf, rfl⟩ := key
  exact ⟨rfl, rfl, rfl, rfl, rfl, rfl, rfl, rfl, rfl⟩

/-- Witness of `flip_changes_only_mip_count`: `flipAroundY` on the 4×2 sample image of
two-byte elements (the two rows of the base level are reversed element by element, the
bytes of the mip levels stay), and `flipAroundX` on the same image (the two rows of the
base level change places). -/
theorem flip_changes_only_mip_count_witness :
    flipAroundY 3 sampleImage = some (.returned
        { sampleImage with
          mNumMipmaps := 0,
          mBuffer := some [6, 7, 4, 5, 2, 3, 0, 1, 14, 15, 12, 13, 10, 11, 8, 9,
                           16, 17, 18, 19, 20, 21] }) ∧
      flipAroundX sampleCatalogue sampleImage = .returned
        { sampleImage with
          mNumMipmaps := 0,
          mBuffer := some [8, 9, 10, 11, 12, 13, 14, 15, 0, 1, 2, 3, 4, 5, 6, 7,
                           16, 17, 18, 19, 20, 21] } ∧
      (({ sampleImage with
          mNumMipmaps := 0,
          mBuffer := some [6, 7, 4, 5, 2, 3, 0, 1, 14, 15, 12, 13, 10, 11, 8, 9,
                           16, 17, 18, 19, 20, 21] } : Image).mNumMipmaps = 0 ∧
        ({ sampleImage with
          mNumMipmaps := 0,
          mBuffer := some [6, 7, 4, 5, 2, 3, 0, 1, 14, 15, 12, 13, 10, 11, 8, 9,
                           16, 17, 18, 19, 20, 21] } : Image).mBufSize
          = sampleImage.mBufSize) :=
  ⟨by decide, by decide,
    (flip_changes_only_mip_count sampleCatalogue 3 sampleImage _ (Or.inl (by decide))).1,
    (flip_changes_only_mip_count sampleCatalogue 3 sampleImage _
      (Or.inl (by decide))).2.2.2.2.2.2.1⟩

/-! ### C5: the buffer-size equation under the mutating operations -/

/-- C5 (amended): the buffer-size equation holds after a successful `loadDynamicImage`
and after a successful `combineTwoImagesAsRGBA` whenever the new dimensions are at least 1
and the sum is below `2^64` (the stored size is the sum modulo `2^64`); a successful
`flipAroundY` or `flipAroundX` preserves it when the stored mip count was 0 before the
call (a flip zeroes the mip count and leaves the buffer size as it is); a successful
`resize` to a width and height of at least 1 establishes it on an image without the
cubemap flag when `memorySize` of the new base level is below `2^64`. -/
theorem bufSize_equation_after_mutation {F : Type} (P : PixelUtil) (R : Resamplers)
    (C : ColourOps F) (B : Build) (fresh : Nat → List Nat) (uninit fuel : Nat)
    (img img1 : Image) :
    (∀ (pData : Option (List Nat)) (w h d : Nat) (fmt : PixelFormat) (autoDelete : Bool)
        (numFaces numMips : Nat),
        1 ≤ w → 1 ≤ h → 1 ≤ d →
        (∑ mip ∈ Finset.range (numMips + 1),
          numFaces * P.getMemorySize (max 1 (w >>> mip)) (max 1 (h >>> mip))
            (max 1 (d >>> mip)) fmt) < SIZE_MOD →
        loadDynamicImage P img pData w h d fmt autoDelete numFaces numMips = .returned img1 →
        BufSizeInvariant P img1) ∧
      (∀ (rgb alpha : Image) (fmt : PixelFormat),
        1 ≤ rgb.mWidth → 1 ≤ rgb.mHeight → 1 ≤ rgb.mDepth →
        (∑ mip ∈ Finset.range (rgb.mNumMipmaps + 1),
          rgb.getNumFaces * P.getMemorySize (max 1 (rgb.mWidth >>> mip))
            (max 1 (rgb.mHeight >>> mip)) (max 1 (rgb.mDepth >>> mip)) fmt) < SIZE_MOD →
        combineTwoImagesAsRGBA P R C fresh fuel img rgb alpha fmt = some (.returned img1) →
        BufSizeInvariant P img1) ∧
      (BufSizeInvariant P img → img.mNumMipmaps = 0 →
        flipAroundY fuel img = some (.returned img1) → BufSizeInvariant P img1) ∧
      (BufSizeInvariant P img → img.mNumMipmaps = 0 →
        flipAroundX P img = .returned img1 → BufSizeInvariant P img1) ∧
      (∀ (width height : Nat) (filter : Filter),
        1 ≤ width → 1 ≤ height → img.hasFlag IF_CUBEMAP = false →
        P.getMemorySize width height 1 img.mFormat < SIZE_MOD →
        resize P R B fresh uninit img width height filter = .returned img1 →
        BufSizeInvariant P img1) := by
  refine ⟨?_, ?_, ?_, ?_, ?_⟩
  · intro pData w h d fmt autoDelete numFaces numMips hw hh hd hfit hret
    obtain ⟨e1, e2, e3, e4, e5, e6, e7⟩ :=
      loadDynamicImage_returned P img img1 pData w h d fmt autoDelete numFaces numMips hret
    unfold BufSizeInvariant
    rw [e1, e2, e3, e4, e5, e6, e7, calculateSize_eq_max P numMips numFaces w h d fmt hw hh hd,
      Nat.mod_eq_of_lt hfit]
  · intro rgb alpha fmt hw hh hd hfit hret
    obtain ⟨e1, e2, e3, e4, e5, e6, e7⟩ :=
      combine_returned P R C fresh fuel img rgb alpha img1 fmt hret
    unfold BufSizeInvariant
    rw [e1, e2, e3, e4, e5, e6, e7,
      calculateSize_eq_max P rgb.mNumMipmaps rgb.getNumFaces rgb.mWidth rgb.mHeight rgb.mDepth
        fmt hw hh hd,
      Nat.mod_eq_of_lt hfit]
  · intro hinv hmip hret
    obtain ⟨buf, rfl⟩ := flipAroundY_returned fuel img img1 hret
    unfold BufSizeInvariant at hinv ⊢
    rw [hmip] at hinv
    exact hinv
  · intro hinv hmip hret
    obtain ⟨buf, rfl⟩ := flipAroundX_returned P img img1 hret
    unfold BufSizeInvariant at hinv ⊢
    rw [hmip] at hinv
    exact hinv
  · intro width height filter hw hh hcube hfit hret
    obtain ⟨_, hd, e1, e2, e3, e4, e5, e6, _, _, e7⟩ :=
      resize_returned P R B fresh uninit img img1 width height filter hret
    have hfaces : img1.getNumFaces = 1 := by
      have : img1.hasFlag IF_CUBEMAP = false := by
        unfold Image.hasFlag at hcube ⊢
        rw [e5]; exact hcube
      simp [Image.getNumFaces, this]
    unfold BufSizeInvariant
    rw [e1, e2, e3, e4, e6, e7, hfaces, hd, Nat.mod_eq_of_lt hfit]
    simp
    have h1 : max 1 width = width := by omega
    have h2 : max 1 height = height := by omega
    rw [h1, h2]

/-- Witness of `bufSize_equation_after_mutation`: a cubemap of six 1×1 faces loaded with
`loadDynamicImage`; two 1×1 images combined; the 2×2 image without mip levels flipped
around Y and around X, and resized to 1×1. -/
theorem bufSize_equation_after_mutation_witness :
    BufSizeInvariant sampleCatalogue { cubeImage with mAutoDelete := false } ∧
      BufSizeInvariant sampleCatalogue { pixelRGB with mBuffer := some [255, 0, 0, 128] } ∧
      BufSizeInvariant sampleCatalogue { flatImage with mBuffer := some [2, 3, 0, 1, 6, 7, 4, 5] } ∧
      BufSizeInvariant sampleCatalogue { flatImage with mBuffer := some [4, 5, 6, 7, 0, 1, 2, 3] } ∧
      BufSizeInvariant sampleCatalogue
        { flatImage with mWidth := 1, mHeight := 1, mBufSize := 2, mBuffer := some [0, 1] } :=
  ⟨(bufSize_equation_after_mutation sampleCatalogue sampleResamplers sampleColourOps
      sampleBuild sampleFresh 0 3 sampleImage _).1 (some [1, 2, 3, 4, 5, 6]) 1 1 1 .PF_L8 false
      6 0 (by decide) (by decide) (by decide) (by decide) (by decide),
    (bufSize_equation_after_mutation sampleCatalogue sampleResamplers sampleColourOps
      sampleBuild sampleFresh 0 3 emptyImage _).2.1 pixelRGB pixelAlpha .PF_R8G8B8A8
      (by decide) (by decide) (by decide) (by decide) (by decide),
    (bufSize_equation_after_mutation sampleCatalogue sampleResamplers sampleColourOps
      sampleBuild sampleFresh 0 3 flatImage _).2.2.1 (by unfold BufSizeInvariant; decide)
      (by decide) (by decide),
    (bufSize_equation_after_mutation sampleCatalogue sampleResamplers sampleColourOps
      sampleBuild sampleFresh 0 3 flatImage _).2.2.2.1 (by unfold BufSizeInvariant; decide)
      (by decide) (by decide),
    (bufSize_equation_after_mutation sampleCatalogue sampleResamplers sampleColourOps
      sampleBuild sampleFresh 0 3 flatImage _).2.2.2.2 1 1 .FILTER_NEAREST (by decide)
      (by decide) (by decide) (by decide) (by decide)⟩

/-- C5 (counterexample): the sample image (4×2, two mip levels beyond the base, 22 bytes)
satisfies the buffer-size equation; `flipAroundY` returns on it with the mip count 0 and
the buffer size still 22, so that the equation, which now asks for 16, fails.  Likewise
`resize(2, 2)` of a cubemap satisfying the equation keeps the cubemap flag and stores the
size of one face, 4, where the equation asks for 24.  And `loadDynamicImage` with all
dimensions 0 stores the size 0 where the equation, with its minimum of 1, asks for 1. -/
theorem bufSize_equation_broken_counterexample :
    (BufSizeInvariant sampleCatalogue sampleImage ∧
      flipAroundY 3 sampleImage = some (.returned sampleImageFlipped) ∧
      ¬ BufSizeInvariant sampleCatalogue sampleImageFlipped) ∧
    (BufSizeInvariant sampleCatalogue cubeImage ∧
      resize sampleCatalogue sampleResamplers sampleBuild sampleFresh 0 cubeImage 2 2
        .FILTER_NEAREST = .returned cubeImageResized ∧
      ¬ BufSizeInvariant sampleCatalogue cubeImageResized) ∧
    (loadDynamicImage sampleCatalogue sampleImage none 0 0 0 .PF_L8 false 1 0
        = .returned zeroLoaded ∧
      ¬ BufSizeInvariant sampleCatalogue zeroLoaded) := by
  refine ⟨⟨?_, ?_, ?_⟩, ⟨?_, ?_, ?_⟩, ?_, ?_⟩
  · unfold BufSizeInvariant; decide
  · decide
  · unfold BufSizeInvariant; decide
  · unfold BufSizeInvariant; decide
  · decide
  · unfold BufSizeInvariant; decide
  · decide
  · unfold BufSizeInvariant; decide

/-! ### C10: rejected combinations -/

/-- C10: for every target image and every rgb image, alpha image and target format such
that the two inputs differ in width, height or depth, or differ in mip count or face
count, or the target format does not have exactly 4 components, or any of the rgb
format, alpha format and target format is block-compressed, `combineTwoImagesAsRGBA`
raises `ERR_INVALIDPARAMS` and the target image at the `throw` is the target image before
the call, field for field (buffer, buffer size, dimensions, format, mip count, flags,
element size, ownership flag). -/
theorem combine_rejects_bad_inputs {F : Type} (P : PixelUtil) (R : Resamplers)
    (C : ColourOps F) (fresh : Nat → List Nat) (fuel : Nat) (self rgb alpha : Image)
    (fmt : PixelFormat)
    (h : rgb.getWidth ≠ alpha.getWidth ∨ rgb.getHeight ≠ alpha.getHeight ∨
          rgb.getDepth ≠ alpha.getDepth ∨
          rgb.getNumMipmaps ≠ alpha.getNumMipmaps ∨ rgb.getNumFaces ≠ alpha.getNumFaces ∨
          P.getComponentCount fmt ≠ 4 ∨
          P.isCompressed rgb.getFormat = true ∨ P.isCompressed alpha.getFormat = true ∨
          P.isCompressed fmt = true) :
    combineTwoImagesAsRGBA P R C fresh fuel self rgb alpha fmt
      = some (.raised .ERR_INVALIDPARAMS self) := by
  unfold combineTwoImagesAsRGBA
  by_cases h1 : rgb.getWidth ≠ alpha.getWidth ∨ rgb.getHeight ≠ alpha.getHeight ∨
      rgb.getDepth ≠ alpha.getDepth
  · rw [if_pos h1]
  · rw [if_neg h1]
    by_cases h2 : rgb.getNumMipmaps ≠ alpha.getNumMipmaps ∨
        rgb.getNumFaces ≠ alpha.getNumFaces
    · rw [if_pos h2]
    · rw [if_neg h2]
      by_cases h3 : P.getComponentCount fmt ≠ 4
      · rw [if_pos h3]
      · rw [if_neg h3]
        have h4 : (P.isCompressed fmt || P.isCompressed rgb.getFormat
            || P.isCompressed alpha.getFormat) = true := by
          simp only [Bool.or_eq_true]
          tauto
        rw [if_pos h4]

/-- Witness of `combine_rejects_bad_inputs`: a 64×64 rgb image with a 32×32 alpha image
into an empty target; the target still has no buffer. -/
theorem combine_rejects_bad_inputs_witness :
    combineTwoImagesAsRGBA sampleCatalogue sampleResamplers sampleColourOps sampleFresh 1
        emptyImage rgb64 alpha32 .PF_R8G8B8A8
      = some (.raised .ERR_INVALIDPARAMS emptyImage) ∧ emptyImage.mBuffer = none :=
  ⟨combine_rejects_bad_inputs sampleCatalogue sampleResamplers sampleColourOps sampleFresh 1
      emptyImage rgb64 alpha32 .PF_R8G8B8A8 (Or.inl (by decide)),
    rfl⟩

/-! ### C12: the strict raw-size contract -/

/-- C12: for every stream whose size differs from `calculateSize(numMipMaps, numFaces,
width, height, depth, format)`, shorter or longer, `loadRawData` raises
`ERR_INVALIDPARAMS`; the image at the `throw` is the image before the call, the stream
is as it was (nothing was read) and nothing was allocated. -/
theorem loadRawData_rejects_size_mismatch (P : PixelUtil) (fresh : Nat → List Nat)
    (img : Image) (stream : DataStream) (w h d : Nat) (fmt : PixelFormat)
    (numFaces numMipMaps : Nat)
    (hne : stream.size ≠ calculateSize P numMipMaps numFaces w h d fmt) :
    loadRawData P fresh img stream w h d fmt numFaces numMipMaps
      = { outcome := .raised .ERR_INVALIDPARAMS img, stream := stream, allocated := none } := by
  unfold loadRawData
  simp only
  rw [if_pos (fun h => hne h.symm)]

/-- Witness of `loadRawData_rejects_size_mismatch`: a 2×2 image of one-byte elements
needs 4 bytes; a stream of 5 bytes and a stream of 3 bytes are both rejected. -/
theorem loadRawData_rejects_size_mismatch_witness :
    loadRawData sampleCatalogue sampleFresh sampleImage fiveByteStream 2 2 1 .PF_L8 1 0
        = { outcome := .raised .ERR_INVALIDPARAMS sampleImage, stream := fiveByteStream,
            allocated := none } ∧
      loadRawData sampleCatalogue sampleFresh sampleImage threeByteStream 2 2 1 .PF_L8 1 0
        = { outcome := .raised .ERR_INVALIDPARAMS sampleImage, stream := threeByteStream,
            allocated := none } :=
  ⟨loadRawData_rejects_size_mismatch sampleCatalogue sampleFresh sampleImage fiveByteStream
      2 2 1 .PF_L8 1 0 (by decide),
    loadRawData_rejects_size_mismatch sampleCatalogue sampleFresh sampleImage threeByteStream
      2 2 1 .PF_L8 1 0 (by decide)⟩

/-! ### C13: the contract of `loadDynamicImage` -/

/-- The object that `loadDynamicImage` returns, member by member. -/
theorem loadDynamicImage_members (P : PixelUtil) (img img1 : Image)
    (pData : Option (List Nat)) (w h d : Nat) (fmt : PixelFormat) (autoDelete : Bool)
    (numFaces numMips : Nat)
    (hret : loadDynamicImage P img pData w h d fmt autoDelete numFaces numMips
      = .returned img1) :
    (img1.hasFlag IF_CUBEMAP = true ↔ numFaces = 6) ∧
      (img1.hasFlag IF_3D_TEXTURE = true ↔ d ≠ 1) ∧
      (img1.hasFlag IF_COMPRESSED = true ↔ P.isCompressed fmt = true) ∧
      img1.mPixelSize = P.getNumElemBytes fmt % UINT8_MOD ∧
      img1.mBuffer = pData ∧ img1.mAutoDelete = autoDelete := by
  unfold loadDynamicImage at hret
  dsimp only at hret
  split at hret
  · cases hret
  · rename_i hfaces
    injection hret with hret
    subst hret
    have hf : numFaces = 6 ∨ numFaces = 1 := by omega
    refine ⟨?_, ?_, ?_, ?_, ?_, ?_⟩
    all_goals
      by_cases hc : P.isCompressed fmt = true <;> by_cases h3 : d = 1 <;>
        rcases hf with h6 | h6 <;>
        simp [hc, h3, h6, Image.hasFlag, IF_COMPRESSED, IF_3D_TEXTURE, IF_CUBEMAP] <;>
        try decide

/-- With one face or six faces `loadDynamicImage` returns. -/
theorem loadDynamicImage_returns (P : PixelUtil) (img : Image) (pData : Option (List Nat))
    (w h d : Nat) (fmt : PixelFormat) (autoDelete : Bool) (numFaces numMips : Nat)
    (hf : numFaces = 1 ∨ numFaces = 6) :
    ∃ img1, loadDynamicImage P img pData w h d fmt autoDelete numFaces numMips
      = .returned img1 := by
  unfold loadDynamicImage
  dsimp only
  rw [if_neg (by omega)]
  exact ⟨_, rfl⟩

/-- C13: `loadDynamicImage(data, w, h, d, format, autoDelete, numFaces, numMipMaps)` ends
in one of two ways: it raises `ERR_INVALIDPARAMS`, which it does if and only if `numFaces`
is neither 1 nor 6, or it returns.  When it returns, `getNumFaces()` is `numFaces`, the
cubemap flag is set exactly when `numFaces = 6`, the 3D flag exactly when `d != 1`, the
compressed flag exactly when the format is compressed, the stored mip count is
`numMipMaps`, the element size is `elementByteSize(format)` as a `uchar` (so the element
size itself, element sizes being below 256), and the buffer size is
`calculateSize(numMipMaps, numFaces, w, h, d, format)`. -/
theorem loadDynamicImage_contract (P : PixelUtil) (img : Image) (pData : Option (List Nat))
    (w h d : Nat) (fmt : PixelFormat) (autoDelete : Bool) (numFaces numMips : Nat) :
    ((∃ img1, loadDynamicImage P img pData w h d fmt autoDelete numFaces numMips
          = .raised .ERR_INVALIDPARAMS img1) ↔ (numFaces ≠ 1 ∧ numFaces ≠ 6)) ∧
      ((∃ img1, loadDynamicImage P img pData w h d fmt autoDelete numFaces numMips
          = .returned img1) ↔ (numFaces = 1 ∨ numFaces = 6)) ∧
      (∀ img1, loadDynamicImage P img pData w h d fmt autoDelete numFaces numMips
          = .returned img1 →
        img1.getNumFaces = numFaces ∧
        (img1.hasFlag IF_CUBEMAP = true ↔ numFaces = 6) ∧
        (img1.hasFlag IF_3D_TEXTURE = true ↔ d ≠ 1) ∧
        (img1.hasFlag IF_COMPRESSED = true ↔ P.isCompressed fmt = true) ∧
        img1.mNumMipmaps = numMips ∧
        img1.mPixelSize = P.getNumElemBytes fmt % UINT8_MOD ∧
        (P.getNumElemBytes fmt < UINT8_MOD → img1.mPixelSize = P.getNumElemBytes fmt) ∧
        img1.mBufSize = calculateSize P numMips numFaces w h d fmt ∧
        img1.mWidth = w ∧ img1.mHeight = h ∧ img1.mDepth = d ∧ img1.mFormat = fmt) := by
  refine ⟨?_, ?_, ?_⟩
  · unfold loadDynamicImage
    dsimp only
    by_cases hbad : numFaces ≠ 6 ∧ numFaces ≠ 1
    · rw [if_pos hbad]
      constructor
      · intro _; omega
      · intro _; exact ⟨_, rfl⟩
    · rw [if_neg hbad]
      constructor
      · rintro ⟨img1, h1⟩; cases h1
      · intro h2; omega
  · unfold loadDynamicImage
    dsimp only
    by_cases hbad : numFaces ≠ 6 ∧ numFaces ≠ 1
    · rw [if_pos hbad]
      constructor
      · rintro ⟨img1, h1⟩; cases h1
      · intro h2; omega
    · rw [if_neg hbad]
      constructor
      · intro _; omega
      · intro _; exact ⟨_, rfl⟩
  · intro img1 hret
    obtain ⟨e1, e2, e3, e4, e5, e6, e7⟩ :=
      loadDynamicImage_returned P img img1 pData w h d fmt autoDelete numFaces numMips hret
    obtain ⟨f1, f2, f3, f4, _, _⟩ :=
      loadDynamicImage_members P img img1 pData w h d fmt autoDelete numFaces numMips hret
    refine ⟨e6, f1, f2, f3, e5, f4, ?_, e7, e1, e2, e3, e4⟩
    intro hlt
    rw [f4, Nat.mod_eq_of_lt hlt]

/-- Witness of `loadDynamicImage_contract`: six 1×1 faces of one-byte elements are loaded
over the sample image; the result has six faces and 6 bytes. -/
theorem loadDynamicImage_contract_witness :
    ({ cubeImage with mAutoDelete := false } : Image).getNumFaces = 6 ∧
      ({ cubeImage with mAutoDelete := false } : Image).mBufSize
        = calculateSize sampleCatalogue 0 6 1 1 1 .PF_L8 :=
  ⟨((loadDynamicImage_contract sampleCatalogue sampleImage (some [1, 2, 3, 4, 5, 6]) 1 1 1
      .PF_L8 false 6 0).2.2 _ (by decide)).1,
   ((loadDynamicImage_contract sampleCatalogue sampleImage (some [1, 2, 3, 4, 5, 6]) 1 1 1
      .PF_L8 false 6 0).2.2 _ (by decide)).2.2.2.2.2.2.2.1⟩

/-! ### C14: the contract of the constructor -/

/-- C14: `Image(format, w, h, d, buffer, autoDelete)` returns an image; that image is
empty (no buffer, width = height = depth = 0, buffer size 0, mip count 0) exactly when
`format` is the unknown sentinel or `calculateSize(0, 1, w, h, d, format)` is 0; in every
other case it has a buffer, dimensions `w`, `h`, `d`, mip count 0, one face, buffer size
`calculateSize(0, 1, w, h, d, format)` and an ownership flag equal to `autoDelete`. -/
theorem construct_contract (P : PixelUtil) (fresh : Nat → List Nat) (uninit : Nat)
    (format : PixelFormat) (w h d : Nat) (buffer : Option (List Nat)) (autoDelete : Bool) :
    ∃ img1, Image.construct P fresh uninit format w h d buffer autoDelete = .returned img1 ∧
      ((format = .PF_UNKNOWN ∨ calculateSize P 0 1 w h d format = 0) ↔
        (img1.mBuffer = none ∧ img1.mWidth = 0 ∧ img1.mHeight = 0 ∧ img1.mDepth = 0 ∧
          img1.mBufSize = 0 ∧ img1.mNumMipmaps = 0)) ∧
      (¬ (format = .PF_UNKNOWN ∨ calculateSize P 0 1 w h d format = 0) →
        img1.mBuffer ≠ none ∧ img1.mWidth = w ∧ img1.mHeight = h ∧ img1.mDepth = d ∧
          img1.mFormat = format ∧ img1.mNumMipmaps = 0 ∧ img1.getNumFaces = 1 ∧
          img1.mBufSize = calculateSize P 0 1 w h d format ∧
          img1.mAutoDelete = autoDelete) := by
  unfold Image.construct
  dsimp only
  by_cases hu : format = .PF_UNKNOWN
  · rw [if_pos hu]
    refine ⟨_, rfl, ?_, ?_⟩
    · simp [hu]
    · intro hn; exact absurd (Or.inl hu) hn
  · rw [if_neg hu]
    by_cases hz : calculateSize P 0 1 w h d format = 0
    · rw [if_pos hz]
      refine ⟨_, rfl, ?_, ?_⟩
      · simp [hz]
      · intro hn; exact absurd (Or.inr hz) hn
    · rw [if_neg hz]
      have hex := loadDynamicImage_returns P
        { mWidth := 0, mHeight := 0, mDepth := 0, mBufSize := 0, mNumMipmaps := 0,
          mFlags := 0, mFormat := format, mPixelSize := uninit, mBuffer := none,
          mAutoDelete := true }
        (match buffer with
          | none => some (fresh (calculateSize P 0 1 w h d format))
          | some b => some b) w h d format autoDelete 1 0 (Or.inl rfl)
      obtain ⟨img1, hret⟩ := hex
      obtain ⟨e1, e2, e3, e4, e5, e6, e7⟩ := loadDynamicImage_returned P _ img1 _ w h d format
        autoDelete 1 0 hret
      obtain ⟨_, _, _, _, f5, f6⟩ := loadDynamicImage_members P _ img1 _ w h d format
        autoDelete 1 0 hret
      have hb : img1.mBuffer ≠ none := by
        rw [f5]; cases buffer <;> simp
      refine ⟨img1, hret, ?_, ?_⟩
      · constructor
        · intro hc; rcases hc with hc | hc
          · exact absurd hc hu
          · exact absurd hc hz
        · intro hc; exact absurd hc.1 hb
      · intro _
        exact ⟨hb, e1, e2, e3, e4, e5, e6, e7, f6⟩

/-- Witness of `construct_contract`: with the unknown format the constructor gives the
empty image whatever the other arguments; with a 2×2 extent of one-byte elements it gives
an image over a new block of 4 bytes that the image does not own. -/
theorem construct_contract_witness :
    Image.construct sampleCatalogue sampleFresh 0 .PF_UNKNOWN 2 2 1 (some [1, 2, 3, 4]) false
        = .returned emptyImage ∧
      Image.construct sampleCatalogue sampleFresh 0 .PF_L8 2 2 1 none false
        = .returned
          { mWidth := 2, mHeight := 2, mDepth := 1, mBufSize := 4, mNumMipmaps := 0,
            mFlags := 0, mFormat := .PF_L8, mPixelSize := 1, mBuffer := some [0, 0, 0, 0],
            mAutoDelete := false } ∧
      ∃ img1, Image.construct sampleCatalogue sampleFresh 0 .PF_L8 2 2 1 none false
          = .returned img1 ∧
        ((PixelFormat.PF_L8 = .PF_UNKNOWN ∨ calculateSize sampleCatalogue 0 1 2 2 1 .PF_L8 = 0) ↔
          (img1.mBuffer = none ∧ img1.mWidth = 0 ∧ img1.mHeight = 0 ∧ img1.mDepth = 0 ∧
            img1.mBufSize = 0 ∧ img1.mNumMipmaps = 0)) :=
  ⟨by decide, by decide,
    let ⟨img1, h1, h2, _⟩ := construct_contract sampleCatalogue sampleFresh 0 .PF_L8 2 2 1 none
      false
    ⟨img1, h1, h2⟩⟩

/-! ### C20: the error of a flip with an unsupported element size -/

/-- C20 (amended): for every image with a non-empty buffer whose element byte size is not
1, 2, 3 or 4, `flipAroundY` fails and the error raised is `ERR_INTERNAL_ERROR` (the
internal-error kind); the mip count is already 0 at the `throw`. -/
theorem flipAroundY_unsupported_size (fuel : Nat) (img : Image) (buf : List Nat)
    (hbuf : img.mBuffer = some buf)
    (hsz : img.mPixelSize ≠ 1 ∧ img.mPixelSize ≠ 2 ∧ img.mPixelSize ≠ 3 ∧ img.mPixelSize ≠ 4) :
    flipAroundY fuel img = some (.raised .ERR_INTERNAL_ERROR { img with mNumMipmaps := 0 }) := by
  unfold flipAroundY
  rw [hbuf]
  dsimp only
  split
  · exact absurd (by assumption) hsz.1
  · exact absurd (by assumption) hsz.2.1
  · exact absurd (by assumption) hsz.2.2.1
  · exact absurd (by assumption) hsz.2.2.2
  · rfl

/-- Witness of `flipAroundY_unsupported_size`: the 1×1 image of one 16-byte element. -/
theorem flipAroundY_unsupported_size_witness :
    flipAroundY 1 wideImage
      = some (.raised .ERR_INTERNAL_ERROR { wideImage with mNumMipmaps := 0 }) :=
  flipAroundY_unsupported_size 1 wideImage (List.range 16) rfl (by decide)

/-- C20 (counterexample): on the 1×1 image of one 16-byte element `flipAroundY` raises
`ERR_INTERNAL_ERROR`, which is not `ERR_INVALIDPARAMS`. -/
theorem flipAroundY_error_kind_counterexample :
    flipAroundY 1 wideImage
        = some (.raised .ERR_INTERNAL_ERROR { wideImage with mNumMipmaps := 0 }) ∧
      flipAroundY 1 wideImage
        ≠ some (.raised .ERR_INVALIDPARAMS { wideImage with mNumMipmaps := 0 }) := by
  constructor <;> decide

/-! ### C19: `load` without a codec -/

/-- When a codec is registered under a non-empty type, `load` enters its decode. -/
theorem load_with_named_codec (P : PixelUtil) (Reg : CodecRegistry) (magicInit : List Nat)
    (img : Image) (stream : DataStream) (type : String) (codec : Codec)
    (htype : type.isEmpty = false) (hreg : Reg.getCodecByName type = some codec) :
    load P Reg magicInit img stream type = loadDecode P codec (freeMemory img) stream ∧
      (load P Reg magicInit img stream type).decodeEntered = true := by
  have h : load P Reg magicInit img stream type = loadDecode P codec (freeMemory img) stream := by
    unfold load
    simp only [htype, Bool.not_false, if_true, CodecRegistry.getCodec, hreg]
  refine ⟨h, ?_⟩
  rw [h]
  unfold loadDecode
  split <;> rfl

/-- C19: `load(stream, type)` fails closed when the registry has no codec for the
request.  With an empty type and no codec matching the first `min(stream size, 32)`
bytes it raises `ERR_INVALIDPARAMS` ("Image format is unknown") after rewinding the
stream; with a non-empty type and no codec registered under that name the lookup raises
the error of the registry.  In both cases the image at the failure is the image after
`freeMemory`, and no decode is entered. -/
theorem load_fails_closed (P : PixelUtil) (Reg : CodecRegistry) (magicInit : List Nat)
    (img : Image) (stream : DataStream) (type : String) :
    (type.isEmpty = true →
      Reg.getCodecByMagic
          (((stream.read (min stream.size 32)).1
            ++ magicInit.drop (stream.read (min stream.size 32)).1.length).take 32)
          (min stream.size 32) = none →
      load P Reg magicInit img stream type
        = { outcome := .raised .ERR_INVALIDPARAMS (freeMemory img),
            stream := (stream.read (min stream.size 32)).2.seek 0,
            decodeEntered := false }) ∧
    (type.isEmpty = false → Reg.getCodecByName type = none →
      load P Reg magicInit img stream type
        = { outcome := .raised Reg.unrecognized (freeMemory img), stream := stream,
            decodeEntered := false }) := by
  constructor
  · intro h1 h2
    unfold load
    simp only [h1, Bool.not_true, Bool.false_eq_true, if_false, h2]
  · intro h1 h2
    unfold load
    simp only [h1, Bool.not_false, if_true, CodecRegistry.getCodec, h2]

theorem load_fails_closed_witness :
    load sampleCatalogue emptyRegistry [] sampleImage fiveByteStream ""
        = { outcome := .raised .ERR_INVALIDPARAMS (freeMemory sampleImage),
            stream := (fiveByteStream.read (min fiveByteStream.size 32)).2.seek 0,
            decodeEntered := false } ∧
      load sampleCatalogue emptyRegistry [] sampleImage fiveByteStream unknownType
        = { outcome := .raised emptyRegistry.unrecognized (freeMemory sampleImage),
            stream := fiveByteStream, decodeEntered := false } :=
  ⟨(load_fails_closed sampleCatalogue emptyRegistry [] sampleImage fiveByteStream "").1
      (by decide) rfl,
    (load_fails_closed sampleCatalogue emptyRegistry [] sampleImage fiveByteStream
      unknownType).2 (by decide) rfl⟩

/-! ### Scaling: shared lemmas -/

theorem construct_returns (P : PixelUtil) (fresh : Nat → List Nat) (uninit : Nat)
    (format : PixelFormat) (w h d : Nat) (buffer : Option (List Nat)) (autoDelete : Bool) :
    ∃ img1, Image.construct P fresh uninit format w h d buffer autoDelete = .returned img1 := by
  unfold Image.construct
  dsimp only
  split
  · exact ⟨_, rfl⟩
  · split
    · exact ⟨_, rfl⟩
    · exact loadDynamicImage_returns P _ _ w h d format autoDelete 1 0 (Or.inl rfl)

theorem getPixelBox_zero_ok (P : PixelUtil) (img : Image) :
    ∃ box, getPixelBox P img 0 0 = .ok box :=
  ⟨_, getPixelBox_eq P img 0 0 (Nat.zero_le _) (getNumFaces_pos img)⟩

theorem scaleLinearByte_release_completes (P : PixelUtil) (R : Resamplers) (B : Build)
    (fresh : Nat → List Nat) (src : PixelBox) (srcMem : List Nat) (scaled : PixelBox)
    (scaledMem : List Nat) (hrel : B.cAsserts = false) :
    ∃ run, scaleLinearByte P R B fresh src srcMem scaled scaledMem = .completed run := by
  unfold scaleLinearByte scaleBlit
  simp only [hrel, Bool.false_eq_true, if_false]
  split <;> exact ⟨_, rfl⟩

theorem scaleNearest_release_completes (P : PixelUtil) (R : Resamplers) (B : Build)
    (fresh : Nat → List Nat) (src : PixelBox) (srcMem : List Nat) (scaled : PixelBox)
    (scaledMem : List Nat) (hrel : B.cAsserts = false) :
    ∃ run, scaleNearest P R B fresh src srcMem scaled scaledMem = .completed run := by
  unfold scaleNearest scaleBlit
  simp only [hrel, Bool.false_eq_true, if_false]
  split <;> exact ⟨_, rfl⟩

/-- With C assertions compiled out every call of `scale` completes. -/
theorem scale_release_completes (P : PixelUtil) (R : Resamplers) (B : Build)
    (fresh : Nat → List Nat) (src : PixelBox) (srcMem : List Nat) (scaled : PixelBox)
    (scaledMem : List Nat) (filter : Filter) (hrel : B.cAsserts = false) :
    ∃ run, scale P R B fresh src srcMem scaled scaledMem filter = .completed run := by
  unfold scale
  simp only [hrel, Bool.false_and, Bool.false_eq_true, if_false]
  split <;> first
    | exact scaleNearest_release_completes P R B fresh src srcMem scaled scaledMem hrel
    | (split <;> first
        | exact scaleLinearByte_release_completes P R B fresh src srcMem scaled scaledMem hrel
        | exact ⟨_, rfl⟩
        | (split <;> exact ⟨_, rfl⟩))

/-- With C assertions active a call of `scale` with an inaccessible source or destination
format is stopped at the entry. -/
theorem scale_debug_aborts (P : PixelUtil) (R : Resamplers) (B : Build)
    (fresh : Nat → List Nat) (src : PixelBox) (srcMem : List Nat) (scaled : PixelBox)
    (scaledMem : List Nat) (filter : Filter) (hdbg : B.cAsserts = true)
    (hacc : P.isAccessible src.format = false ∨ P.isAccessible scaled.format = false) :
    scale P R B fresh src srcMem scaled scaledMem filter = .aborted := by
  unfold scale
  rcases hacc with h | h
  · simp [hdbg, h]
  · by_cases h2 : P.isAccessible src.format = true
    · simp [hdbg, h, h2]
    · simp [hdbg, h2]

/-! ### C16: compressed formats and linear scaling -/

/-- C16 (amended): with C assertions active (no `NDEBUG`) every call
`scale(src, dst, filter)`, whatever the filter, in which the source format or the
destination format is block-compressed, hence not accessible, is stopped at the entry by
a failed `assert`, before any resampler or bulk conversion is invoked and before any
destination byte is written; with C assertions compiled out the formats are not checked:
a call with a linear or bilinear filter and a source format outside the named byte and
float formats runs the generic linear resampler on it. -/
theorem scale_compressed_formats (P : PixelUtil) (R : Resamplers) (B : Build)
    (fresh : Nat → List Nat) (src : PixelBox) (srcMem : List Nat) (scaled : PixelBox)
    (scaledMem : List Nat) (filter : Filter) :
    (B.cAsserts = true →
      (∀ f, P.isCompressed f = true → P.isAccessible f = false) →
      (P.isCompressed src.format = true ∨ P.isCompressed scaled.format = true) →
      scale P R B fresh src srcMem scaled scaledMem filter = .aborted) ∧
    (B.cAsserts = false →
      (∃ id, src.format = .PF_OTHER id) →
      (filter = .FILTER_LINEAR ∨ filter = .FILTER_BILINEAR) →
      scale P R B fresh src srcMem scaled scaledMem filter
        = .completed { resampler := some .linear, viaTemp := false,
                       scaledMem := R.linear src srcMem scaled scaledMem }) := by
  constructor
  · intro hdbg hcat hc
    apply scale_debug_aborts P R B fresh src srcMem scaled scaledMem filter hdbg
    rcases hc with h | h
    · exact Or.inl (hcat _ h)
    · exact Or.inr (hcat _ h)
  · rintro hrel ⟨id, hid⟩ hfilter
    unfold scale
    rcases hfilter with rfl | rfl <;> simp [hrel, hid]

/-- Witness of `scale_compressed_formats`: a block-compressed source with the bilinear
filter, in a debug build (stopped) and in a release build (the generic linear resampler
runs). -/
theorem scale_compressed_formats_witness :
    scale sampleCatalogue sampleResamplers debugBuild sampleFresh blockBox
        [1, 2, 3, 4, 5, 6, 7, 8] blockBox [0, 0, 0, 0, 0, 0, 0, 0] .FILTER_BILINEAR
      = .aborted ∧
    scale sampleCatalogue sampleResamplers sampleBuild sampleFresh blockBox
        [1, 2, 3, 4, 5, 6, 7, 8] blockBox [0, 0, 0, 0, 0, 0, 0, 0] .FILTER_BILINEAR
      = .completed { resampler := some .linear, viaTemp := false,
                     scaledMem := sampleResamplers.linear blockBox [1, 2, 3, 4, 5, 6, 7, 8]
                       blockBox [0, 0, 0, 0, 0, 0, 0, 0] } :=
  ⟨(scale_compressed_formats sampleCatalogue sampleResamplers debugBuild sampleFresh blockBox
      [1, 2, 3, 4, 5, 6, 7, 8] blockBox [0, 0, 0, 0, 0, 0, 0, 0] .FILTER_BILINEAR).1 rfl
      (by intro f; cases f <;> simp [sampleCatalogue]) (Or.inl rfl),
   (scale_compressed_formats sampleCatalogue sampleResamplers sampleBuild sampleFresh blockBox
      [1, 2, 3, 4, 5, 6, 7, 8] blockBox [0, 0, 0, 0, 0, 0, 0, 0] .FILTER_BILINEAR).2 rfl
      ⟨0, rfl⟩ (Or.inr rfl)⟩

/-- C16 (counterexample): in a build with C assertions compiled out, `scale` with the
linear filter on a block-compressed source and destination is not rejected: it completes,
the generic linear resampler was invoked, and the destination bytes have changed. -/
theorem scale_compressed_not_rejected_counterexample :
    sampleCatalogue.isCompressed blockBox.format = true ∧
      scale sampleCatalogue sampleResamplers sampleBuild sampleFresh blockBox
          [1, 2, 3, 4, 5, 6, 7, 8] blockBox [0, 0, 0, 0, 0, 0, 0, 0] .FILTER_LINEAR
        = .completed { resampler := some .linear, viaTemp := false,
                       scaledMem := [1, 2, 3, 4, 5, 6, 7, 8] } ∧
      ([1, 2, 3, 4, 5, 6, 7, 8] : List Nat) ≠ [0, 0, 0, 0, 0, 0, 0, 0] := by
  refine ⟨rfl, ?_, ?_⟩ <;> decide

/-! ### C17: the contract of `resize` -/

theorem construct_format (P : PixelUtil) (fresh : Nat → List Nat) (uninit : Nat)
    (format : PixelFormat) (w h d : Nat) (buffer : Option (List Nat)) (autoDelete : Bool)
    (img1 : Image)
    (hret : Image.construct P fresh uninit format w h d buffer autoDelete = .returned img1) :
    img1.mFormat = format := by
  unfold Image.construct at hret
  dsimp only at hret
  split at hret
  · injection hret with hret; subst hret; rfl
  · split at hret
    · injection hret with hret; subst hret; rfl
    · exact (loadDynamicImage_returned P _ img1 _ w h d format autoDelete 1 0 hret).2.2.2.1

/-- On a buffer-owning image of depth 1 `resize` ends as its call of `scale` ends; the two
boxes of that call have the format of the image. -/
theorem resize_owned (P : PixelUtil) (R : Resamplers) (B : Build) (fresh : Nat → List Nat)
    (uninit : Nat) (img : Image) (width height : Nat) (filter : Filter)
    (hown : img.mAutoDelete = true) (hdepth : img.mDepth = 1) :
    ∃ (srcBox dstBox : PixelBox) (srcMem dstMem : List Nat),
      srcBox.format = img.mFormat ∧ dstBox.format = img.mFormat ∧
      resize P R B fresh uninit img width height filter
        = match scale P R B fresh srcBox srcMem dstBox dstMem filter with
          | .completed run =>
            .returned
              { img with mWidth := width, mHeight := height,
                         mBufSize := P.getMemorySize width height 1 img.mFormat % SIZE_MOD,
                         mBuffer := some run.scaledMem, mNumMipmaps := 0 }
          | .aborted => .aborted := by
  obtain ⟨temp, htemp⟩ := construct_returns P fresh uninit img.mFormat img.mWidth img.mHeight 1
    img.mBuffer true
  have hfmt := construct_format P fresh uninit img.mFormat img.mWidth img.mHeight 1
    img.mBuffer true temp htemp
  obtain ⟨srcBox, hsrc, hsf⟩ : ∃ box, getPixelBox P temp 0 0 = .ok box ∧
      box.format = temp.mFormat :=
    ⟨_, getPixelBox_eq P temp 0 0 (Nat.zero_le _) (getNumFaces_pos temp), rfl⟩
  obtain ⟨dstBox, hdst, hdf⟩ : ∃ box, getPixelBox P
      { img with mWidth := width, mHeight := height,
                 mBufSize := P.getMemorySize width height 1 img.mFormat % SIZE_MOD,
                 mBuffer := some (fresh (P.getMemorySize width height 1 img.mFormat % SIZE_MOD)),
                 mNumMipmaps := 0 } 0 0 = .ok box ∧ box.format = img.mFormat :=
    ⟨_, getPixelBox_eq P _ 0 0 (Nat.zero_le _) (getNumFaces_pos _), rfl⟩
  refine ⟨srcBox, dstBox, temp.mBuffer.getD [],
    fresh (P.getMemorySize width height 1 img.mFormat % SIZE_MOD), ?_, hdf, ?_⟩
  · rw [hsf, hfmt]
  · unfold resize
    simp only [hown, hdepth] at hdst
    simp only [hown, hdepth, Bool.not_true, Bool.false_eq_true, if_false, ne_eq,
      not_true_eq_false, htemp, hsrc, hdst]

/-- C17 (amended): `resize(newWidth, newHeight, filter)` is rejected with the exception of
a failed `OgreAssert`, every field of the image unchanged, whenever the image does not own
its buffer or its depth is not 1.  On a buffer-owning image of depth 1 it either is
stopped by a failed C assertion inside `scale` or returns; it always returns when C
assertions are compiled out, and it is stopped when they are active and the format of the
image is not accessible.  When it returns, width = newWidth, height = newHeight, depth and
format are unchanged, the mip count is 0 and the buffer size is
`memorySize(newWidth, newHeight, 1, format)` (a `size_t`). -/
theorem resize_contract (P : PixelUtil) (R : Resamplers) (B : Build) (fresh : Nat → List Nat)
    (uninit : Nat) (img : Image) (width height : Nat) (filter : Filter) :
    ((img.mAutoDelete = false ∨ img.mDepth ≠ 1) →
      resize P R B fresh uninit img width height filter = .raised B.ogreAssertCode img) ∧
    (img.mAutoDelete = true → img.mDepth = 1 →
      (resize P R B fresh uninit img width height filter = .aborted ∨
        ∃ img1, resize P R B fresh uninit img width height filter = .returned img1 ∧
          img1.mWidth = width ∧ img1.mHeight = height ∧ img1.mDepth = img.mDepth ∧
          img1.mFormat = img.mFormat ∧ img1.mNumMipmaps = 0 ∧
          img1.mBufSize = P.getMemorySize width height 1 img.mFormat % SIZE_MOD ∧
          (P.getMemorySize width height 1 img.mFormat < SIZE_MOD →
            img1.mBufSize = P.getMemorySize width height 1 img.mFormat))) ∧
    (img.mAutoDelete = true → img.mDepth = 1 → B.cAsserts = false →
      ∃ img1, resize P R B fresh uninit img width height filter = .returned img1) ∧
    (img.mAutoDelete = true → img.mDepth = 1 → B.cAsserts = true →
      P.isAccessible img.mFormat = false →
      resize P R B fresh uninit img width height filter = .aborted) := by
  refine ⟨?_, ?_, ?_, ?_⟩
  · intro h
    unfold resize
    rcases h with h | h
    · simp [h]
    · by_cases h2 : img.mAutoDelete = true
      · simp [h2, h]
      · simp [h2]
  · intro hown hdepth
    obtain ⟨srcBox, dstBox, srcMem, dstMem, _, _, hres⟩ :=
      resize_owned P R B fresh uninit img width height filter hown hdepth
    rw [hres]
    cases scale P R B fresh srcBox srcMem dstBox dstMem filter with
    | completed run =>
      right
      refine ⟨_, rfl, rfl, rfl, rfl, rfl, rfl, rfl, ?_⟩
      intro hlt
      exact Nat.mod_eq_of_lt hlt
    | aborted => left; rfl
  · intro hown hdepth hrel
    obtain ⟨srcBox, dstBox, srcMem, dstMem, _, _, hres⟩ :=
      resize_owned P R B fresh uninit img width height filter hown hdepth
    obtain ⟨run, hrun⟩ :=
      scale_release_completes P R B fresh srcBox srcMem dstBox dstMem filter hrel
    rw [hres, hrun]
    exact ⟨_, rfl⟩
  · intro hown hdepth hdbg hacc
    obtain ⟨srcBox, dstBox, srcMem, dstMem, hf1, _, hres⟩ :=
      resize_owned P R B fresh uninit img width height filter hown hdepth
    rw [hres, scale_debug_aborts P R B fresh srcBox srcMem dstBox dstMem filter hdbg
      (Or.inl (by rw [hf1]; exact hacc))]

/-- Witness of `resize_contract`: the 2×2 sample image without ownership is rejected
unchanged; with ownership it is resized to 1×1 in a release build; the block-compressed
image is stopped in a debug build. -/
theorem resize_contract_witness :
    resize sampleCatalogue sampleResamplers sampleBuild sampleFresh 0
        { flatImage with mAutoDelete := false } 1 1 .FILTER_NEAREST
      = .raised sampleBuild.ogreAssertCode { flatImage with mAutoDelete := false } ∧
    (∃ img1, resize sampleCatalogue sampleResamplers sampleBuild sampleFresh 0 flatImage 1 1
        .FILTER_NEAREST = .returned img1) ∧
    resize sampleCatalogue sampleResamplers debugBuild sampleFresh 0 blockImage 2 2
        .FILTER_NEAREST = .aborted :=
  ⟨(resize_contract sampleCatalogue sampleResamplers sampleBuild sampleFresh 0
      { flatImage with mAutoDelete := false } 1 1 .FILTER_NEAREST).1 (Or.inl rfl),
   (resize_contract sampleCatalogue sampleResamplers sampleBuild sampleFresh 0 flatImage 1 1
      .FILTER_NEAREST).2.2.1 rfl rfl rfl,
   (resize_contract sampleCatalogue sampleResamplers debugBuild sampleFresh 0 blockImage 2 2
      .FILTER_NEAREST).2.2.2 rfl rfl rfl rfl⟩

/-- C17 (counterexample): the block-compressed image owns its buffer and has depth 1, yet
in a build with C assertions active `resize(2, 2, FILTER_NEAREST)` does not succeed: the
`assert` at the entry of `scale` stops it. -/
theorem resize_stopped_counterexample :
    blockImage.mAutoDelete = true ∧ blockImage.mDepth = 1 ∧
      resize sampleCatalogue sampleResamplers debugBuild sampleFresh 0 blockImage 2 2
        .FILTER_NEAREST = .aborted := by
  refine ⟨rfl, rfl, ?_⟩
  decide

/-! ### C15: nearest resampling to the same extent -/

theorem nearestResample_length (e : Nat) (src : PixelBox) (srcMem : List Nat) (dst : PixelBox)
    (dstMem : List Nat) : (nearestResample e src srcMem dst dstMem).length = dstMem.length := by
  simp [nearestResample]

theorem nearestResample_getD (e : Nat) (src : PixelBox) (srcMem : List Nat) (dst : PixelBox)
    (dstMem : List Nat) (i : Nat) (hi : i < dstMem.length) :
    (nearestResample e src srcMem dst dstMem).getD i 0
      = if dst.data ≤ i ∧ i < dst.data + dst.width * dst.height * dst.depth * e then
          srcMem.getD (src.data
            + (((((i - dst.data) / e) / (dst.width * dst.height)) * src.depth / dst.depth
                  * src.height
                + ((((i - dst.data) / e) / dst.width) % dst.height) * src.height / dst.height)
                  * src.width
              + (((i - dst.data) / e) % dst.width) * src.width / dst.width) * e
            + (i - dst.data) % e) 0
        else dstMem.getD i 0 := by
  simp [nearestResample, List.getD_eq_getElem?_getD, List.getElem?_map, List.getElem?_range hi]

/-- With equal extents the source pixel of a destination pixel is the pixel itself. -/
theorem nearest_index_same_extent (w h d e j : Nat) (hj : j < w * h * d * e) :
    ((((j / e) / (w * h)) * d / d * h + (((j / e) / w) % h) * h / h) * w
        + ((j / e) % w) * w / w) * e + j % e = j := by
  have hw : 0 < w := by
    rcases Nat.eq_zero_or_pos w with h0 | h0
    · subst h0; simp at hj
    · exact h0
  have hh : 0 < h := by
    rcases Nat.eq_zero_or_pos h with h0 | h0
    · subst h0; simp at hj
    · exact h0
  have hd : 0 < d := by
    rcases Nat.eq_zero_or_pos d with h0 | h0
    · subst h0; simp at hj
    · exact h0
  rw [Nat.mul_div_cancel _ hd, Nat.mul_div_cancel _ hh, Nat.mul_div_cancel _ hw]
  have h1 : (j / e) / (w * h) = (j / e) / w / h := (Nat.div_div_eq_div_mul _ _ _).symm
  rw [h1]
  have h2 := Nat.div_add_mod ((j / e) / w) h
  have h3 := Nat.div_add_mod (j / e) w
  have h4 := Nat.div_add_mod j e
  have h5 : (j / e / w / h * h + j / e / w % h) = j / e / w := by
    rw [Nat.mul_comm]; exact h2
  rw [h5]
  have h6 : j / e / w * w + j / e % w = j / e := by
    rw [Nat.mul_comm]; exact h3
  rw [h6, Nat.mul_comm]
  exact h4

/-- The nearest branch of `scale` with equal formats and an element size the resampler is
instantiated for: the resampler writes straight into the destination. -/
theorem scale_nearest_direct (P : PixelUtil) (R : Resamplers) (B : Build)
    (fresh : Nat → List Nat) (src : PixelBox) (srcMem : List Nat) (scaled : PixelBox)
    (scaledMem : List Nat)
    (hacc : P.isAccessible src.format = true) (hfmt : scaled.format = src.format)
    (hsize : P.getNumElemBytes src.format = 1 ∨ P.getNumElemBytes src.format = 2 ∨
      P.getNumElemBytes src.format = 3 ∨ P.getNumElemBytes src.format = 4 ∨
      P.getNumElemBytes src.format = 6 ∨ P.getNumElemBytes src.format = 8 ∨
      P.getNumElemBytes src.format = 12 ∨ P.getNumElemBytes src.format = 16) :
    scale P R B fresh src srcMem scaled scaledMem .FILTER_NEAREST
      = .completed
          { resampler := some (.nearest (P.getNumElemBytes src.format)), viaTemp := false,
            scaledMem := R.nearest (P.getNumElemBytes src.format) src srcMem scaled
              scaledMem } := by
  have hacc2 : P.isAccessible scaled.format = true := by rw [hfmt]; exact hacc
  unfold scale
  simp only [hacc, hacc2, Bool.not_true, Bool.and_false, Bool.false_eq_true, if_false]
  unfold scaleNearest scaleTemp scaleBlit
  simp only [hfmt, if_true]
  rcases hsize with h | h | h | h | h | h | h | h <;> simp [h]

/-- C15: for every source region in an accessible format, of an element size the nearest
resampler is instantiated for, and every destination region of the same width, height,
depth and format, both inside their memory, `scale(src, dst, FILTER_NEAREST)` with the
nearest resampler of the spec (`srcIndex = floor(dstIndex * srcSize / dstSize)` per axis)
completes, invokes that resampler on the destination itself, without a temporary and
without a conversion, and leaves the bytes of the destination region equal to the bytes of
the source region, byte for byte; the bytes outside the destination region keep their
values. -/
theorem scale_nearest_identity (P : PixelUtil) (R : Resamplers) (B : Build)
    (fresh : Nat → List Nat) (src : PixelBox) (srcMem : List Nat) (scaled : PixelBox)
    (scaledMem : List Nat)
    (hR : R.nearest = nearestResample)
    (hacc : P.isAccessible src.format = true)
    (hsize : P.getNumElemBytes src.format = 1 ∨ P.getNumElemBytes src.format = 2 ∨
      P.getNumElemBytes src.format = 3 ∨ P.getNumElemBytes src.format = 4 ∨
      P.getNumElemBytes src.format = 6 ∨ P.getNumElemBytes src.format = 8 ∨
      P.getNumElemBytes src.format = 12 ∨ P.getNumElemBytes src.format = 16)
    (hfmt : scaled.format = src.format) (hw : scaled.width = src.width)
    (hh : scaled.height = src.height) (hd : scaled.depth = src.depth)
    (_hsrc : src.data + src.width * src.height * src.depth * P.getNumElemBytes src.format
      ≤ srcMem.length)
    (hdst : scaled.data + src.width * src.height * src.depth * P.getNumElemBytes src.format
      ≤ scaledMem.length) :
    ∃ run, scale P R B fresh src srcMem scaled scaledMem .FILTER_NEAREST = .completed run ∧
      run.viaTemp = false ∧
      run.resampler = some (.nearest (P.getNumElemBytes src.format)) ∧
      run.scaledMem.length = scaledMem.length ∧
      (∀ j, j < src.width * src.height * src.depth * P.getNumElemBytes src.format →
        run.scaledMem.getD (scaled.data + j) 0 = srcMem.getD (src.data + j) 0) ∧
      (∀ i, i < scaled.data ∨
          scaled.data + src.width * src.height * src.depth * P.getNumElemBytes src.format ≤ i →
        run.scaledMem.getD i 0 = scaledMem.getD i 0) := by
  refine ⟨_, scale_nearest_direct P R B fresh src srcMem scaled scaledMem hacc hfmt hsize,
    rfl, rfl, ?_, ?_, ?_⟩
  · simp only [hR, nearestResample_length]
  · intro j hj
    simp only [hR]
    rw [nearestResample_getD _ _ _ _ _ _ (by omega), hw, hh, hd, if_pos ⟨by omega, by omega⟩]
    have hsub : scaled.data + j - scaled.data = j := by omega
    rw [hsub, Nat.add_assoc,
      nearest_index_same_extent src.width src.height src.depth _ j hj]
  · intro i hi
    simp only [hR]
    by_cases hlen : i < scaledMem.length
    · rw [nearestResample_getD _ _ _ _ _ _ hlen, hw, hh, hd, if_neg (by omega)]
    · rw [List.getD_eq_default _ _ (by rw [nearestResample_length]; omega),
        List.getD_eq_default _ _ (by omega)]

/-- Witness of `scale_nearest_identity`: a 2×2 region of two-byte elements scaled to a
2×2 region of the same format. -/
theorem scale_nearest_identity_witness :
    ∃ run, scale sampleCatalogue specResamplers debugBuild sampleFresh flatBox
        [10, 11, 12, 13, 14, 15, 16, 17] flatBox [0, 0, 0, 0, 0, 0, 0, 0] .FILTER_NEAREST
        = .completed run ∧
      run.viaTemp = false ∧
      run.resampler = some (.nearest (sampleCatalogue.getNumElemBytes flatBox.format)) ∧
      run.scaledMem.length = ([0, 0, 0, 0, 0, 0, 0, 0] : List Nat).length ∧
      (∀ j, j < flatBox.width * flatBox.height * flatBox.depth
            * sampleCatalogue.getNumElemBytes flatBox.format →
        run.scaledMem.getD (flatBox.data + j) 0
          = ([10, 11, 12, 13, 14, 15, 16, 17] : List Nat).getD (flatBox.data + j) 0) ∧
      (∀ i, i < flatBox.data ∨
          flatBox.data + flatBox.width * flatBox.height * flatBox.depth
            * sampleCatalogue.getNumElemBytes flatBox.format ≤ i →
        run.scaledMem.getD i 0 = ([0, 0, 0, 0, 0, 0, 0, 0] : List Nat).getD i 0) :=
  scale_nearest_identity sampleCatalogue specResamplers debugBuild sampleFresh flatBox
    [10, 11, 12, 13, 14, 15, 16, 17] flatBox [0, 0, 0, 0, 0, 0, 0, 0] rfl rfl
    (Or.inr (Or.inl rfl)) rfl rfl rfl rfl (by decide) (by decide)

/-! ### C11: combine semantics -/

theorem elemAt_length (mem : List Nat) (off n : Nat) (h : off + n ≤ mem.length) :
    (elemAt mem off n).length = n := by
  simp [elemAt]; omega

theorem elemAt_getD (mem : List Nat) (off n j : Nat) (hj : j < n) :
    (elemAt mem off n).getD j 0 = mem.getD (off + j) 0 := by
  simp [elemAt, List.getD_eq_getElem?_getD, List.getElem?_take, hj]

theorem elemAt_congr (a b : List Nat) (off n : Nat) (ha : off + n ≤ a.length)
    (hb : off + n ≤ b.length) (h : ∀ j, j < n → a.getD (off + j) 0 = b.getD (off + j) 0) :
    elemAt a off n = elemAt b off n := by
  apply list_eq_of_getD _ _ (by rw [elemAt_length a off n ha, elemAt_length b off n hb])
  intro i hi
  rw [elemAt_length b off n hb] at hi
  rw [elemAt_getD a off n i hi, elemAt_getD b off n i hi]
  exact h i hi

theorem elemAt_eq_of_getD (a : List Nat) (off : Nat) (l : List Nat)
    (ha : off + l.length ≤ a.length)
    (h : ∀ j, j < l.length → a.getD (off + j) 0 = l.getD j 0) :
    elemAt a off l.length = l := by
  apply list_eq_of_getD _ _ (elemAt_length a off _ ha)
  intro i hi
  rw [elemAt_getD a off _ i hi]
  exact h i hi

theorem readBytes_eq (mem : List Nat) (off n : Nat) (h : off + n ≤ mem.length) :
    readBytes mem off n = some (elemAt mem off n) := by
  simp [readBytes, elemAt, h]

theorem writeBytes_spec (mem : List Nat) (off : Nat) (bytes : List Nat)
    (h : off + bytes.length ≤ mem.length) :
    ∃ mem1, writeBytes mem off bytes = some mem1 ∧ mem1.length = mem.length ∧
      ∀ i, mem1.getD i 0
        = if off ≤ i ∧ i < off + bytes.length then bytes.getD (i - off) 0 else mem.getD i 0 := by
  refine ⟨mem.take off ++ bytes ++ mem.drop (off + bytes.length), ?_, ?_, ?_⟩
  · simp [writeBytes, h]
  · simp; omega
  · intro i
    have hto : (mem.take off).length = off := by simp; omega
    by_cases h1 : i < off
    · rw [if_neg (by omega)]
      simp only [List.getD_eq_getElem?_getD, List.append_assoc]
      rw [List.getElem?_append_left (by omega), List.getElem?_take_of_lt h1]
    · by_cases h2 : i < off + bytes.length
      · rw [if_pos ⟨by omega, h2⟩]
        simp only [List.getD_eq_getElem?_getD, List.append_assoc]
        rw [List.getElem?_append_right (by omega), hto,
          List.getElem?_append_left (by omega)]
      · rw [if_neg (by omega)]
        simp only [List.getD_eq_getElem?_getD, List.append_assoc]
        rw [List.getElem?_append_right (by omega), hto,
          List.getElem?_append_right (by omega), List.getElem?_drop]
        congr 2
        omega

theorem combinePixel_spec {F : Type} (P : PixelUtil) (C : ColourOps F)
    (mFormat alphaFormat : PixelFormat) (alphaMem : List Nat) (c : AlphaCursor)
    (hpack : ∀ col, (C.packColour col mFormat).length = P.getNumElemBytes mFormat)
    (hd : c.pdst + P.getNumElemBytes mFormat ≤ c.mem.length)
    (ha : c.psrcAlpha + P.getNumElemBytes alphaFormat ≤ alphaMem.length) :
    ∃ c1, combinePixel P C mFormat alphaFormat alphaMem c = some c1 ∧
      c1.psrcAlpha = c.psrcAlpha + P.getNumElemBytes alphaFormat ∧
      c1.pdst = c.pdst + P.getNumElemBytes mFormat ∧
      c1.mem.length = c.mem.length ∧
      ∀ i, c1.mem.getD i 0
        = if c.pdst ≤ i ∧ i < c.pdst + P.getNumElemBytes mFormat then
            (alphaMerged C mFormat alphaFormat
              (elemAt c.mem c.pdst (P.getNumElemBytes mFormat))
              (elemAt alphaMem c.psrcAlpha (P.getNumElemBytes alphaFormat))).getD
              (i - c.pdst) 0
          else c.mem.getD i 0 := by
  have hlen : (alphaMerged C mFormat alphaFormat
      (elemAt c.mem c.pdst (P.getNumElemBytes mFormat))
      (elemAt alphaMem c.psrcAlpha (P.getNumElemBytes alphaFormat))).length
      = P.getNumElemBytes mFormat := hpack _
  obtain ⟨mem1, hw, hl, hg⟩ := writeBytes_spec c.mem c.pdst
    (alphaMerged C mFormat alphaFormat
      (elemAt c.mem c.pdst (P.getNumElemBytes mFormat))
      (elemAt alphaMem c.psrcAlpha (P.getNumElemBytes alphaFormat))) (by rw [hlen]; exact hd)
  refine ⟨{ psrcAlpha := c.psrcAlpha + P.getNumElemBytes alphaFormat,
            pdst := c.pdst + P.getNumElemBytes mFormat, mem := mem1 }, ?_, rfl, rfl, hl, ?_⟩
  · unfold combinePixel
    rw [readBytes_eq _ _ _ hd, readBytes_eq _ _ _ ha]
    simp only [Option.some_bind]
    unfold alphaMerged at hw
    rw [hw]
    rfl
  · intro i
    rw [hg i, hlen]

theorem repeatOpt_add {α : Type} (body : α → Option α) (m n : Nat) (a : α) :
    repeatOpt body (m + n) a = (repeatOpt body m a).bind (repeatOpt body n) := by
  induction m generalizing a with
  | zero => simp [repeatOpt]
  | succ k ih =>
    rw [Nat.add_right_comm, repeatOpt, repeatOpt]
    cases body a with
    | none => rfl
    | some b => simp only [Option.some_bind]; exact ih b

theorem repeatOpt_nested {α : Type} (body : α → Option α) (m n : Nat) (a : α) :
    repeatOpt (repeatOpt body n) m a = repeatOpt body (m * n) a := by
  induction m generalizing a with
  | zero => simp [repeatOpt]
  | succ k ih =>
    rw [repeatOpt, Nat.succ_mul, Nat.add_comm, repeatOpt_add]
    cases repeatOpt body n a with
    | none => rfl
    | some b => simp only [Option.some_bind]; exact ih b

/-- The innermost loop of the alpha pass run `n` times from the cursor `c`: it ends, the
pointers have moved by `n` elements, bytes outside the `n` destination elements keep
their values, and destination element `k` holds the merge of its old value with
alpha-source element `k`. -/
theorem combinePixel_loop {F : Type} (P : PixelUtil) (C : ColourOps F)
    (mFormat alphaFormat : PixelFormat) (alphaMem : List Nat)
    (hpack : ∀ col, (C.packColour col mFormat).length = P.getNumElemBytes mFormat) :
    ∀ (n : Nat) (c : AlphaCursor),
      c.pdst + n * P.getNumElemBytes mFormat ≤ c.mem.length →
      c.psrcAlpha + n * P.getNumElemBytes alphaFormat ≤ alphaMem.length →
      ∃ c1, repeatOpt (combinePixel P C mFormat alphaFormat alphaMem) n c = some c1 ∧
        c1.psrcAlpha = c.psrcAlpha + n * P.getNumElemBytes alphaFormat ∧
        c1.pdst = c.pdst + n * P.getNumElemBytes mFormat ∧
        c1.mem.length = c.mem.length ∧
        (∀ i, ¬ (c.pdst ≤ i ∧ i < c.pdst + n * P.getNumElemBytes mFormat) →
          c1.mem.getD i 0 = c.mem.getD i 0) ∧
        ∀ k, k < n →
          elemAt c1.mem (c.pdst + k * P.getNumElemBytes mFormat) (P.getNumElemBytes mFormat)
            = alphaMerged C mFormat alphaFormat
                (elemAt c.mem (c.pdst + k * P.getNumElemBytes mFormat)
                  (P.getNumElemBytes mFormat))
                (elemAt alphaMem (c.psrcAlpha + k * P.getNumElemBytes alphaFormat)
                  (P.getNumElemBytes alphaFormat)) := by
  intro n
  induction n with
  | zero =>
    intro c _ _
    refine ⟨c, rfl, by simp, by simp, rfl, fun _ _ => rfl, ?_⟩
    intro k hk
    omega
  | succ n ih =>
    intro c hd ha
    generalize hs : P.getNumElemBytes mFormat = s at *
    generalize hsa : P.getNumElemBytes alphaFormat = sa at *
    rw [Nat.succ_mul] at hd ha
    obtain ⟨c1, h1, hA1, hD1, hL1, hG1⟩ := combinePixel_spec P C mFormat alphaFormat alphaMem c
      (by rw [hs]; exact hpack) (by rw [hs]; omega) (by rw [hsa]; omega)
    rw [hs] at hD1 hG1
    rw [hsa] at hA1 hG1
    obtain ⟨c2, h2, hA2, hD2, hL2, hF2, hE2⟩ := ih c1 (by rw [hD1, hL1]; omega)
      (by rw [hA1]; omega)
    have hmlen : (alphaMerged C mFormat alphaFormat (elemAt c.mem c.pdst s)
        (elemAt alphaMem c.psrcAlpha sa)).length = s := hpack _
    refine ⟨c2, ?_, ?_, ?_, ?_, ?_, ?_⟩
    · rw [repeatOpt, h1]; exact h2
    · rw [hA2, hA1, Nat.succ_mul]; omega
    · rw [hD2, hD1, Nat.succ_mul]; omega
    · rw [hL2, hL1]
    · intro i hi
      rw [Nat.succ_mul] at hi
      rw [hF2 i (by rw [hD1]; omega), hG1 i, if_neg (by omega)]
    · intro k hk
      cases k with
      | zero =>
        simp only [Nat.zero_mul, Nat.add_zero]
        have key : elemAt c2.mem c.pdst
            (alphaMerged C mFormat alphaFormat (elemAt c.mem c.pdst s)
              (elemAt alphaMem c.psrcAlpha sa)).length
            = alphaMerged C mFormat alphaFormat (elemAt c.mem c.pdst s)
              (elemAt alphaMem c.psrcAlpha sa) := by
          apply elemAt_eq_of_getD
          · rw [hmlen, hL2, hL1]; omega
          · intro j hj
            rw [hmlen] at hj
            rw [hF2 _ (by rw [hD1]; omega), hG1, if_pos (by omega)]
            congr 1
            omega
        rw [hmlen] at key
        exact key
      | succ k =>
        have hk1 : k < n := by omega
        have hks : k * s + s ≤ n * s := by
          have := Nat.mul_le_mul_right s (show k + 1 ≤ n by omega)
          rw [Nat.succ_mul] at this
          exact this
        have hksa : k * sa + sa ≤ n * sa := by
          have := Nat.mul_le_mul_right sa (show k + 1 ≤ n by omega)
          rw [Nat.succ_mul] at this
          exact this
        have e := hE2 k hk1
        rw [hD1, hA1] at e
        have o1 : c.pdst + (k + 1) * s = c.pdst + s + k * s := by rw [Nat.succ_mul]; omega
        have o2 : c.psrcAlpha + (k + 1) * sa = c.psrcAlpha + sa + k * sa := by
          rw [Nat.succ_mul]; omega
        rw [o1, o2, e]
        congr 1
        apply elemAt_congr
        · rw [hL1]; omega
        · omega
        · intro j hj
          rw [hG1, if_neg (by omega)]

theorem convertRegion_length (P : PixelUtil)
    (conv : PixelFormat → PixelFormat → List Nat → List Nat) (src : PixelBox)
    (srcMem : List Nat) (dst : PixelBox) (dstMem : List Nat) :
    (convertRegion P conv src srcMem dst dstMem).length = dstMem.length := by
  simp [convertRegion]

theorem convertRegion_getD (P : PixelUtil)
    (conv : PixelFormat → PixelFormat → List Nat → List Nat) (src : PixelBox)
    (srcMem : List Nat) (dst : PixelBox) (dstMem : List Nat) (i : Nat)
    (hi : i < dstMem.length) :
    (convertRegion P conv src srcMem dst dstMem).getD i 0
      = if dst.data ≤ i ∧
            i < dst.data + dst.width * dst.height * dst.depth * P.getNumElemBytes dst.format then
          (conv src.format dst.format
            (elemAt srcMem
              (src.data + (i - dst.data) / P.getNumElemBytes dst.format
                * P.getNumElemBytes src.format)
              (P.getNumElemBytes src.format))).getD
            ((i - dst.data) % P.getNumElemBytes dst.format) 0
        else dstMem.getD i 0 := by
  unfold convertRegion
  rw [List.getD_eq_getElem?_getD, List.getElem?_map, List.getElem?_range hi]
  rfl

theorem convertRegion_frame (P : PixelUtil)
    (conv : PixelFormat → PixelFormat → List Nat → List Nat) (src : PixelBox)
    (srcMem : List Nat) (dst : PixelBox) (dstMem : List Nat) (i : Nat)
    (hi : ¬ (dst.data ≤ i ∧
      i < dst.data + dst.width * dst.height * dst.depth * P.getNumElemBytes dst.format)) :
    (convertRegion P conv src srcMem dst dstMem).getD i 0 = dstMem.getD i 0 := by
  by_cases hlt : i < dstMem.length
  · rw [convertRegion_getD P conv src srcMem dst dstMem i hlt, if_neg hi]
  · rw [List.getD_eq_default _ _ (by rw [convertRegion_length]; omega),
      List.getD_eq_default _ _ (by omega)]

/-- Element `k` of the destination region after `convertRegion` is the conversion of
element `k` of the source region. -/
theorem convertRegion_elem (P : PixelUtil)
    (conv : PixelFormat → PixelFormat → List Nat → List Nat) (src : PixelBox)
    (srcMem : List Nat) (dst : PixelBox) (dstMem : List Nat)
    (hconv : ∀ bytes, (conv src.format dst.format bytes).length
      = P.getNumElemBytes dst.format)
    (hfit : dst.data + dst.width * dst.height * dst.depth * P.getNumElemBytes dst.format
      ≤ dstMem.length)
    (k : Nat) (hk : k < dst.width * dst.height * dst.depth) :
    elemAt (convertRegion P conv src srcMem dst dstMem)
        (dst.data + k * P.getNumElemBytes dst.format) (P.getNumElemBytes dst.format)
      = conv src.format dst.format
          (elemAt srcMem (src.data + k * P.getNumElemBytes src.format)
            (P.getNumElemBytes src.format)) := by
  generalize hs : P.getNumElemBytes dst.format = s at *
  generalize hN : dst.width * dst.height * dst.depth = N at *
  have hks : k * s + s ≤ N * s := by
    have := Nat.mul_le_mul_right s (show k + 1 ≤ N by omega)
    rw [Nat.succ_mul] at this
    exact this
  have hl := hconv (elemAt srcMem (src.data + k * P.getNumElemBytes src.format)
    (P.getNumElemBytes src.format))
  have key : elemAt (convertRegion P conv src srcMem dst dstMem) (dst.data + k * s)
      (conv src.format dst.format
        (elemAt srcMem (src.data + k * P.getNumElemBytes src.format)
          (P.getNumElemBytes src.format))).length
      = conv src.format dst.format
        (elemAt srcMem (src.data + k * P.getNumElemBytes src.format)
          (P.getNumElemBytes src.format)) := by
    apply elemAt_eq_of_getD
    · rw [hl, convertRegion_length]; omega
    · intro j hj
      rw [hl] at hj
      rw [convertRegion_getD P conv src srcMem dst dstMem _ (by omega), hs, hN,
        if_pos (by omega)]
      have e1 : dst.data + k * s + j - dst.data = j + s * k := by
        rw [Nat.mul_comm s k]; omega
      rw [e1, Nat.add_mul_div_left _ _ (by omega), Nat.add_mul_mod_self_left,
        Nat.div_eq_of_lt hj, Nat.mod_eq_of_lt hj, Nat.zero_add]
  rw [hl] at key
  exact key

/-- The base region of face `face` of an image of an uncompressed format without further
mip levels starts at `face * (width * height * depth * elementBytes)`. -/
theorem getPixelBox_base (P : PixelUtil) (img : Image) (face : Nat)
    (hfmt : P.Uncompressed img.mFormat) (hm : img.mNumMipmaps = 0)
    (hf : face < img.getNumFaces)
    (hfit : img.getNumFaces
      * (img.mWidth * img.mHeight * img.mDepth * P.getNumElemBytes img.mFormat) < SIZE_MOD) :
    getPixelBox P img face 0 = .ok
      { width := img.mWidth, height := img.mHeight, depth := img.mDepth,
        format := img.mFormat,
        data := face
          * (img.mWidth * img.mHeight * img.mDepth * P.getNumElemBytes img.mFormat) } := by
  rw [getPixelBox_eq P img face 0 (Nat.zero_le _) hf]
  generalize hB : img.mWidth * img.mHeight * img.mDepth * P.getNumElemBytes img.mFormat = B
    at hfit
  have h1 : prefixBytes P img.mFormat img.mWidth img.mHeight img.mDepth (img.mNumMipmaps + 1)
      = B := by
    rw [hm]
    simp [prefixBytes, levelBytes, hfmt.2, hB]
  have h0 : prefixBytes P img.mFormat img.mWidth img.mHeight img.mDepth 0 = 0 := by
    simp [prefixBytes]
  have hle : face * B ≤ img.getNumFaces * B := Nat.mul_le_mul_right _ (le_of_lt hf)
  have hB1 : B ≤ img.getNumFaces * B := Nat.le_mul_of_pos_left _ (getNumFaces_pos img)
  rw [h1, h0, Nat.mod_eq_of_lt (show B < SIZE_MOD by omega),
    Nat.mod_eq_of_lt (show face * B < SIZE_MOD by omega)]
  simp

/-- One base level of `combineTwoImagesAsRGBA`, for images without further mip levels:
the level ends, bytes outside the region of the face keep their values, and element `k`
of the region is the merge of the converted rgb element `k` with alpha-source element
`k`. -/
theorem combineLevel_base {F : Type} (P : PixelUtil) (R : Resamplers) (C : ColourOps F)
    (conv : PixelFormat → PixelFormat → List Nat → List Nat)
    (self rgb alpha : Image) (face nf w h d : Nat) (mem rgbMem alphaMem : List Nat)
    (hR : R.bulkPixelConversion = convertRegion P conv)
    (hconv : ∀ bytes, (conv rgb.mFormat self.mFormat bytes).length
      = P.getNumElemBytes self.mFormat)
    (hpack : ∀ col, (C.packColour col self.mFormat).length = P.getNumElemBytes self.mFormat)
    (hsw : self.mWidth = w) (hsh : self.mHeight = h) (hsd : self.mDepth = d)
    (hrw : rgb.mWidth = w) (hrh : rgb.mHeight = h) (hrd : rgb.mDepth = d)
    (haw : alpha.mWidth = w) (hah : alpha.mHeight = h) (had : alpha.mDepth = d)
    (hsm : self.mNumMipmaps = 0) (hrm : rgb.mNumMipmaps = 0) (ham : alpha.mNumMipmaps = 0)
    (hsf : self.getNumFaces = nf) (hrf : rgb.getNumFaces = nf) (haf : alpha.getNumFaces = nf)
    (hsu : P.Uncompressed self.mFormat) (hru : P.Uncompressed rgb.mFormat)
    (hau : P.Uncompressed alpha.mFormat)
    (hrb : rgb.mBuffer = some rgbMem) (hab : alpha.mBuffer = some alphaMem)
    (hface : face < nf)
    (hsfit : nf * (w * h * d * P.getNumElemBytes self.mFormat) < SIZE_MOD)
    (hrfit : nf * (w * h * d * P.getNumElemBytes rgb.mFormat) < SIZE_MOD)
    (hafit : nf * (w * h * d * P.getNumElemBytes alpha.mFormat) < SIZE_MOD)
    (hmem : nf * (w * h * d * P.getNumElemBytes self.mFormat) ≤ mem.length)
    (hamem : nf * (w * h * d * P.getNumElemBytes alpha.mFormat) ≤ alphaMem.length) :
    ∃ mem1, combineLevel P R C self rgb alpha face 0 mem = .done mem1 ∧
      mem1.length = mem.length ∧
      (∀ i, ¬ (face * (w * h * d * P.getNumElemBytes self.mFormat) ≤ i ∧
            i < face * (w * h * d * P.getNumElemBytes self.mFormat)
              + w * h * d * P.getNumElemBytes self.mFormat) →
          mem1.getD i 0 = mem.getD i 0) ∧
      ∀ k, k < w * h * d →
        elemAt mem1 (face * (w * h * d * P.getNumElemBytes self.mFormat)
            + k * P.getNumElemBytes self.mFormat) (P.getNumElemBytes self.mFormat)
          = alphaMerged C self.mFormat alpha.mFormat
              (conv rgb.mFormat self.mFormat
                (elemAt rgbMem (face * (w * h * d * P.getNumElemBytes rgb.mFormat)
                  + k * P.getNumElemBytes rgb.mFormat) (P.getNumElemBytes rgb.mFormat)))
              (elemAt alphaMem (face * (w * h * d * P.getNumElemBytes alpha.mFormat)
                + k * P.getNumElemBytes alpha.mFormat) (P.getNumElemBytes alpha.mFormat)) := by
  have hbs := getPixelBox_base P self face hsu hsm (by rw [hsf]; exact hface)
    (by rw [hsf, hsw, hsh, hsd]; exact hsfit)
  have hbr := getPixelBox_base P rgb face hru hrm (by rw [hrf]; exact hface)
    (by rw [hrf, hrw, hrh, hrd]; exact hrfit)
  have hba := getPixelBox_base P alpha face hau ham (by rw [haf]; exact hface)
    (by rw [haf, haw, hah, had]; exact hafit)
  rw [hsw, hsh, hsd] at hbs
  rw [hrw, hrh, hrd] at hbr
  rw [haw, hah, had] at hba
  generalize hs : P.getNumElemBytes self.mFormat = s at *
  generalize hsr : P.getNumElemBytes rgb.mFormat = sr at *
  generalize hsa : P.getNumElemBytes alpha.mFormat = sa at *
  have hN : d * h * w = w * h * d := by ring
  have hreg : face * (w * h * d * s) + w * h * d * s ≤ nf * (w * h * d * s) := by
    have := Nat.mul_le_mul_right (w * h * d * s) (show face + 1 ≤ nf by omega)
    rw [Nat.succ_mul] at this
    exact this
  have hrega : face * (w * h * d * sa) + w * h * d * sa ≤ nf * (w * h * d * sa) := by
    have := Nat.mul_le_mul_right (w * h * d * sa) (show face + 1 ≤ nf by omega)
    rw [Nat.succ_mul] at this
    exact this
  have hclen := convertRegion_length P conv
    { width := w, height := h, depth := d, format := rgb.mFormat,
      data := face * (w * h * d * sr) } rgbMem
    { width := w, height := h, depth := d, format := self.mFormat,
      data := face * (w * h * d * s) } mem
  obtain ⟨c1, hrun, -, -, hL, hFr, hE⟩ := combinePixel_loop P C self.mFormat alpha.mFormat
    alphaMem (by rw [hs]; exact hpack) (w * h * d)
    { psrcAlpha := face * (w * h * d * sa), pdst := face * (w * h * d * s),
      mem := convertRegion P conv
        { width := w, height := h, depth := d, format := rgb.mFormat,
          data := face * (w * h * d * sr) } rgbMem
        { width := w, height := h, depth := d, format := self.mFormat,
          data := face * (w * h * d * s) } mem }
    (by simp only [hs, hclen]; omega) (by simp only [hsa]; omega)
  simp only [hs, hsa] at hrun hFr hE hL
  refine ⟨c1.mem, ?_, ?_, ?_, ?_⟩
  · unfold combineLevel
    rw [hbr, hbs, hba]
    simp only [hR, hrb, hab, Option.getD_some, Image.getFormat, hsw, hsh, hsd,
      repeatOpt_nested, hN, hrun]
  · rw [hL, hclen]
  · intro i hi
    rw [hFr i hi]
    exact convertRegion_frame P conv _ rgbMem _ mem i (by simpa only [hs] using hi)
  · intro k hk
    rw [hE k hk]
    congr 1
    have := convertRegion_elem P conv
      { width := w, height := h, depth := d, format := rgb.mFormat,
        data := face * (w * h * d * sr) } rgbMem
      { width := w, height := h, depth := d, format := self.mFormat,
        data := face * (w * h * d * s) } mem
      (by simpa only [hs] using hconv) (by simp only [hs]; omega) k hk
    simpa only [hs, hsr] using this

theorem combineMipLoop_single {F : Type} (P : PixelUtil) (R : Resamplers) (C : ColourOps F)
    (self rgb alpha : Image) (face fuel : Nat) (mem mem1 : List Nat)
    (hsm : self.mNumMipmaps = 0)
    (hlevel : combineLevel P R C self rgb alpha face 0 mem = .done mem1) :
    combineMipLoop P R C self rgb alpha face (fuel + 2) 0 mem = some (.done mem1) := by
  simp [combineMipLoop, hsm, hlevel, UINT8_MOD]

/-- The face loop of `combineTwoImagesAsRGBA` over levels that each fill their own region
of `B` bytes: it ends, and the regions of all faces hold what their level stored. -/
theorem combineFaceLoop_base {F : Type} (P : PixelUtil) (R : Resamplers) (C : ColourOps F)
    (self rgb alpha : Image) (fuel nf B s N len : Nat) (G : Nat → Nat → List Nat)
    (hsm : self.mNumMipmaps = 0) (hB : B = N * s) (hlen : nf * B ≤ len)
    (hlevel : ∀ face mem, face < nf → mem.length = len →
      ∃ mem1, combineLevel P R C self rgb alpha face 0 mem = .done mem1 ∧
        mem1.length = mem.length ∧
        (∀ i, ¬ (face * B ≤ i ∧ i < face * B + B) → mem1.getD i 0 = mem.getD i 0) ∧
        ∀ k, k < N → elemAt mem1 (face * B + k * s) s = G face k) :
    ∀ (n face : Nat) (mem : List Nat), face + n = nf → mem.length = len →
      ∃ mem1, combineFaceLoop P R C self rgb alpha (fuel + 2) n face mem = some (.done mem1) ∧
        mem1.length = mem.length ∧
        (∀ i, i < face * B → mem1.getD i 0 = mem.getD i 0) ∧
        ∀ f k, face ≤ f → f < nf → k < N → elemAt mem1 (f * B + k * s) s = G f k := by
  intro n
  induction n with
  | zero =>
    intro face mem hn _
    refine ⟨mem, rfl, rfl, fun _ _ => rfl, ?_⟩
    intro f k h1 h2
    omega
  | succ n ih =>
    intro face mem hn hmem
    obtain ⟨mem1, hrun1, hL1, hF1, hE1⟩ := hlevel face mem (by omega) hmem
    obtain ⟨mem2, hrun2, hL2, hF2, hE2⟩ := ih (face + 1) mem1 (by omega) (by rw [hL1, hmem])
    refine ⟨mem2, ?_, ?_, ?_, ?_⟩
    · rw [combineFaceLoop, combineMipLoop_single P R C self rgb alpha face fuel mem mem1 hsm hrun1]
      exact hrun2
    · rw [hL2, hL1]
    · intro i hi
      rw [hF2 i (by rw [Nat.succ_mul]; omega), hF1 i (by omega)]
    · intro f k h1 h2 hk
      by_cases hf : f = face
      · subst hf
        rw [← hE1 k hk]
        have hks : k * s + s ≤ B := by
          have := Nat.mul_le_mul_right s (show k + 1 ≤ N by omega)
          rw [Nat.succ_mul] at this
          omega
        have hfB : f * B + B ≤ nf * B := by
          have := Nat.mul_le_mul_right B (show f + 1 ≤ nf by omega)
          rw [Nat.succ_mul] at this
          exact this
        apply elemAt_congr
        · rw [hL2, hL1, hmem]; omega
        · rw [hL1, hmem]; omega
        · intro j hj
          exact hF2 _ (by rw [Nat.succ_mul]; omega)
      · exact hE2 f k (by omega) h2 hk

/-- The target of `combineTwoImagesAsRGBA` when the four guards pass: the image handed to
the face loop has the dimensions, mip count and face count of `rgb`, the format `fmt`,
and the size from `calculateSize`; the call ends like the face loop over a fresh buffer
of that size. -/
theorem combine_target {F : Type} (P : PixelUtil) (R : Resamplers) (C : ColourOps F)
    (fresh : Nat → List Nat) (fuel : Nat) (self rgb alpha : Image) (fmt : PixelFormat)
    (hw : rgb.mWidth = alpha.mWidth) (hh : rgb.mHeight = alpha.mHeight)
    (hd : rgb.mDepth = alpha.mDepth) (hm : rgb.mNumMipmaps = alpha.mNumMipmaps)
    (hf : rgb.getNumFaces = alpha.getNumFaces) (hc : P.getComponentCount fmt = 4)
    (hcf : P.isCompressed fmt = false) (hcr : P.isCompressed rgb.mFormat = false)
    (hca : P.isCompressed alpha.mFormat = false) :
    ∃ target : Image,
      target.mWidth = rgb.mWidth ∧ target.mHeight = rgb.mHeight ∧
      target.mDepth = rgb.mDepth ∧ target.mFormat = fmt ∧
      target.mNumMipmaps = rgb.mNumMipmaps ∧ target.getNumFaces = rgb.getNumFaces ∧
      target.mBufSize = calculateSize P rgb.mNumMipmaps rgb.getNumFaces rgb.mWidth
        rgb.mHeight rgb.mDepth fmt ∧
      combineTwoImagesAsRGBA P R C fresh fuel self rgb alpha fmt
        = match combineFaceLoop P R C target rgb alpha fuel rgb.getNumFaces 0
            (fresh target.mBufSize) with
          | none => none
          | some (.done mem) => some (.returned { target with mBuffer := some mem })
          | some (.raised code) => some (.raised code target)
          | some .outOfBounds => some .outOfBounds := by
  unfold combineTwoImagesAsRGBA
  simp only [Image.getWidth, Image.getHeight, Image.getDepth, Image.getNumMipmaps,
    Image.getFormat]
  rw [if_neg (by simp [hw, hh, hd]), if_neg (by simp [hm, hf]), if_neg (by simp [hc]),
    if_neg (by simp [hcf, hcr, hca])]
  refine ⟨_, ?_, ?_, ?_, ?_, ?_, ?_, ?_, rfl⟩
  all_goals
    by_cases h3 : rgb.mDepth = 1 <;>
      rcases Bool.eq_false_or_eq_true (rgb.hasFlag IF_CUBEMAP) with h6 | h6 <;>
      simp only [Image.getNumFaces, h6] <;>
      simp [h3, Image.hasFlag, IF_3D_TEXTURE, IF_CUBEMAP] <;> try decide

/-- A laid-out image of an uncompressed format without further mip levels takes
`faces * (width * height * depth * elementBytes)` bytes, fewer than `2^64`. -/
theorem laidOut_base (P : PixelUtil) (img : Image) (hfmt : P.Uncompressed img.mFormat)
    (hm : img.mNumMipmaps = 0) (hl : img.LaidOut P) :
    img.mBufSize = img.getNumFaces
        * (img.mWidth * img.mHeight * img.mDepth * P.getNumElemBytes img.mFormat) ∧
      img.getNumFaces
        * (img.mWidth * img.mHeight * img.mDepth * P.getNumElemBytes img.mFormat)
        < SIZE_MOD := by
  have h1 : prefixBytes P img.mFormat img.mWidth img.mHeight img.mDepth (img.mNumMipmaps + 1)
      = img.mWidth * img.mHeight * img.mDepth * P.getNumElemBytes img.mFormat := by
    rw [hm]
    simp [prefixBytes, levelBytes, hfmt.2]
  have h2 := calculateSize_laidOut P img hl
  have h3 := hl.2
  rw [h1] at h2 h3
  exact ⟨hl.1.trans h2, h3⟩

/-- C11 (combine semantics).  For an rgb image and an alpha source that pass the guards of
`combineTwoImagesAsRGBA` (same dimensions and face count, uncompressed formats) and
have no mip levels beyond the base, and a 4-component uncompressed target format `fmt`,
the call returns, and pixel `k` of face `face` of the result is the element packed from
the colour of the converted rgb pixel with its alpha replaced by `(r + g + b) / 3` of the
alpha-source pixel; so it unpacks to the red, green and blue of the converted rgb pixel
and to the quantisation of that average as alpha, an expression in which the alpha
channel of the alpha-source pixel does not occur.  The bulk conversion is the pixel-wise
`convertRegion`; `quant` is what packing and unpacking in the target format does to an
alpha value. -/
theorem combine_semantics {F : Type} (P : PixelUtil) (R : Resamplers) (C : ColourOps F)
    (fresh : Nat → List Nat) (conv : PixelFormat → PixelFormat → List Nat → List Nat)
    (quant : F → F) (fuel : Nat) (self rgb alpha : Image) (fmt : PixelFormat)
    (rgbMem alphaMem : List Nat)
    (hR : R.bulkPixelConversion = convertRegion P conv)
    (hconv : ∀ bytes, (conv rgb.mFormat fmt bytes).length = P.getNumElemBytes fmt)
    (hpack : ∀ col, (C.packColour col fmt).length = P.getNumElemBytes fmt)
    (hquant : ∀ bytes x,
      C.unpackColour fmt (C.packColour { C.unpackColour fmt bytes with a := x } fmt)
        = { C.unpackColour fmt bytes with a := quant x })
    (hfresh : ∀ n, (fresh n).length = n) (hfuel : 2 ≤ fuel)
    (hw : rgb.mWidth = alpha.mWidth) (hh : rgb.mHeight = alpha.mHeight)
    (hd : rgb.mDepth = alpha.mDepth) (hf : rgb.getNumFaces = alpha.getNumFaces)
    (hrm : rgb.mNumMipmaps = 0) (ham : alpha.mNumMipmaps = 0)
    (hc : P.getComponentCount fmt = 4)
    (hfu : P.Uncompressed fmt) (hru : P.Uncompressed rgb.mFormat)
    (hau : P.Uncompressed alpha.mFormat)
    (hrl : rgb.LaidOut P) (hal : alpha.LaidOut P)
    (hrb : rgb.mBuffer = some rgbMem) (hab : alpha.mBuffer = some alphaMem)
    (halen : alphaMem.length = alpha.mBufSize)
    (hfit : rgb.getNumFaces
      * (rgb.mWidth * rgb.mHeight * rgb.mDepth * P.getNumElemBytes fmt) < SIZE_MOD) :
    ∃ img1 mem,
      combineTwoImagesAsRGBA P R C fresh fuel self rgb alpha fmt = some (.returned img1) ∧
      img1.mBuffer = some mem ∧
      mem.length = rgb.getNumFaces
        * (rgb.mWidth * rgb.mHeight * rgb.mDepth * P.getNumElemBytes fmt) ∧
      ∀ face k, face < rgb.getNumFaces → k < rgb.mWidth * rgb.mHeight * rgb.mDepth →
        elemAt mem ((face * (rgb.mWidth * rgb.mHeight * rgb.mDepth) + k)
            * P.getNumElemBytes fmt) (P.getNumElemBytes fmt)
          = alphaMerged C fmt alpha.mFormat
              (conv rgb.mFormat fmt
                (elemAt rgbMem ((face * (rgb.mWidth * rgb.mHeight * rgb.mDepth) + k)
                  * P.getNumElemBytes rgb.mFormat) (P.getNumElemBytes rgb.mFormat)))
              (elemAt alphaMem ((face * (rgb.mWidth * rgb.mHeight * rgb.mDepth) + k)
                * P.getNumElemBytes alpha.mFormat) (P.getNumElemBytes alpha.mFormat)) ∧
        C.unpackColour fmt
            (elemAt mem ((face * (rgb.mWidth * rgb.mHeight * rgb.mDepth) + k)
              * P.getNumElemBytes fmt) (P.getNumElemBytes fmt))
          = { C.unpackColour fmt
                (conv rgb.mFormat fmt
                  (elemAt rgbMem ((face * (rgb.mWidth * rgb.mHeight * rgb.mDepth) + k)
                    * P.getNumElemBytes rgb.mFormat) (P.getNumElemBytes rgb.mFormat))) with
              a := quant (C.div (C.add (C.add
                  (C.unpackColour alpha.mFormat
                    (elemAt alphaMem ((face * (rgb.mWidth * rgb.mHeight * rgb.mDepth) + k)
                      * P.getNumElemBytes alpha.mFormat)
                      (P.getNumElemBytes alpha.mFormat))).r
                  (C.unpackColour alpha.mFormat
                    (elemAt alphaMem ((face * (rgb.mWidth * rgb.mHeight * rgb.mDepth) + k)
                      * P.getNumElemBytes alpha.mFormat)
                      (P.getNumElemBytes alpha.mFormat))).g)
                  (C.unpackColour alpha.mFormat
                    (elemAt alphaMem ((face * (rgb.mWidth * rgb.mHeight * rgb.mDepth) + k)
                      * P.getNumElemBytes alpha.mFormat)
                      (P.getNumElemBytes alpha.mFormat))).b) C.three) } := by
  obtain ⟨fuel1, rfl⟩ : ∃ f1, fuel = f1 + 2 := ⟨fuel - 2, by omega⟩
  obtain ⟨-, hrfit⟩ := laidOut_base P rgb hru hrm hrl
  obtain ⟨hasz, hafit⟩ := laidOut_base P alpha hau ham hal
  rw [← hw, ← hh, ← hd, ← hf] at hasz hafit
  obtain ⟨target, tw, th, td, tfmt, tm, tfaces, tsize, hrun⟩ := combine_target P R C fresh
    (fuel1 + 2) self rgb alpha fmt hw hh hd (by rw [hrm, ham]) hf hc hfu.1 hru.1 hau.1
  subst tfmt
  rw [hrm] at tm tsize
  generalize hN : rgb.mWidth * rgb.mHeight * rgb.mDepth = N at *
  generalize hs : P.getNumElemBytes target.mFormat = s at *
  generalize hsr : P.getNumElemBytes rgb.mFormat = sr at *
  generalize hsa : P.getNumElemBytes alpha.mFormat = sa at *
  generalize hnf : rgb.getNumFaces = nf at *
  have hsize : target.mBufSize = nf * (N * s) := by
    rw [tsize, calculateSize_eq]
    simp only [zero_add, Finset.sum_range_one, levelBytes, Function.iterate_zero, id_eq,
      hfu.2, hN, hs]
    rw [Nat.mul_comm]
    exact Nat.mod_eq_of_lt hfit
  obtain ⟨mem1, hloop, hL, -, hE⟩ := combineFaceLoop_base P R C target rgb alpha fuel1 nf
    (N * s) s N (nf * (N * s))
    (fun f k => alphaMerged C target.mFormat alpha.mFormat
      (conv rgb.mFormat target.mFormat (elemAt rgbMem (f * (N * sr) + k * sr) sr))
      (elemAt alphaMem (f * (N * sa) + k * sa) sa))
    tm rfl le_rfl
    (fun face mem hface hmem => by
      have := combineLevel_base P R C conv target rgb alpha face nf rgb.mWidth rgb.mHeight
        rgb.mDepth mem rgbMem alphaMem hR (by rw [hs]; exact hconv)
        (by rw [hs]; exact hpack) tw th td rfl rfl rfl hw.symm hh.symm
        hd.symm tm hrm ham (by rw [tfaces]) hnf (by rw [← hf]) hfu hru hau hrb hab hface
        (by rw [hN, hs]; exact hfit) (by rw [hN, hsr]; exact hrfit)
        (by rw [hN, hsa]; exact hafit) (by rw [hN, hs, hmem])
        (by rw [hN, hsa, halen, hasz])
      simpa only [hN, hs, hsr, hsa] using this)
    nf 0 (fresh target.mBufSize) (by omega) (by rw [hfresh, hsize])
  refine ⟨{ target with mBuffer := some mem1 }, mem1, ?_, rfl, ?_, ?_⟩
  · rw [hrun, hloop]
  · rw [hL, hfresh, hsize]
  · intro face k hface hk
    have e1 : (face * N + k) * s = face * (N * s) + k * s := by ring
    have e2 : (face * N + k) * sr = face * (N * sr) + k * sr := by ring
    have e3 : (face * N + k) * sa = face * (N * sa) + k * sa := by ring
    have key := hE face k (Nat.zero_le _) hface hk
    rw [e1, e2, e3]
    refine ⟨key, ?_⟩
    rw [key]
    exact hquant _ _

theorem sampleCatalogue_uncompressed_R8G8B8 : sampleCatalogue.Uncompressed .PF_R8G8B8 :=
  ⟨rfl, fun _ _ _ => rfl⟩

theorem sampleCatalogue_uncompressed_R8G8B8A8 : sampleCatalogue.Uncompressed .PF_R8G8B8A8 :=
  ⟨rfl, fun _ _ _ => rfl⟩

theorem redImage_laidOut : redImage.LaidOut sampleCatalogue := by
  constructor
  · rfl
  · simp [prefixBytes, levelBytes, Finset.sum_range_succ, redImage, sampleCatalogue,
      Image.getNumFaces, Image.hasFlag, IF_CUBEMAP, SIZE_MOD]

theorem greyImage_laidOut : greyImage.LaidOut sampleCatalogue := by
  constructor
  · rfl
  · simp [prefixBytes, levelBytes, Finset.sum_range_succ, greyImage, sampleCatalogue,
      Image.getNumFaces, Image.hasFlag, IF_CUBEMAP, SIZE_MOD]

theorem combine_semantics_witness :
    combineTwoImagesAsRGBA sampleCatalogue convResamplers sampleColourOps sampleFresh 2
        emptyImage redImage greyImage .PF_R8G8B8A8 = some (.returned redGreyCombined) ∧
    ∃ img1 mem,
      combineTwoImagesAsRGBA sampleCatalogue convResamplers sampleColourOps sampleFresh 2
        emptyImage redImage greyImage .PF_R8G8B8A8 = some (.returned img1) ∧
      img1.mBuffer = some mem ∧
      mem.length = 16 ∧
      ∀ face k, face < 1 → k < 4 →
        elemAt mem ((face * 4 + k) * 4) 4
          = alphaMerged sampleColourOps .PF_R8G8B8A8 .PF_R8G8B8
              (sampleConv .PF_R8G8B8 .PF_R8G8B8A8
                (elemAt [255, 0, 0, 255, 0, 0, 255, 0, 0, 255, 0, 0] ((face * 4 + k) * 3) 3))
              (elemAt [128, 128, 128, 128, 128, 128, 128, 128, 128, 128, 128, 128]
                ((face * 4 + k) * 3) 3) ∧
        sampleColourOps.unpackColour .PF_R8G8B8A8 (elemAt mem ((face * 4 + k) * 4) 4)
          = { sampleColourOps.unpackColour .PF_R8G8B8A8
                (sampleConv .PF_R8G8B8 .PF_R8G8B8A8
                  (elemAt [255, 0, 0, 255, 0, 0, 255, 0, 0, 255, 0, 0]
                    ((face * 4 + k) * 3) 3)) with
              a := id (sampleColourOps.div (sampleColourOps.add (sampleColourOps.add
                  (sampleColourOps.unpackColour .PF_R8G8B8
                    (elemAt [128, 128, 128, 128, 128, 128, 128, 128, 128, 128, 128, 128]
                      ((face * 4 + k) * 3) 3)).r
                  (sampleColourOps.unpackColour .PF_R8G8B8
                    (elemAt [128, 128, 128, 128, 128, 128, 128, 128, 128, 128, 128, 128]
                      ((face * 4 + k) * 3) 3)).g)
                  (sampleColourOps.unpackColour .PF_R8G8B8
                    (elemAt [128, 128, 128, 128, 128, 128, 128, 128, 128, 128, 128, 128]
                      ((face * 4 + k) * 3) 3)).b) sampleColourOps.three) } :=
  ⟨by decide,
    combine_semantics sampleCatalogue convResamplers sampleColourOps sampleFresh sampleConv id 2
      emptyImage redImage greyImage .PF_R8G8B8A8
      [255, 0, 0, 255, 0, 0, 255, 0, 0, 255, 0, 0]
      [128, 128, 128, 128, 128, 128, 128, 128, 128, 128, 128, 128]
      rfl (fun _ => rfl) (fun _ => rfl) (fun _ _ => rfl)
      (fun n => List.length_replicate n 0) (by decide) rfl rfl rfl rfl rfl rfl rfl
      sampleCatalogue_uncompressed_R8G8B8A8 sampleCatalogue_uncompressed_R8G8B8
      sampleCatalogue_uncompressed_R8G8B8 redImage_laidOut greyImage_laidOut rfl rfl rfl
      (by decide)⟩

/-! ### C18: `setTo` -/

/-- The loop of `setTo` from slot `k` on, for an element size `s ≥ 1` and a buffer of `n`
slots: with more fuel than slots left it ends, the bytes before slot `k` keep their
values, and every slot from `k` on holds the first `s` bytes of `rawCol`. -/
theorem setToLoop_fills (s n : Nat) (rawCol : List Nat) (hs : 0 < s)
    (hraw : s ≤ rawCol.length) (hfit : n * s < SIZE_MOD) :
    ∀ (m fuel k : Nat) (buf : List Nat), k + m = n → m < fuel → buf.length = n * s →
      ∃ buf1, setToLoop s (n * s) rawCol fuel (k * s) buf = some (some buf1) ∧
        buf1.length = buf.length ∧
        (∀ i, i < k * s → buf1.getD i 0 = buf.getD i 0) ∧
        ∀ j, k ≤ j → j < n → elemAt buf1 (j * s) s = elemAt rawCol 0 s := by
  intro m
  induction m with
  | zero =>
    intro fuel k buf hk hfuel hlen
    obtain ⟨f1, rfl⟩ : ∃ f1, fuel = f1 + 1 := ⟨fuel - 1, by omega⟩
    have hkn : k = n := by omega
    subst hkn
    refine ⟨buf, ?_, rfl, fun _ _ => rfl, ?_⟩
    · rw [setToLoop, if_neg (Nat.lt_irrefl _)]
    · intro j h1 h2
      omega
  | succ m ih =>
    intro fuel k buf hk hfuel hlen
    obtain ⟨f1, rfl⟩ : ∃ f1, fuel = f1 + 1 := ⟨fuel - 1, by omega⟩
    have hks : k * s + s ≤ n * s := by
      have := Nat.mul_le_mul_right s (show k + 1 ≤ n by omega)
      rw [Nat.succ_mul] at this
      exact this
    have hrl : (elemAt rawCol 0 s).length = s := elemAt_length rawCol 0 s (by omega)
    obtain ⟨buf1, hw, hL1, hG1⟩ := writeBytes_spec buf (k * s) (elemAt rawCol 0 s)
      (by rw [hrl, hlen]; exact hks)
    rw [hrl] at hG1
    have hnext : (k * s + s) % SIZE_MOD = (k + 1) * s := by
      rw [Nat.succ_mul]
      exact Nat.mod_eq_of_lt (by omega)
    obtain ⟨buf2, hrun, hL2, hF2, hE2⟩ := ih f1 (k + 1) buf1 (by omega) (by omega)
      (by rw [hL1, hlen])
    refine ⟨buf2, ?_, ?_, ?_, ?_⟩
    · rw [setToLoop, if_pos (by omega), readBytes_eq rawCol 0 s (by omega)]
      simp only [hw, hnext]
      exact hrun
    · rw [hL2, hL1]
    · intro i hi
      rw [hF2 i (by rw [Nat.succ_mul]; omega), hG1 i, if_neg (by omega)]
    · intro j h1 h2
      by_cases hj : j = k
      · subst hj
        have key : elemAt buf2 (j * s) (elemAt rawCol 0 s).length = elemAt rawCol 0 s := by
          apply elemAt_eq_of_getD
          · rw [hrl, hL2, hL1, hlen]; exact hks
          · intro i hi
            rw [hrl] at hi
            rw [hF2 _ (by rw [Nat.succ_mul]; omega), hG1, if_pos (by omega)]
            congr 1
            omega
        rw [hrl] at key
        exact key
      · exact hE2 j (by omega) h2

/-- The function `setTo` on an image of an accessible format whose element size `s` is at
least 1 and divides the buffer size, with a colour that is not `ColourValue::ZERO` and
packs to at least `s` and at most 16 bytes: with more fuel than slots it returns, only the
buffer is changed, its length is kept, and every slot holds the first `s` bytes of the
packed colour. -/
theorem setTo_fills_slots {F : Type} (P : PixelUtil) (C : ColourOps F)
    (isZero : ColourValue F → Bool) (B : Build) (packFail : ExceptionCode)
    (rawInit : List Nat) (fuel n : Nat) (img : Image) (col : ColourValue F)
    (buf : List Nat) (hbuf : img.mBuffer = some buf) (hlen : buf.length = img.mBufSize)
    (hnz : isZero col = false) (hacc : P.isAccessible img.mFormat = true)
    (hs : 0 < img.mPixelSize)
    (hsize : img.mBufSize = n * img.mPixelSize) (hfit : img.mBufSize < SIZE_MOD)
    (hpack : img.mPixelSize ≤ (C.packColour col img.mFormat).length)
    (hpack16 : (C.packColour col img.mFormat).length ≤ 16) (hfuel : n < fuel) :
    ∃ buf1, setTo P C isZero B packFail rawInit fuel img col
        = some (.returned { img with mBuffer := some buf1 }) ∧
      buf1.length = buf.length ∧
      ∀ j, j < n → elemAt buf1 (j * img.mPixelSize) img.mPixelSize
        = (C.packColour col img.mFormat).take img.mPixelSize := by
  generalize hsdef : img.mPixelSize = s at *
  generalize hpdef : C.packColour col img.mFormat = packed at *
  have hrawlen : s ≤ ((packed ++ rawInit.drop packed.length).take 16).length := by
    rw [List.length_take, List.length_append]
    omega
  have hraw : elemAt ((packed ++ rawInit.drop packed.length).take 16) 0 s = packed.take s := by
    unfold elemAt
    rw [List.drop_zero, List.take_take, Nat.min_eq_left (by omega),
      List.take_append_of_le_length hpack]
  obtain ⟨buf1, hrun, hL, -, hE⟩ := setToLoop_fills s n
    ((packed ++ rawInit.drop packed.length).take 16) hs hrawlen (by rw [← hsize]; exact hfit)
    n fuel 0 buf (by omega) hfuel (by rw [hlen, hsize])
  rw [Nat.zero_mul, ← hsize] at hrun
  refine ⟨buf1, ?_, hL, ?_⟩
  · unfold setTo
    rw [hbuf]
    simp only [hnz, Bool.false_eq_true, if_false, packColourChecked, hacc, if_true, hsdef,
      hpdef, hrun]
  · intro j hj
    rw [hE j (Nat.zero_le _) hj, hraw]

/-- C18 (as amended): `setTo(col)` on an image whose buffer has `mBufSize` bytes.  With
the pure-zero colour it returns with every byte of the buffer 0, whatever the format.
With another colour and a format that is not accessible (block-compressed) it fails with
the error of `packColour`, the image and its buffer being as they were.  With another
colour and an accessible format whose element size `s ≥ 1` divides the buffer size
(`n` slots) it returns, given more fuel than slots, with a buffer of the same length in
which every slot `0, s, 2s, ...` holds the first `s` bytes of the packed colour; no other
member changes. -/
theorem setTo_contract {F : Type} (P : PixelUtil) (C : ColourOps F)
    (isZero : ColourValue F → Bool) (B : Build) (packFail : ExceptionCode)
    (rawInit : List Nat) (fuel n : Nat) (img : Image) (col : ColourValue F)
    (buf : List Nat) (hbuf : img.mBuffer = some buf) (hlen : buf.length = img.mBufSize) :
    (isZero col = true →
      setTo P C isZero B packFail rawInit fuel img col
        = some (.returned { img with mBuffer := some (List.replicate buf.length 0) })) ∧
    (isZero col = false → P.isAccessible img.mFormat = false →
      setTo P C isZero B packFail rawInit fuel img col = some (.raised packFail img)) ∧
    (isZero col = false → P.isAccessible img.mFormat = true → 0 < img.mPixelSize →
      img.mBufSize = n * img.mPixelSize → img.mBufSize < SIZE_MOD →
      img.mPixelSize ≤ (C.packColour col img.mFormat).length →
      (C.packColour col img.mFormat).length ≤ 16 → n < fuel →
      ∃ buf1, setTo P C isZero B packFail rawInit fuel img col
          = some (.returned { img with mBuffer := some buf1 }) ∧
        buf1.length = buf.length ∧
        ∀ j, j < n → elemAt buf1 (j * img.mPixelSize) img.mPixelSize
          = (C.packColour col img.mFormat).take img.mPixelSize) := by
  refine ⟨?_, ?_, ?_⟩
  · intro hz
    have hw : writeBytes buf 0 (List.replicate img.getSize 0)
        = some (List.replicate buf.length 0) := by
      unfold writeBytes Image.getSize
      rw [← hlen, List.length_replicate, if_pos (by omega), List.take_zero, Nat.zero_add,
        List.drop_length, List.nil_append, List.append_nil]
    unfold setTo
    rw [hbuf]
    simp only [hz, if_true, hw]
  · intro hnz hacc
    unfold setTo
    rw [hbuf]
    simp only [hnz, Bool.false_eq_true, if_false, packColourChecked, hacc]
  · intro hnz hacc hs hsize hfit hpack hpack16 hfuel
    exact setTo_fills_slots P C isZero B packFail rawInit fuel n img col buf hbuf hlen hnz
      hacc hs hsize hfit hpack hpack16 hfuel

theorem setTo_contract_witness :
    setTo sampleCatalogue sampleColourOps sampleIsZero sampleBuild .ERR_NOT_IMPLEMENTED [] 5
        flatImage sampleRed
      = some (.returned { flatImage with mBuffer := some [255, 0, 255, 0, 255, 0, 255, 0] }) ∧
    ∃ buf1, setTo sampleCatalogue sampleColourOps sampleIsZero sampleBuild
        .ERR_NOT_IMPLEMENTED [] 5 flatImage sampleRed
          = some (.returned { flatImage with mBuffer := some buf1 }) ∧
        buf1.length = (List.range 8).length ∧
        ∀ j, j < 4 → elemAt buf1 (j * flatImage.mPixelSize) flatImage.mPixelSize
          = (sampleColourOps.packColour sampleRed flatImage.mFormat).take
              flatImage.mPixelSize :=
  ⟨by decide,
    (setTo_contract sampleCatalogue sampleColourOps sampleIsZero sampleBuild
      .ERR_NOT_IMPLEMENTED [] 5 4 flatImage sampleRed (List.range 8) rfl rfl).2.2 rfl rfl
      (by decide) rfl (by decide) (by decide) (by decide) (by decide)⟩

/-- C18 (the claim as stated fails): on the block-compressed image (a format that is not
accessible, buffer of 8 bytes) `setTo(red)` fails with the error of `packColour`; no slot
of the buffer is filled. -/
theorem setTo_block_image_counterexample :
    setTo sampleCatalogue sampleColourOps sampleIsZero sampleBuild .ERR_NOT_IMPLEMENTED [] 9
        blockImage sampleRed
      = some (.raised .ERR_NOT_IMPLEMENTED blockImage) ∧
    blockImage.mBuffer = some [1, 2, 3, 4, 5, 6, 7, 8] := by
  constructor <;> decide

/-! ### C23: the path that linear scaling takes -/

theorem scaleLinearByte_runs (P : PixelUtil) (R : Resamplers) (B : Build)
    (fresh : Nat → List Nat) (src : PixelBox) (srcMem : List Nat) (scaled : PixelBox)
    (scaledMem : List Nat)
    (hn : 1 ≤ P.getNumElemBytes src.format ∧ P.getNumElemBytes src.format ≤ 4) :
    scaleLinearByte P R B fresh src srcMem scaled scaledMem
      = scaleBlit R (some (.linearByte (P.getNumElemBytes src.format)))
          (scaleTemp P fresh src scaled scaledMem)
          (R.linearByte (P.getNumElemBytes src.format) src srcMem
            (scaleTemp P fresh src scaled scaledMem).1
            (scaleTemp P fresh src scaled scaledMem).2.1) scaled scaledMem := by
  unfold scaleLinearByte
  have h : P.getNumElemBytes src.format = 1 ∨ P.getNumElemBytes src.format = 2 ∨
      P.getNumElemBytes src.format = 3 ∨ P.getNumElemBytes src.format = 4 := by omega
  rcases h with h | h | h | h <;> simp only [h]

theorem scale_linear_byte_branch (P : PixelUtil) (R : Resamplers) (B : Build)
    (fresh : Nat → List Nat) (src : PixelBox) (srcMem : List Nat) (scaled : PixelBox)
    (scaledMem : List Nat) (filter : Filter)
    (hfilter : filter = .FILTER_LINEAR ∨ filter = .FILTER_BILINEAR)
    (hsrc : P.isAccessible src.format = true) (hdst : P.isAccessible scaled.format = true)
    (hin : src.format ∈ byteWhitelist) :
    scale P R B fresh src srcMem scaled scaledMem filter
      = scaleLinearByte P R B fresh src srcMem scaled scaledMem := by
  obtain ⟨sw, sh, sd, sf, sdata⟩ := src
  simp only [byteWhitelist, List.mem_cons, List.mem_singleton, List.not_mem_nil,
    or_false] at hin
  unfold scale
  simp only [hsrc, hdst, Bool.not_true, Bool.and_false, Bool.false_eq_true, if_false]
  rcases hfilter with rfl | rfl <;>
    rcases hin with h | h | h | h | h | h | h | h | h | h | h | h <;> subst h <;> rfl

theorem scale_linear_float_branch (P : PixelUtil) (R : Resamplers) (B : Build)
    (fresh : Nat → List Nat) (src : PixelBox) (srcMem : List Nat) (scaled : PixelBox)
    (scaledMem : List Nat) (filter : Filter)
    (hfilter : filter = .FILTER_LINEAR ∨ filter = .FILTER_BILINEAR)
    (hsrc : P.isAccessible src.format = true) (hdst : P.isAccessible scaled.format = true)
    (hin : src.format ∈ float32Formats) (hout : scaled.format ∈ float32Formats) :
    scale P R B fresh src srcMem scaled scaledMem filter
      = .completed { resampler := some .linearFloat32, viaTemp := false,
                     scaledMem := R.linearFloat32 src srcMem scaled scaledMem } := by
  obtain ⟨sw, sh, sd, sf, sdata⟩ := src
  simp only [float32Formats, List.mem_cons, List.mem_singleton, List.not_mem_nil,
    or_false] at hin hout
  unfold scale
  simp only [hsrc, hdst, Bool.not_true, Bool.and_false, Bool.false_eq_true, if_false]
  rcases hfilter with rfl | rfl <;> rcases hin with h | h <;> subst h <;>
    simp only [if_pos hout]

theorem scale_linear_generic_branch (P : PixelUtil) (R : Resamplers) (B : Build)
    (fresh : Nat → List Nat) (src : PixelBox) (srcMem : List Nat) (scaled : PixelBox)
    (scaledMem : List Nat) (filter : Filter)
    (hfilter : filter = .FILTER_LINEAR ∨ filter = .FILTER_BILINEAR)
    (hsrc : P.isAccessible src.format = true) (hdst : P.isAccessible scaled.format = true)
    (hin : ¬ src.format ∈ byteWhitelist)
    (hff : ¬ (src.format ∈ float32Formats ∧ scaled.format ∈ float32Formats)) :
    scale P R B fresh src srcMem scaled scaledMem filter
      = .completed { resampler := some .linear, viaTemp := false,
                     scaledMem := R.linear src srcMem scaled scaledMem } := by
  obtain ⟨sw, sh, sd, sf, sdata⟩ := src
  simp only [float32Formats, byteWhitelist, List.mem_cons, List.mem_singleton,
    List.not_mem_nil, or_false] at hin hff
  unfold scale
  simp only [hsrc, hdst, Bool.not_true, Bool.and_false, Bool.false_eq_true, if_false]
  rcases hfilter with rfl | rfl <;> cases sf <;>
    first
    | (exfalso; apply hin; decide)
    | rfl
    | (have hff2 : ¬ (scaled.format = .PF_FLOAT32_RGB ∨ scaled.format = .PF_FLOAT32_RGBA) :=
         fun h => hff ⟨by decide, h⟩
       simp only [if_neg hff2])

theorem byteWhitelist_not_float32 (f : PixelFormat) (h : f ∈ byteWhitelist) :
    ¬ f ∈ float32Formats := by
  intro h2
  simp only [float32Formats, byteWhitelist, List.mem_cons, List.mem_singleton,
    List.not_mem_nil, or_false] at h h2
  rcases h2 with rfl | rfl <;> simp at h

/-- C23 (path selection of linear scaling).  For accessible source and destination
formats and the filter `FILTER_LINEAR` or `FILTER_BILINEAR`, `scale` completes, and it
invokes the byte resampler exactly when the source format is one of the twelve formats of
`byteWhitelist`, the float resampler exactly when source and destination format are both
32-bit-float RGB or RGBA, and the generic resampler in every other case.  On the byte path
the resampler (of the element size of the source format) writes into the destination
itself when the two formats are equal, and otherwise into a new temporary of the extent of
the destination and the format of the source, which `bulkPixelConversion` then converts
into the destination.  The catalogue gives the whitelisted formats 1 to 4 bytes. -/
theorem scale_linear_path_selection (P : PixelUtil) (R : Resamplers) (B : Build)
    (fresh : Nat → List Nat) (src : PixelBox) (srcMem : List Nat) (scaled : PixelBox)
    (scaledMem : List Nat) (filter : Filter)
    (hfilter : filter = .FILTER_LINEAR ∨ filter = .FILTER_BILINEAR)
    (hsrc : P.isAccessible src.format = true) (hdst : P.isAccessible scaled.format = true)
    (hcat : ∀ f, f ∈ byteWhitelist → 1 ≤ P.getNumElemBytes f ∧ P.getNumElemBytes f ≤ 4) :
    ∃ run, scale P R B fresh src srcMem scaled scaledMem filter = .completed run ∧
      ((∃ n, run.resampler = some (.linearByte n)) ↔ src.format ∈ byteWhitelist) ∧
      (run.resampler = some .linearFloat32 ↔
        (src.format ∈ float32Formats ∧ scaled.format ∈ float32Formats)) ∧
      (run.resampler = some .linear ↔
        (¬ src.format ∈ byteWhitelist ∧
          ¬ (src.format ∈ float32Formats ∧ scaled.format ∈ float32Formats))) ∧
      (src.format ∈ byteWhitelist → src.format = scaled.format →
        run = { resampler := some (.linearByte (P.getNumElemBytes src.format)),
                viaTemp := false,
                scaledMem := R.linearByte (P.getNumElemBytes src.format) src srcMem scaled
                  scaledMem }) ∧
      (src.format ∈ byteWhitelist → src.format ≠ scaled.format →
        run = { resampler := some (.linearByte (P.getNumElemBytes src.format)),
                viaTemp := true,
                scaledMem := R.bulkPixelConversion
                  { width := scaled.width, height := scaled.height, depth := scaled.depth,
                    format := src.format, data := 0 }
                  (R.linearByte (P.getNumElemBytes src.format) src srcMem
                    { width := scaled.width, height := scaled.height, depth := scaled.depth,
                      format := src.format, data := 0 }
                    (fresh (P.getMemorySize scaled.width scaled.height scaled.depth
                      src.format)))
                  scaled scaledMem }) ∧
      (src.format ∈ float32Formats ∧ scaled.format ∈ float32Formats →
        run.viaTemp = false ∧ run.scaledMem = R.linearFloat32 src srcMem scaled scaledMem) ∧
      (¬ src.format ∈ byteWhitelist ∧
          ¬ (src.format ∈ float32Formats ∧ scaled.format ∈ float32Formats) →
        run.viaTemp = false ∧ run.scaledMem = R.linear src srcMem scaled scaledMem) := by
  by_cases hb : src.format ∈ byteWhitelist
  · have hnf := byteWhitelist_not_float32 _ hb
    rw [scale_linear_byte_branch P R B fresh src srcMem scaled scaledMem filter hfilter hsrc
      hdst hb, scaleLinearByte_runs P R B fresh src srcMem scaled scaledMem (hcat _ hb)]
    refine ⟨_, rfl, ⟨fun _ => hb, fun _ => ⟨_, rfl⟩⟩, ?_, ?_, ?_, ?_, ?_, ?_⟩
    · exact ⟨fun h => by simp [scaleBlit] at h, fun h => absurd h.1 hnf⟩
    · exact ⟨fun h => by simp [scaleBlit] at h, fun h => absurd hb h.1⟩
    · intro _ heq
      simp [scaleBlit, scaleTemp, heq]
    · intro _ hne
      simp [scaleBlit, scaleTemp, hne]
    · intro h
      exact absurd h.1 hnf
    · intro h
      exact absurd hb h.1
  · by_cases hf : src.format ∈ float32Formats ∧ scaled.format ∈ float32Formats
    · rw [scale_linear_float_branch P R B fresh src srcMem scaled scaledMem filter hfilter
        hsrc hdst hf.1 hf.2]
      refine ⟨_, rfl, ⟨fun h => ?_, fun h => absurd h hb⟩, ⟨fun _ => hf, fun _ => rfl⟩,
        ⟨fun h => ?_, fun h => absurd hf h.2⟩, fun h => absurd h hb, fun h => absurd h hb,
        fun _ => ⟨rfl, rfl⟩, fun h => absurd hf h.2⟩
      · obtain ⟨n, hn⟩ := h
        simp at hn
      · simp at h
    · rw [scale_linear_generic_branch P R B fresh src srcMem scaled scaledMem filter hfilter
        hsrc hdst hb hf]
      refine ⟨_, rfl, ⟨fun h => ?_, fun h => absurd h hb⟩, ⟨fun h => ?_, fun h => absurd h hf⟩,
        ⟨fun _ => ⟨hb, hf⟩, fun _ => rfl⟩, fun h => absurd h hb, fun h => absurd h hb,
        fun h => absurd h hf, fun _ => ⟨rfl, rfl⟩⟩
      · obtain ⟨n, hn⟩ := h
        simp at hn
      · simp at h

theorem sampleCatalogue_byteWhitelist (f : PixelFormat) (hf : f ∈ byteWhitelist) :
    1 ≤ sampleCatalogue.getNumElemBytes f ∧ sampleCatalogue.getNumElemBytes f ≤ 4 := by
  simp only [byteWhitelist, List.mem_cons, List.mem_singleton, List.not_mem_nil,
    or_false] at hf
  rcases hf with h | h | h | h | h | h | h | h | h | h | h | h <;> subst h <;> decide

theorem scale_linear_path_selection_witness :
    ∃ run, scale sampleCatalogue sampleResamplers sampleBuild sampleFresh flatBox
        [10, 11, 12, 13, 14, 15, 16, 17] rgbaBox (List.replicate 16 0) .FILTER_BILINEAR
        = .completed run ∧
      run.resampler = some (.linearByte 2) ∧ run.viaTemp = true := by
  obtain ⟨run, h, _, _, _, _, hne, _, _⟩ := scale_linear_path_selection sampleCatalogue
    sampleResamplers sampleBuild sampleFresh flatBox [10, 11, 12, 13, 14, 15, 16, 17] rgbaBox
    (List.replicate 16 0) .FILTER_BILINEAR (Or.inr rfl) rfl rfl sampleCatalogue_byteWhitelist
  have hrun := hne (by decide) (by decide)
  exact ⟨run, h, by rw [hrun]; rfl, by rw [hrun]⟩

/-! ### C26: `applyGamma` -/

theorem gammaByte_spec (gammaramp : Nat → Nat) (p : Nat) (buf : List Nat)
    (hp : p < buf.length) :
    ∃ out, gammaByte gammaramp p buf = some out ∧ out.length = buf.length ∧
      ∀ i, out.getD i 0 = if i = p then gammaramp (buf.getD i 0) else buf.getD i 0 := by
  refine ⟨buf.set p (gammaramp (buf.getD p 0)), ?_, by simp, ?_⟩
  · unfold gammaByte
    rw [List.getElem?_eq_getElem hp, List.getD_eq_getElem?_getD, List.getElem?_eq_getElem hp]
    rfl
  · intro i
    by_cases h : i = p
    · subst h
      rw [if_pos rfl, List.getD_eq_getElem?_getD, List.getElem?_set_self hp]
      rfl
    · rw [if_neg h]
      simp only [List.getD_eq_getElem?_getD, List.getElem?_set_ne (fun e => h e.symm)]

theorem gammaPixel_spec (gammaramp : Nat → Nat) (p : Nat) (buf : List Nat)
    (hp : p + 3 ≤ buf.length) :
    ∃ out, gammaPixel gammaramp p buf = some out ∧ out.length = buf.length ∧
      ∀ i, out.getD i 0
        = if p ≤ i ∧ i < p + 3 then gammaramp (buf.getD i 0) else buf.getD i 0 := by
  obtain ⟨b1, h1, l1, g1⟩ := gammaByte_spec gammaramp p buf (by omega)
  obtain ⟨b2, h2, l2, g2⟩ := gammaByte_spec gammaramp (p + 1) b1 (by omega)
  obtain ⟨b3, h3, l3, g3⟩ := gammaByte_spec gammaramp (p + 2) b2 (by omega)
  refine ⟨b3, ?_, by omega, ?_⟩
  · unfold gammaPixel
    rw [h1, Option.some_bind, h2, Option.some_bind, h3]
  · intro i
    rw [g3, g2, g1]
    by_cases e0 : i = p
    · subst e0
      rw [if_neg (by omega), if_neg (by omega), if_pos rfl, if_pos (by omega)]
    · by_cases e1 : i = p + 1
      · subst e1
        rw [if_neg (by omega), if_pos rfl, if_neg (by omega), if_pos (by omega)]
      · by_cases e2 : i = p + 2
        · subst e2
          rw [if_pos rfl, if_neg (by omega), if_neg (by omega), if_pos (by omega)]
        · rw [if_neg e2, if_neg e1, if_neg e0, if_neg (by omega)]

/-- The second loop of `applyGamma` over `n` pixels of `stride ≥ 3` bytes that lie inside
the buffer: it ends, and exactly the first three bytes of each of the `n` pixels are
replaced by their table entries. -/
theorem applyGammaLoop_spec (gammaramp : Nat → Nat) (stride : Nat) (hs : 3 ≤ stride) :
    ∀ (n p : Nat) (buf : List Nat), p + n * stride ≤ buf.length →
      ∃ out, applyGammaLoop gammaramp stride n p buf = some out ∧
        out.length = buf.length ∧
        ∀ i, out.getD i 0
          = if p ≤ i ∧ i < p + n * stride ∧ (i - p) % stride < 3 then
              gammaramp (buf.getD i 0)
            else buf.getD i 0 := by
  intro n
  induction n with
  | zero =>
    intro p buf _
    refine ⟨buf, rfl, rfl, ?_⟩
    intro i
    rw [if_neg (by omega)]
  | succ n ih =>
    intro p buf hfit
    rw [Nat.succ_mul] at hfit
    obtain ⟨b1, h1, l1, g1⟩ := gammaPixel_spec gammaramp p buf (by omega)
    obtain ⟨out, h2, l2, g2⟩ := ih (p + stride) b1 (by omega)
    refine ⟨out, ?_, by omega, ?_⟩
    · rw [applyGammaLoop, h1, Option.some_bind, h2]
    · intro i
      rw [g2, g1, Nat.succ_mul]
      by_cases hlo : i < p + stride
      · rw [if_neg (by omega)]
        by_cases hin : p ≤ i ∧ i < p + 3
        · rw [if_pos hin, if_pos ⟨hin.1, by omega, by rw [Nat.mod_eq_of_lt (by omega)]; omega⟩]
        · rw [if_neg hin]
          by_cases hp : p ≤ i
          · rw [if_neg (by rw [Nat.mod_eq_of_lt (by omega)]; omega)]
          · rw [if_neg (by omega)]
      · have hmod : (i - (p + stride)) % stride = (i - p) % stride := by
          have : i - p = (i - (p + stride)) + stride := by omega
          rw [this, Nat.add_mod_right]
        rw [if_neg (show ¬ (p ≤ i ∧ i < p + 3) by omega), hmod]
        by_cases hc : i < p + stride + n * stride ∧ (i - p) % stride < 3
        · rw [if_pos ⟨by omega, hc.1, hc.2⟩, if_pos ⟨by omega, by omega, hc.2⟩]
        · rw [if_neg (fun h => hc ⟨h.2.1, h.2.2⟩), if_neg (fun h => hc ⟨by omega, h.2.2⟩)]

/-- C26: `applyGamma(buffer, gamma, size, bpp)` on a buffer of at least `size` bytes.
With `gamma == 1` it returns the buffer as it was, whatever `bpp` is; with another gamma
it is rejected (a failed `OgreAssert`) unless `bpp` is 24 or 32; and when it runs, with
`stride = bpp / 8`, it returns a buffer of the same length in which byte `i` is
`gammaramp gamma` of the old byte when `i` is one of the first three bytes of one of the
`size / stride` pixels and is the old byte otherwise: the fourth byte of a 4-byte pixel,
the `size mod stride` trailing bytes and the bytes from `size` on keep their values.
The table `gammaramp gamma` is the same for every pixel. -/
theorem applyGamma_touches_colour_bytes {G : Type} (B : Build) (isOne : G → Bool)
    (gammaramp : G → Nat → Nat) (buffer : List Nat) (gamma : G) (size bpp : Nat)
    (hsize : size ≤ buffer.length) :
    (isOne gamma = true →
      applyGamma B isOne gammaramp buffer gamma size bpp = .returned buffer) ∧
    (isOne gamma = false → bpp ≠ 24 → bpp ≠ 32 →
      applyGamma B isOne gammaramp buffer gamma size bpp = .raised B.ogreAssertCode) ∧
    (isOne gamma = false → bpp = 24 ∨ bpp = 32 →
      ∃ out, applyGamma B isOne gammaramp buffer gamma size bpp = .returned out ∧
        out.length = buffer.length ∧
        ∀ i, out.getD i 0
          = if i < size / (bpp / 8) * (bpp / 8) ∧ i % (bpp / 8) < 3 then
              gammaramp gamma (buffer.getD i 0)
            else buffer.getD i 0) := by
  refine ⟨?_, ?_, ?_⟩
  · intro h1
    simp [applyGamma, h1]
  · intro h1 h24 h32
    simp [applyGamma, h1, h24, h32]
  · intro h1 hb
    have key : ∀ stride, 3 ≤ stride → bpp >>> 3 = stride → bpp / 8 = stride →
        ∃ out, applyGamma B isOne gammaramp buffer gamma size bpp = .returned out ∧
          out.length = buffer.length ∧
          ∀ i, out.getD i 0
            = if i < size / (bpp / 8) * (bpp / 8) ∧ i % (bpp / 8) < 3 then
                gammaramp gamma (buffer.getD i 0)
              else buffer.getD i 0 := by
      intro stride hs hshift hdiv
      have hle : size / stride * stride ≤ size := Nat.div_mul_le_self size stride
      obtain ⟨out, hrun, hlen, hget⟩ := applyGammaLoop_spec (gammaramp gamma) stride hs
        (size / stride) 0 buffer (by omega)
      refine ⟨out, ?_, hlen, ?_⟩
      · unfold applyGamma
        rw [if_neg (by simp [h1]), if_neg (not_not_intro hb)]
        simp only [hshift, hrun]
      · intro i
        rw [hget i, hdiv]
        simp only [Nat.zero_le, true_and, Nat.zero_add, Nat.sub_zero]
    rcases hb with h | h
    · exact key 3 (by decide) (by rw [h]; rfl) (by rw [h])
    · exact key 4 (by decide) (by rw [h]; rfl) (by rw [h])

theorem applyGamma_touches_colour_bytes_witness :
    applyGamma sampleBuild sampleGammaIsOne sampleGammaramp [1, 2, 3, 4, 5, 6, 7, 8, 9] 5 9 32
        = .returned [6, 7, 8, 4, 10, 11, 12, 8, 9] ∧
      ∃ out, applyGamma sampleBuild sampleGammaIsOne sampleGammaramp
          [1, 2, 3, 4, 5, 6, 7, 8, 9] 5 9 32 = .returned out ∧
        out.length = ([1, 2, 3, 4, 5, 6, 7, 8, 9] : List Nat).length ∧
        ∀ i, out.getD i 0
          = if i < 9 / (32 / 8) * (32 / 8) ∧ i % (32 / 8) < 3 then
              sampleGammaramp 5 (([1, 2, 3, 4, 5, 6, 7, 8, 9] : List Nat).getD i 0)
            else ([1, 2, 3, 4, 5, 6, 7, 8, 9] : List Nat).getD i 0 :=
  ⟨by decide,
    (applyGamma_touches_colour_bytes sampleBuild sampleGammaIsOne sampleGammaramp
      [1, 2, 3, 4, 5, 6, 7, 8, 9] 5 9 32 (by decide)).2.2 rfl (Or.inr rfl)⟩

/-! ### C25: what a failing flip leaves behind -/

/-- C25 (as amended): `flipAroundX` and `flipAroundY` fail exactly as follows.  Without a
buffer both raise `ERR_INTERNAL_ERROR` with the image as it was.  With a buffer,
`flipAroundX` does not fail, and `flipAroundY` fails exactly when the element size is not
1, 2, 3 or 4; the image at that failure is the image before the call with the stored mip
count set to 0 (every other field and the buffer are as before). -/
theorem failing_flip_effect (P : PixelUtil) (fuel : Nat) (img : Image) :
    (img.mBuffer = none →
      flipAroundX P img = .raised .ERR_INTERNAL_ERROR img ∧
        flipAroundY fuel img = some (.raised .ERR_INTERNAL_ERROR img)) ∧
    (img.mBuffer ≠ none →
      (∀ code img1, flipAroundX P img ≠ .raised code img1) ∧
      ((img.mPixelSize ≠ 1 ∧ img.mPixelSize ≠ 2 ∧ img.mPixelSize ≠ 3 ∧ img.mPixelSize ≠ 4) →
        flipAroundY fuel img
          = some (.raised .ERR_INTERNAL_ERROR { img with mNumMipmaps := 0 })) ∧
      ((img.mPixelSize = 1 ∨ img.mPixelSize = 2 ∨ img.mPixelSize = 3 ∨ img.mPixelSize = 4) →
        ∀ code img1, flipAroundY fuel img ≠ some (.raised code img1))) := by
  refine ⟨?_, ?_⟩
  · intro h
    constructor
    · unfold flipAroundX
      rw [h]
    · unfold flipAroundY
      rw [h]
  · intro h
    obtain ⟨buf, hbuf⟩ : ∃ buf, img.mBuffer = some buf := by
      cases hb : img.mBuffer with
      | none => exact absurd hb h
      | some b => exact ⟨b, rfl⟩
    refine ⟨?_, ?_, ?_⟩
    · intro code img1
      unfold flipAroundX
      split
      · rename_i hnone
        exact absurd hnone h
      · obtain ⟨box, hbox⟩ := getPixelBox_zero_ok P { img with mNumMipmaps := 0 }
        dsimp only
        rw [hbox]
        intro hc
        cases hc
    · intro hsz
      unfold flipAroundY
      rw [hbuf]
      dsimp only
      split
      · exact absurd (by assumption) hsz.1
      · exact absurd (by assumption) hsz.2.1
      · exact absurd (by assumption) hsz.2.2.1
      · exact absurd (by assumption) hsz.2.2.2
      · rfl
    · intro hsz code img1
      unfold flipAroundY
      rw [hbuf]
      dsimp only
      rcases hsz with h1 | h1 | h1 | h1 <;> rw [h1] <;> dsimp only <;>
        cases flipRowsLoop _ img.mWidth img.mHeight fuel 0 buf <;>
        simp

theorem failing_flip_effect_witness :
    (flipAroundX sampleCatalogue emptyImage = .raised .ERR_INTERNAL_ERROR emptyImage ∧
        flipAroundY 1 emptyImage = some (.raised .ERR_INTERNAL_ERROR emptyImage)) ∧
      flipAroundY 1 floatMipImage
        = some (.raised .ERR_INTERNAL_ERROR { floatMipImage with mNumMipmaps := 0 }) :=
  ⟨(failing_flip_effect sampleCatalogue 1 emptyImage).1 rfl,
    ((failing_flip_effect sampleCatalogue 1 floatMipImage).2 (by decide)).2.1 (by decide)⟩

/-- C25 (the claim as stated fails): `flipAroundY` on the 2×2 image of sixteen-byte
elements with one further mip level fails, and the stored mip count at the failure is 0,
not the 1 it was before the call. -/
theorem failing_flip_not_atomic_counterexample :
    ∃ img1, flipAroundY 1 floatMipImage = some (.raised .ERR_INTERNAL_ERROR img1) ∧
      img1.mNumMipmaps = 0 ∧ floatMipImage.mNumMipmaps = 1 ∧ img1 ≠ floatMipImage :=
  ⟨{ floatMipImage with mNumMipmaps := 0 }, by decide, rfl, rfl, by decide⟩

/-! ### C24: termination of the row loop -/

/-- C24 (the code on every image of 65536 or more rows): with a buffer, an element size
of 1, 2, 3 or 4 and a stored height of 65536 or more, `flipAroundY` does not return,
however much fuel the row loop is given: the `ushort` counter `y` never reaches the
height. -/
theorem flipAroundY_never_returns_beyond_ushort (fuel : Nat) (img : Image) (buf : List Nat)
    (hbuf : img.mBuffer = some buf)
    (hsz : img.mPixelSize = 1 ∨ img.mPixelSize = 2 ∨ img.mPixelSize = 3 ∨ img.mPixelSize = 4)
    (hh : USHORT_MOD ≤ img.mHeight) :
    flipAroundY fuel img = none := by
  have hloop : ∀ e, flipRowsLoop e img.mWidth img.mHeight fuel 0 buf = none :=
    fun e => flipRowsLoop_never_exits e img.mWidth img.mHeight hh fuel 0 buf (by decide)
  unfold flipAroundY
  rw [hbuf]
  dsimp only
  rcases hsz with h | h | h | h <;> rw [h] <;> simp only [hloop, Option.map_none']

theorem flipAroundY_never_returns_beyond_ushort_witness :
    flipAroundY 100000 tallPairImage = none :=
  flipAroundY_never_returns_beyond_ushort 100000 tallPairImage (List.replicate 280000 0) rfl
    (Or.inr (Or.inl rfl)) (by decide)

/-! ### C22: the alpha pass of `combineTwoImagesAsRGBA` on a further mip level -/

/-- C22 (the code at the failing input): for the 2×2 rgb and alpha images with one mip
level beyond the base, level 1 of the alpha source is the single pixel at offset 12 of
its 15 bytes and the result takes 20 bytes, but the alpha pass of level 1 runs over
`mWidth * mHeight * mDepth = 4` pixels: the call reads and writes outside the buffers. -/
theorem combine_mip_level_overruns :
    getPixelBox sampleCatalogue mipGreyImage 0 1
        = .ok { width := 1, height := 1, depth := 1, format := .PF_R8G8B8, data := 12 } ∧
      calculateSize sampleCatalogue 1 1 2 2 1 .PF_R8G8B8A8 = 20 ∧
      combineTwoImagesAsRGBA sampleCatalogue convResamplers sampleColourOps sampleFresh 3
        emptyImage mipRedImage mipGreyImage .PF_R8G8B8A8 = some .outOfBounds := by
  refine ⟨rfl, by decide, by decide⟩

/-! ### C21: `flipAroundY` reverses each row -/

/-- With an element size of 1, 2, 3 or 4 `flipAroundY` is the row loop for that
size. -/
theorem flipAroundY_supported (fuel : Nat) (img : Image) (buf : List Nat)
    (hbuf : img.mBuffer = some buf)
    (hsz : img.mPixelSize = 1 ∨ img.mPixelSize = 2 ∨ img.mPixelSize = 3 ∨ img.mPixelSize = 4) :
    flipAroundY fuel img
      = (flipRowsLoop img.mPixelSize img.mWidth img.mHeight fuel 0 buf).map
          fun b => .returned { img with mNumMipmaps := 0, mBuffer := some b } := by
  obtain ⟨w, h, d, bs, nm, fl, fmt, ps, b, ad⟩ := img
  simp only at hbuf hsz
  subst hbuf
  rcases hsz with rfl | rfl | rfl | rfl <;> rfl

/-- The byte at position `j` of the element at column `x` of row `y` comes from the same
position of the element at column `w - 1 - x` of the same row. -/
theorem mirrorIndex_element (e w x y j : Nat) (hx : x < w) (hj : j < e) :
    mirrorIndex e w ((y * w + x) * e + j) = (y * w + (w - 1 - x)) * e + j := by
  have he : 0 < e := by omega
  have hW : 0 < w * e := Nat.mul_pos (by omega) he
  have hrow : x * e + j < w * e := by
    have := Nat.mul_le_mul_right e (show x + 1 ≤ w by omega)
    rw [Nat.succ_mul] at this
    omega
  have hi : (y * w + x) * e + j = (x * e + j) + (w * e) * y := by ring
  have hq : ((y * w + x) * e + j) / (w * e) = y := by
    rw [hi, Nat.add_mul_div_left _ _ hW, Nat.div_eq_of_lt hrow, Nat.zero_add]
  have hr : ((y * w + x) * e + j) % (w * e) = x * e + j := by
    rw [hi, Nat.add_mul_mod_self_left, Nat.mod_eq_of_lt hrow]
  have hx1 : (x * e + j) / e = x := by
    rw [Nat.add_comm, Nat.mul_comm, Nat.add_mul_div_left _ _ he, Nat.div_eq_of_lt hj,
      Nat.zero_add]
  have hx2 : (x * e + j) % e = j := by
    rw [Nat.add_comm, Nat.mul_comm, Nat.add_mul_mod_self_left, Nat.mod_eq_of_lt hj]
  unfold mirrorIndex
  rw [hq, hr, hx1, hx2]
  ring

/-- The row loop of `flipAroundY` on a base slice inside the buffer, with a height that is
a `ushort` value and `width * height` a `uint32` value: every row is reversed element by
element, and the bytes after the slice keep their values. -/
theorem flipRowsLoop_reverses (e w h : Nat) (he : 1 ≤ e) (hh : h < USHORT_MOD)
    (hwh : w * h < UINT32_MOD) (fuel : Nat) (buf : List Nat) (hfuel : h < fuel)
    (hlen : h * (w * e) ≤ buf.length) :
    ∃ out, flipRowsLoop e w h fuel 0 buf = some out ∧ out.length = buf.length ∧
      (∀ x y j, x < w → y < h → j < e →
        out.getD ((y * w + x) * e + j) 0 = buf.getD ((y * w + (w - 1 - x)) * e + j) 0) ∧
      ∀ i, w * h * e ≤ i → out.getD i 0 = buf.getD i 0 := by
  obtain ⟨out, hrun, hL, hget⟩ := flipRowsLoop_getD e w h he hh hwh h 0 fuel buf (by omega)
    hfuel hlen
  refine ⟨out, hrun, hL, ?_, ?_⟩
  · intro x y j hx hy hj
    have hrow : x * e + j < w * e := by
      have := Nat.mul_le_mul_right e (show x + 1 ≤ w by omega)
      rw [Nat.succ_mul] at this
      omega
    have hrows : y * (w * e) + w * e ≤ h * (w * e) := by
      have := Nat.mul_le_mul_right (w * e) (show y + 1 ≤ h by omega)
      rw [Nat.succ_mul] at this
      exact this
    have hi : (y * w + x) * e + j = y * (w * e) + (x * e + j) := by ring
    have hlt : (y * w + x) * e + j < h * (w * e) := by omega
    rw [hget _ (by omega), if_pos ⟨by omega, hlt⟩, mirrorIndex_element e w x y j hx hj]
  · intro i hi
    have hwhe : w * h * e = h * (w * e) := by ring
    by_cases hlt : i < buf.length
    · rw [hget i hlt, if_neg (by omega)]
    · rw [List.getD_eq_default _ _ (by omega), List.getD_eq_default _ _ (by omega)]

/-- What C21 says, where the row offsets do not wrap: for an image whose buffer holds the
base slice, with element size `s` in 1..4, height at most 65535 and
`width * height < 2^32`, `flipAroundY` returns; in the new buffer the element at column
`x` of row `y` is the old element at column `width - 1 - x` of the same row, byte for
byte, and every byte from offset `width * height * s` on is unchanged. -/
theorem flipAroundY_reverses_rows (fuel : Nat) (img : Image) (buf : List Nat)
    (hbuf : img.mBuffer = some buf)
    (hsz : img.mPixelSize = 1 ∨ img.mPixelSize = 2 ∨ img.mPixelSize = 3 ∨ img.mPixelSize = 4)
    (hh : img.mHeight < USHORT_MOD) (hwh : img.mWidth * img.mHeight < UINT32_MOD)
    (hlen : img.mHeight * (img.mWidth * img.mPixelSize) ≤ buf.length)
    (hfuel : img.mHeight < fuel) :
    ∃ out, flipAroundY fuel img
        = some (.returned { img with mNumMipmaps := 0, mBuffer := some out }) ∧
      out.length = buf.length ∧
      (∀ x y j, x < img.mWidth → y < img.mHeight → j < img.mPixelSize →
        out.getD ((y * img.mWidth + x) * img.mPixelSize + j) 0
          = buf.getD ((y * img.mWidth + (img.mWidth - 1 - x)) * img.mPixelSize + j) 0) ∧
      ∀ i, img.mWidth * img.mHeight * img.mPixelSize ≤ i → out.getD i 0 = buf.getD i 0 := by
  obtain ⟨out, hrun, hL, hrows, hrest⟩ := flipRowsLoop_reverses img.mPixelSize img.mWidth
    img.mHeight (by omega) hh hwh fuel buf hfuel hlen
  refine ⟨out, ?_, hL, hrows, hrest⟩
  rw [flipAroundY_supported fuel img buf hbuf hsz, hrun]
  rfl

theorem wrapBuffer_length : wrapBuffer.length = 4294967296 := by
  unfold wrapBuffer
  rw [List.length_append, List.length_replicate]
  rfl

theorem wrapBuffer_row1_first : wrapBuffer.getD 2147483648 0 = 0 := by
  unfold wrapBuffer
  rw [List.getD_eq_getElem?_getD,
    List.getElem?_append_left (by rw [List.length_replicate]; decide),
    List.getElem?_replicate, if_pos (by decide)]
  rfl

theorem wrapBuffer_row1_last : wrapBuffer.getD 4294967295 0 = 1 := by
  unfold wrapBuffer
  rw [List.getD_eq_getElem?_getD,
    List.getElem?_append_right (by rw [List.length_replicate]), List.length_replicate]
  rfl

/-- C21 (the code at the failing input): on the image of `2^31` columns and 2 rows of
one-byte elements, the `uint32` product `mWidth * (y + 1)` for row 1 is `2^32`, which
wraps to 0, so the second call is `std::reverse(mBuffer + 2^31, mBuffer + 0)` and row 1 is
not reversed: `flipAroundY` returns with 0 at column 0 of row 1 (offset `2^31`), where the
original element at column `mWidth - 1` of that row (offset `2^32 - 1`) is 1. -/
theorem flipAroundY_row_offset_wraps :
    (wrapImage.mWidth * 1) % UINT32_MOD = 2147483648 ∧
      (wrapImage.mWidth * (1 + 1)) % UINT32_MOD = 0 ∧
      ∃ out, flipAroundY 3 wrapImage
          = some (.returned { wrapImage with mNumMipmaps := 0, mBuffer := some out }) ∧
        out.getD 2147483648 0 = 0 ∧ wrapBuffer.getD 4294967295 0 = 1 := by
  have hrun : flipRowsLoop 1 2147483648 2 3 0 wrapBuffer
      = some (reverseElements 1 2147483648 0 (reverseElements 1 0 2147483648 wrapBuffer)) :=
    rfl
  refine ⟨by decide, by decide,
    reverseElements 1 2147483648 0 (reverseElements 1 0 2147483648 wrapBuffer), ?_, ?_,
    wrapBuffer_row1_last⟩
  · rw [flipAroundY_supported 3 wrapImage wrapBuffer rfl (Or.inl rfl)]
    show (flipRowsLoop 1 2147483648 2 3 0 wrapBuffer).map _ = _
    rw [hrun]
    rfl
  · rw [reverseElements_getD _ _ _ _ _
        (by rw [reverseElements_length, wrapBuffer_length]; decide),
      if_neg (by decide),
      reverseElements_getD _ _ _ _ _ (by rw [wrapBuffer_length]; decide),
      if_neg (by decide)]
    exact wrapBuffer_row1_first

end Ogre
